import Mathlib

/-! # Document analysis pipeline: normalisation, statistics, similarity, caching, parsing

A shallow embedding of `server/services/fileService.js`,
`server/services/geminiService.js`, `server/models/Document.js` and the
handlers of `server/routes/documents.js`.

Conventions of the embedding.

* A JavaScript string is embedded as a `List Char`, one `Char` per UTF-16 code
  unit; the embedding therefore covers strings without surrogate code units,
  for which `length`, `substring`, `split` and the regular expressions used by
  the code act position by position as the list functions below do.
* JavaScript numbers that hold counts and offsets are `Nat`; a string has fewer
  than `2^53` code units, so they are exact. Integers read by `parseInt` are the
  `Nat` value of the JavaScript number it returns, rounded as it rounds above
  `2^53`. Embedding components and similarities live in an
  ordered field `α` with a square-root function passed as a parameter; the
  theorems about them take `α := ℝ` with `Real.sqrt`.
* `null` / `undefined` is `Option.none`.
* A thrown `Error` is `Except.error` carrying the message.
-/

namespace DocAnalysis

/-! ## JavaScript string primitives -/

/-- The regular-expression class `\s` (which is also the set removed by
`String.prototype.trim`): WhiteSpace and LineTerminator code points. -/
def isJsWhitespace (c : Char) : Bool :=
  let n := c.toNat
  n == 0x09 || n == 0x0A || n == 0x0B || n == 0x0C || n == 0x0D || n == 0x20 ||
  n == 0xA0 || n == 0x1680 || (0x2000 ≤ n && n ≤ 0x200A) || n == 0x2028 ||
  n == 0x2029 || n == 0x202F || n == 0x205F || n == 0x3000 || n == 0xFEFF

/-- The regular-expression class `\d`. -/
def isJsDigit (c : Char) : Bool :=
  0x30 ≤ c.toNat && c.toNat ≤ 0x39

/-- The call `s.replace(/X+/g, r)` for a character class `X` (given as `p`):
every maximal run of characters of the class is replaced by the single
character `r`. The flag records that the previous character was in the class. -/
def replaceRuns (p : Char → Bool) (r : Char) : Bool → List Char → List Char
  | _, [] => []
  | inRun, c :: cs =>
    if p c then
      if inRun then replaceRuns p r true cs else r :: replaceRuns p r true cs
    else c :: replaceRuns p r false cs

/-- The method `String.prototype.trim`. -/
def jsTrim (s : List Char) : List Char :=
  ((s.dropWhile isJsWhitespace).reverse.dropWhile isJsWhitespace).reverse

/-- The call `s.split(c)` for a one-character separator `c`; the second
argument accumulates the current piece in reverse. -/
def splitChar (sep : Char) : List Char → List Char → List (List Char)
  | acc, [] => [acc.reverse]
  | acc, c :: cs =>
    if c = sep then acc.reverse :: splitChar sep [] cs else splitChar sep (c :: acc) cs

/-- The call `s.split(/\s+/)`: the pieces between maximal whitespace runs,
empty leading and trailing pieces included. -/
def splitWhitespace : Bool → List Char → List Char → List (List Char)
  | _, acc, [] => [acc.reverse]
  | inRun, acc, c :: cs =>
    if isJsWhitespace c then
      if inRun then splitWhitespace true acc cs
      else acc.reverse :: splitWhitespace true [] cs
    else splitWhitespace false (c :: acc) cs

/-- After a line feed has been read, the number of further characters consumed
by the rest `\s*\n` of the pattern `/\n\s*\n/`: the greedy `\s*` takes the whole
whitespace run and backtracks to its last line feed. -/
def blankLineMatch (rest : List Char) : Option Nat :=
  let run := rest.takeWhile isJsWhitespace
  let back := run.reverse.dropWhile (fun c => c != '\n')
  if back.isEmpty then none else some back.length

/-- The call `s.split(/\n\s*\n/)`. The counter is the number of characters of
the current separator match still to be skipped. -/
def splitBlankLines : Nat → List Char → List Char → List (List Char)
  | _, acc, [] => [acc.reverse]
  | skip + 1, acc, _ :: cs => splitBlankLines skip acc cs
  | 0, acc, c :: cs =>
    if c = '\n' then
      match blankLineMatch cs with
      | some n => acc.reverse :: splitBlankLines n [] cs
      | none => splitBlankLines 0 (c :: acc) cs
    else splitBlankLines 0 (c :: acc) cs

/-! ## fileService.js -/

/-- The method `cleanText` of `FileService`. -/
def cleanText (text : List Char) : List Char :=
  if text.isEmpty then []
  else
    jsTrim (replaceRuns (fun c => c == '\n') '\n' false
      (replaceRuns isJsWhitespace ' ' false text))

/-- The value of the field `averageWordLength`: the number `0` the object is
created with, or the result of `toFixed(2)`, kept as the number of hundredths. -/
inductive AverageWordLength where
  | zero : AverageWordLength
  | fixed2 (hundredths : Nat) : AverageWordLength
  deriving DecidableEq, Repr

/-- The object returned by `analyzeFileContent`. -/
structure Analysis where
  characterCount : Nat
  wordCount : Nat
  lineCount : Nat
  paragraphCount : Nat
  averageWordLength : AverageWordLength
  readingTime : Nat
  deriving DecidableEq, Repr

/-- The expression `text.split(/\s+/).filter(word => word.length > 0)`. -/
def wordsOf (text : List Char) : List (List Char) :=
  (splitWhitespace false [] text).filter (fun word => decide (word.length > 0))

/-- The number of doublings of `a` after which `a / b` is at least `2^52`; the
first argument bounds the count. -/
def quotientShift : Nat → Nat → Nat → Nat
  | 0, _, _ => 0
  | fuel + 1, a, b => if 2 ^ 52 * b ≤ a then 0 else 1 + quotientShift fuel (2 * a) b

/-- The expression `(a / b).toFixed(2)` for integers `a < 2^53` and
`0 < b < 2^53`, as a number of hundredths. The quotient is the JavaScript
number `m / 2^k` nearest to `a / b`, with `m` the 53 leading binary digits
rounded to nearest, ties to even; `toFixed(2)` then takes the integer `n` with
`n / 100` nearest to that number, the larger one of two. -/
def quotientToFixed2 (a b : Nat) : Nat :=
  if a = 0 then 0
  else
    let k := quotientShift (53 + b) a b
    let m0 := a * 2 ^ k / b
    let rem := a * 2 ^ k % b
    let m :=
      if 2 * rem < b then m0
      else if b < 2 * rem then m0 + 1
      else if m0 % 2 = 0 then m0
      else m0 + 1
    (200 * m + 2 ^ k) / 2 ^ (k + 1)

/-- The method `analyzeFileContent` of `FileService`. -/
def analyzeFileContent (text : List Char) : Analysis :=
  let wordCount := (wordsOf text).length
  let words := wordsOf text
  let totalLength := words.foldl (fun sum word => sum + word.length) 0
  { characterCount := text.length
    wordCount := wordCount
    lineCount := (splitChar '\n' [] text).length
    paragraphCount :=
      ((splitBlankLines 0 [] text).filter
        (fun para => decide ((jsTrim para).length > 0))).length
    averageWordLength :=
      if words.length > 0 then
        AverageWordLength.fixed2 (quotientToFixed2 totalLength words.length)
      else AverageWordLength.zero
    readingTime := (wordCount + 199) / 200 }

/-! ## geminiService.js: similarity -/

section Similarity

variable {α : Type} [LinearOrderedField α]

/-- The loop of `calculateSimilarity`: the triple `(dotProduct, norm1, norm2)`
after running over the indices of two arrays of equal length. -/
def similaritySums (embedding1 embedding2 : List α) : α × α × α :=
  (embedding1.zip embedding2).foldl
    (fun acc p => (acc.1 + p.1 * p.2, acc.2.1 + p.1 * p.1, acc.2.2 + p.2 * p.2))
    (0, 0, 0)

/-- The method `calculateSimilarity` of `GeminiService`; `sqrt` stands for
`Math.sqrt`. -/
def calculateSimilarity (sqrt : α → α) (embedding1 embedding2 : Option (List α)) : α :=
  match embedding1, embedding2 with
  | some e1, some e2 =>
    if e1.length ≠ e2.length then 0
    else
      let sums := similaritySums e1 e2
      let norm1 := sqrt sums.2.1
      let norm2 := sqrt sums.2.2
      if norm1 = 0 ∨ norm2 = 0 then 0
      else sums.1 / (norm1 * norm2)
  | _, _ => 0

end Similarity

/-! ## geminiService.js: parsing the in-document search response -/

/-- The call `s.includes(pat)`. -/
def jsIncludes (pat : List Char) : List Char → Bool
  | [] => pat.isEmpty
  | c :: cs => pat.isPrefixOf (c :: cs) || jsIncludes pat cs

/-- The call `s.split(sep)` for a non-empty separator string. The counter is the
number of characters of the separator just found that are still to be skipped. -/
def splitString (sep : List Char) : Nat → List Char → List Char → List (List Char)
  | _, acc, [] => [acc.reverse]
  | skip + 1, acc, _ :: cs => splitString sep skip acc cs
  | 0, acc, c :: cs =>
    if sep.isPrefixOf (c :: cs) then acc.reverse :: splitString sep (sep.length - 1) [] cs
    else splitString sep 0 (c :: acc) cs

/-- The call `s.replace(pat, '')` for a non-empty string pattern: the first
occurrence is removed. -/
def removeFirst (pat : List Char) : List Char → List Char
  | [] => []
  | c :: cs =>
    if pat.isPrefixOf (c :: cs) then (c :: cs).drop pat.length
    else c :: removeFirst pat cs

/-- The integer written by a string of decimal digits. -/
def digitsValue (digits : List Char) : Nat :=
  digits.foldl (fun n c => 10 * n + (c.toNat - 48)) 0

/-- The number of halvings that bring a natural number below `2^53`, the size of
the significand of a JavaScript number; the first argument bounds the count. -/
def significandShift : Nat → Nat → Nat
  | 0, _ => 0
  | fuel + 1, n => if n < 2 ^ 53 then 0 else 1 + significandShift fuel (n / 2)

/-- The multiple of `2^shift` nearest to `n`; of two nearest ones, the even
multiple. -/
def roundToEven (n shift : Nat) : Nat :=
  let q := n / 2 ^ shift
  let r := n % 2 ^ shift
  if 2 * r < 2 ^ shift then q * 2 ^ shift
  else if 2 ^ shift < 2 * r then (q + 1) * 2 ^ shift
  else if q % 2 = 0 then q * 2 ^ shift
  else (q + 1) * 2 ^ shift

/-- The function `parseInt` on a non-empty string of decimal digits: the
JavaScript number nearest to the integer written, which is the integer itself
when it is below `2^53` and otherwise has its 53 leading binary digits rounded
to nearest, ties to even (Node reads every digit of the string). A string of
`n` digits writes an integer below `2^(4n)`, which bounds the number of
halvings. The embedding covers strings of at most 308 digits, which write an
integer below the largest JavaScript number; for an integer of `2^1024` or more
`parseInt` returns `Infinity`. -/
def parseDigits (digits : List Char) : Nat :=
  roundToEven (digitsValue digits) (significandShift (4 * digits.length) (digitsValue digits))

/-- The call `s.substring(start, end)` for non-negative integer arguments: both
are clamped to the length and exchanged when the first is the larger. -/
def jsSubstring (s : List Char) (start end_ : Nat) : List Char :=
  let finalStart := min start s.length
  let finalEnd := min end_ s.length
  let lower := min finalStart finalEnd
  let upper := max finalStart finalEnd
  (s.drop lower).take (upper - lower)

/-- The segment marker looked for in a line. -/
def segmentMarker : List Char := "BÖLÜM".toList

/-- The label of the importance pattern. -/
def importanceLabel : List Char := "Önem:".toList

/-- The call `s.match(/(\d+)-(\d+)/)`, reduced to the two parsed groups: the
leftmost place where a digit run, a hyphen and a digit run follow each other. -/
def matchPosition : List Char → Option (Nat × Nat)
  | [] => none
  | c :: cs =>
    match (c :: cs).takeWhile isJsDigit, (c :: cs).dropWhile isJsDigit with
    | d :: ds, '-' :: rest =>
      match rest.takeWhile isJsDigit with
      | [] => matchPosition cs
      | e :: es => some (parseDigits (d :: ds), parseDigits (e :: es))
    | _, _ => matchPosition cs

/-- The call `s.match(/Önem:\s*(\d+)/)`, reduced to the parsed group. -/
def matchImportance : List Char → Option Nat
  | [] => none
  | c :: cs =>
    if importanceLabel.isPrefixOf (c :: cs) then
      match (((c :: cs).drop importanceLabel.length).dropWhile isJsWhitespace).takeWhile
          isJsDigit with
      | [] => matchImportance cs
      | d :: ds => some (parseDigits (d :: ds))
    else matchImportance cs

/-- A record pushed to `parsedResults`. -/
structure SearchResult where
  start : Nat
  end_ : Nat
  text : List Char
  description : List Char
  importance : Nat
  deriving DecidableEq, Repr

/-- The body of the loop of `parseSearchResults` for one line: the record
pushed for it, if any. -/
def parseLine (documentText line : List Char) : Option SearchResult :=
  if jsIncludes segmentMarker line && jsIncludes ['-'] line then
    let parts := splitString " - ".toList 0 [] line
    if parts.length ≥ 3 then
      let positionPart := jsTrim (removeFirst segmentMarker (parts.getD 0 []))
      match matchPosition positionPart with
      | some (start, end_) =>
        let description := parts.getD 1 []
        let importance :=
          match matchImportance (parts.getD 2 []) with
          | some n => n
          | none => 5
        some
          { start := start
            end_ := end_
            text := jsSubstring documentText start end_
            description := description
            importance := importance }
      | none => none
    else none
  else none

/-- The lines kept by `resultsText.split('\n').filter(line => line.trim())`. -/
def responseLines (resultsText : List Char) : List (List Char) :=
  (splitChar '\n' [] resultsText).filter (fun line => !(jsTrim line).isEmpty)

/-- The array `parsedResults` when the loop of `parseSearchResults` ends. -/
def emittedRecords (resultsText documentText : List Char) : List SearchResult :=
  (responseLines resultsText).filterMap (parseLine documentText)

/-- The call `parsedResults.sort((a, b) => b.importance - a.importance)`:
`Array.prototype.sort` is a stable sort, here by descending importance. -/
def sortByImportance (parsedResults : List SearchResult) : List SearchResult :=
  parsedResults.insertionSort (fun a b => b.importance ≤ a.importance)

/-- The method `parseSearchResults` of `GeminiService`. None of the string
operations of its body throws, so its `catch` branch is never taken. -/
def parseSearchResults (resultsText documentText : List Char) : List SearchResult :=
  sortByImportance (emittedRecords resultsText documentText)

/-! ## geminiService.js: summary and keywords -/

/-- The generative capability `this.model.generateContent(prompt)` followed by
`response.text()`: the answer to the call number `n` (counted from `0`) with
the given prompt is either the response text or the message of the error
thrown. -/
abbrev Generative := Nat → List Char → Except (List Char) (List Char)

/-- The prompt built by `summarizeText`. -/
def summaryPrompt (text : List Char) (maxLength : Nat) : List Char :=
  "\n        Aşağıdaki metni Türkçe olarak özetle. Özet ".toList ++ (toString maxLength).toList ++
  " kelimeyi geçmesin ve metnin ana fikirlerini içersin:\n        \n        ".toList ++ text ++
  "\n        \n        Özet:\n      ".toList

/-- The prompt built by `extractKeywords`. -/
def keywordsPrompt (text : List Char) (maxKeywords : Nat) : List Char :=
  "\n        Aşağıdaki metinden en önemli ".toList ++ (toString maxKeywords).toList ++
  " anahtar kelimeyi veya kelime öbeğini çıkar. \n".toList ++
  "        Sadece anahtar kelimeleri virgülle ayırarak liste halinde ver, başka açıklama ekleme:".toList ++
  "\n        \n        ".toList ++ text ++ "\n      ".toList

/-- The method `summarizeText` of `GeminiService`, called when `calls` calls of
the generative capability have been made: its result and the new number of
calls. -/
def summarizeText (gen : Generative) (calls : Nat) (text : List Char) (maxLength : Nat) :
    Except (List Char) (List Char) × Nat :=
  if text.isEmpty || (jsTrim text).length == 0 then
    (Except.error ("Metin özetlenirken bir hata oluştu: ".toList ++
      "Özetlenecek metin boş olamaz".toList), calls)
  else
    match gen calls (summaryPrompt text maxLength) with
    | Except.ok response => (Except.ok (jsTrim response), calls + 1)
    | Except.error message =>
      (Except.error ("Metin özetlenirken bir hata oluştu: ".toList ++ message), calls + 1)

/-- The method `extractKeywords` of `GeminiService`, called when `calls` calls of
the generative capability have been made: its result and the new number of
calls. -/
def extractKeywords (gen : Generative) (calls : Nat) (text : List Char) (maxKeywords : Nat) :
    Except (List Char) (List (List Char)) × Nat :=
  match gen calls (keywordsPrompt text maxKeywords) with
  | Except.ok response =>
    let keywordsText := jsTrim response
    (Except.ok ((((splitChar ',' [] keywordsText).map jsTrim).filter
      (fun keyword => decide (keyword.length > 0))).take maxKeywords), calls + 1)
  | Except.error _ =>
    (Except.error "Anahtar kelimeler çıkarılırken bir hata oluştu".toList, calls + 1)

/-! ## models/Document.js and routes/documents.js -/

/-- A document of the collection defined by `documentSchema`; identifiers and
dates are natural numbers. -/
structure Document (α : Type) where
  _id : Nat
  ownerId : Nat
  fileName : List Char
  fileType : List Char
  fileSize : Nat
  contentText : List Char
  summaryText : Option (List Char)
  keywords : List (List Char)
  embedding : Option (List α)
  uploadDate : Nat
  lastProcessed : Nat
  createdAt : Nat
  updatedAt : Nat

/-- The state the handlers act on: the document collection, and two counters
kept for the statements, the number of calls of `summarizeText` /
`extractKeywords` made by the handlers and the number of calls of the
generative capability. -/
structure World (α : Type) where
  documents : List (Document α)
  computeCalls : Nat
  generateCalls : Nat

/-- The answer of a handler. -/
inductive Response where
  | notFound : Response
  | summary (summary : List Char) (cached : Bool) : Response
  | keywords (keywords : List (List Char)) (cached : Bool) : Response
  | failure (status : Nat) (error message : List Char) : Response
  | deleted : Response
  | userDeleted : Response
  deriving DecidableEq, Repr

section Routes

variable {α : Type}

/-- The query `Document.findOne({ _id: id, ownerId: userId })`. -/
def findOne (documents : List (Document α)) (id userId : Nat) : Option (Document α) :=
  documents.find? (fun d => d._id == id && d.ownerId == userId)

/-- The condition `if (document.summaryText)`: the field is neither `null` nor
the empty string. -/
def summaryPresent (document : Document α) : Bool :=
  match document.summaryText with
  | some s => !s.isEmpty
  | none => false

/-- The `catch` branch of the summary handler. -/
def summaryFailure (message : List Char) : Response :=
  if jsIncludes "API_KEY".toList message || jsIncludes "authentication".toList message then
    Response.failure 500 "API Anahtarı Hatası".toList
      "Gemini API anahtarı geçersiz veya eksik. Lütfen sistem yöneticisi ile iletişime geçin.".toList
  else if jsIncludes "rate".toList message || jsIncludes "quota".toList message then
    Response.failure 429 "Rate Limit Hatası".toList
      "API istek limiti aşıldı. Lütfen bir süre bekleyip tekrar deneyin.".toList
  else
    Response.failure 500 "Özetleme hatası".toList
      ("Doküman özetlenirken bir hata oluştu: ".toList ++ message)

/-- The statements `document.summaryText = summary; document.lastProcessed = new
Date(); await document.save()` on the stored document `id`: the validator
`maxlength: 10000` of `summaryText` makes `save` throw, otherwise the modified
paths are written and `timestamps` sets `updatedAt`. -/
def saveSummary (documents : List (Document α)) (id : Nat) (summary : List Char) (now : Nat) :
    Except (List Char) (List (Document α)) :=
  if summary.length > 10000 then
    Except.error "Document validation failed: summaryText: Özet çok büyük".toList
  else
    Except.ok (documents.map (fun d =>
      if d._id = id then
        { d with summaryText := some summary, lastProcessed := now, updatedAt := now }
      else d))

/-- The statements `document.keywords = keywords; document.lastProcessed = new
Date(); await document.save()` on the stored document `id`: the setter
`trim: true` is applied to every keyword. -/
def saveKeywords (documents : List (Document α)) (id : Nat) (keywords : List (List Char))
    (now : Nat) : List (Document α) :=
  documents.map (fun d =>
    if d._id = id then
      { d with keywords := keywords.map jsTrim, lastProcessed := now, updatedAt := now }
    else d)

/-- The handler `POST /:id/summary` for the authenticated user `userId` at time
`now`. -/
def summaryRoute (gen : Generative) (now userId id : Nat) (w : World α) : Response × World α :=
  match findOne w.documents id userId with
  | none => (Response.notFound, w)
  | some document =>
    if summaryPresent document then
      (Response.summary (document.summaryText.getD []) true, w)
    else
      match summarizeText gen w.generateCalls document.contentText 500 with
      | (Except.error message, calls) =>
        (summaryFailure message,
          { w with computeCalls := w.computeCalls + 1, generateCalls := calls })
      | (Except.ok summary, calls) =>
        match saveSummary w.documents document._id summary now with
        | Except.error message =>
          (summaryFailure message,
            { w with computeCalls := w.computeCalls + 1, generateCalls := calls })
        | Except.ok documents =>
          (Response.summary summary false,
            { documents := documents
              computeCalls := w.computeCalls + 1
              generateCalls := calls })

/-- The handler `POST /:id/keywords` for the authenticated user `userId` at time
`now`. -/
def keywordsRoute (gen : Generative) (now userId id : Nat) (w : World α) : Response × World α :=
  match findOne w.documents id userId with
  | none => (Response.notFound, w)
  | some document =>
    if decide (document.keywords.length > 0) then
      (Response.keywords document.keywords true, w)
    else
      match extractKeywords gen w.generateCalls document.contentText 10 with
      | (Except.error _, calls) =>
        (Response.failure 500 "Anahtar kelime hatası".toList
            "Anahtar kelimeler çıkarılırken bir hata oluştu.".toList,
          { w with computeCalls := w.computeCalls + 1, generateCalls := calls })
      | (Except.ok keywords, calls) =>
        (Response.keywords keywords false,
          { documents := saveKeywords w.documents document._id keywords now
            computeCalls := w.computeCalls + 1
            generateCalls := calls })

end Routes

/-! ## routes/documents.js: the semantic pass of `GET /search` -/

section Search

variable {α : Type} [LinearOrderedField α]

/-- The projection `.select('-embedding')`: the document is loaded without its
`embedding` path. -/
def selectWithoutEmbedding (d : Document α) : Document α :=
  { d with embedding := none }

/-- The query `Document.find({ ownerId: userId }).select('-embedding')`. -/
def findAllOfOwner (documents : List (Document α)) (userId : Nat) : List (Document α) :=
  (documents.filter (fun d => d.ownerId == userId)).map selectWithoutEmbedding

/-- The call `xs.slice(0, n)` for an integer `n`; a negative `n` counts from
the end. -/
def sliceFromZero {β : Type} (xs : List β) (n : Int) : List β :=
  if 0 ≤ n then xs.take n.toNat else xs.take (xs.length - n.natAbs)

/-- An element of `semanticResults`: the document object with the added field
`similarity`. -/
structure SemanticHit (α : Type) where
  document : Document α
  similarity : α

/-- The array `semanticResults` of the handler `GET /search`, for the query
embedding, the requesting user and the parsed limit. -/
def semanticResults (sqrt : α → α) (queryEmbedding : Option (List α))
    (documents : List (Document α)) (userId : Nat) (limit : Int) : List (SemanticHit α) :=
  let allDocuments := findAllOfOwner documents userId
  let scored : List (SemanticHit α) :=
    allDocuments.map (fun doc =>
      { document := doc
        similarity := calculateSimilarity sqrt queryEmbedding doc.embedding })
  let kept := scored.filter (fun result => decide (result.similarity > 3 / 10))
  let sorted := kept.insertionSort (fun a b => b.similarity ≤ a.similarity)
  sliceFromZero sorted limit

end Search


/-! ## Functions of the platform and of the libraries -/

/-- The functions the code calls whose definition lies outside the repository:
`String.prototype.toLowerCase`, `path.extname`, the library calls `pdfParse`
and `mammoth.extractRawText` (`none` when they throw) and the UTF-8 decoding
`buffer.toString('utf-8')`. A buffer is the list of its bytes. -/
structure Externals where
  toLowerCase : List Char → List Char
  extname : List Char → List Char
  pdfParse : List Nat → Option (List Char)
  extractRawText : List Nat → Option (List Char)
  utf8Decode : List Nat → List Char

/-! ## fileService.js: file types, validation, file names -/

/-- The array `supportedTypes`, which is also the `enum` of `fileType` in the
schema. -/
def supportedTypes : List (List Char) := ["pdf".toList, "docx".toList, "txt".toList]

/-- The method `extractTextFromPDF` of `FileService`. -/
def extractTextFromPDF (E : Externals) (buffer : List Nat) : Except (List Char) (List Char) :=
  match E.pdfParse buffer with
  | some text => Except.ok text
  | none =>
    Except.error
      "PDF dosyasından metin çıkarılamadı. Dosyanın metin içerikli olduğundan emin olun.".toList

/-- The method `extractTextFromDocx` of `FileService`. -/
def extractTextFromDocx (E : Externals) (buffer : List Nat) : Except (List Char) (List Char) :=
  match E.extractRawText buffer with
  | some text => Except.ok text
  | none => Except.error "Word dosyasından metin çıkarılamadı.".toList

/-- The method `extractTextFromTxt` of `FileService`. -/
def extractTextFromTxt (E : Externals) (buffer : List Nat) : Except (List Char) (List Char) :=
  Except.ok (E.utf8Decode buffer)

/-- The method `extractTextFromFile` of `FileService`. -/
def extractTextFromFile (E : Externals) (buffer : List Nat) (fileType : List Char) :
    Except (List Char) (List Char) :=
  if E.toLowerCase fileType = "pdf".toList then extractTextFromPDF E buffer
  else if E.toLowerCase fileType = "docx".toList then extractTextFromDocx E buffer
  else if E.toLowerCase fileType = "txt".toList then extractTextFromTxt E buffer
  else Except.error ("Desteklenmeyen dosya türü: ".toList ++ fileType)

/-- The method `getFileTypeFromName` of `FileService`. -/
def getFileTypeFromName (E : Externals) (fileName : List Char) : Except (List Char) (List Char) :=
  let extension := (E.toLowerCase (E.extname fileName)).drop 1
  if !(supportedTypes.contains extension) then
    Except.error ("Desteklenmeyen dosya türü: ".toList ++ extension)
  else Except.ok extension

/-- The default value of the parameter `maxLength` of `validateTextLength`. -/
def defaultMaxLength : Nat := 1000000

/-- The message of the error thrown by `validateTextLength` for an empty text. -/
def emptyContentMessage : List Char := "Dosya içeriği boş olamaz.".toList

/-- The message of the error thrown by `validateTextLength` for a text longer
than `maxLength`. -/
def contentTooLargeMessage (maxLength : Nat) : List Char :=
  "Dosya içeriği çok büyük. Maksimum ".toList ++ (toString maxLength).toList ++
    " karakter olmalıdır.".toList

/-- The method `validateTextLength` of `FileService`. -/
def validateTextLength (text : List Char) (maxLength : Nat) : Except (List Char) Bool :=
  if text.isEmpty then Except.error emptyContentMessage
  else if text.length > maxLength then Except.error (contentTooLargeMessage maxLength)
  else Except.ok true

/-- The character class `[a-zA-Z0-9._-]`. -/
def isFileNameChar (c : Char) : Bool :=
  (0x61 ≤ c.toNat && c.toNat ≤ 0x7A) || (0x41 ≤ c.toNat && c.toNat ≤ 0x5A) ||
  (0x30 ≤ c.toNat && c.toNat ≤ 0x39) || c == '.' || c == '_' || c == '-'

/-- The method `sanitizeFileName` of `FileService`. -/
def sanitizeFileName (fileName : List Char) : List Char :=
  jsSubstring
    (replaceRuns (fun c => c == '_') '_' false
      (fileName.map (fun c => if isFileNameChar c then c else '_')))
    0 255

/-! ## geminiService.js: embedding -/

/-- The prompt built by `generateEmbedding`. -/
def embeddingPrompt (text : List Char) : List Char :=
  "\n        Bu metni analiz et ve semantik özelliklerini belirle:\n        ".toList ++ text ++
  "\n        \n        Yanıt olarak sadece sayısal değerler ver (0-1 arası).\n      ".toList

/-- The regular-expression class `\w`. -/
def isJsWordChar (c : Char) : Bool :=
  (0x61 ≤ c.toNat && c.toNat ≤ 0x7A) || (0x41 ≤ c.toNat && c.toNat ≤ 0x5A) ||
  (0x30 ≤ c.toNat && c.toNat ≤ 0x39) || c == '_'

/-- The expression `s.match(/\b\w+\b/g) || []`: the maximal runs of word
characters; the first argument accumulates the current run in reverse. -/
def wordRuns : List Char → List Char → List (List Char)
  | acc, [] => if acc.isEmpty then [] else [acc.reverse]
  | acc, c :: cs =>
    if isJsWordChar c then wordRuns (c :: acc) cs
    else if acc.isEmpty then wordRuns [] cs
    else acc.reverse :: wordRuns [] cs

section Embedding

variable {α : Type} [LinearOrderedField α]

/-- The method `generateEmbedding` of `GeminiService`, called when `calls` calls
of the generative capability have been made, `random` being the value returned
by `Math.random()`: the vector and the new number of calls. -/
def generateEmbedding (E : Externals) (gen : Generative) (calls : Nat) (random : α)
    (text : List Char) : List α × Nat :=
  match gen calls (embeddingPrompt text) with
  | Except.ok _ =>
    let textLength := text.length
    let wordCount := (splitWhitespace false [] text).length
    let uniqueWords := (wordRuns [] (E.toLowerCase text)).eraseDups.length
    ([min ((textLength : α) / 10000) 1, min ((wordCount : α) / 1000) 1,
      min ((uniqueWords : α) / 500) 1, random * (1 / 10) + 9 / 10], calls + 1)
  | Except.error _ => ([1 / 2, 1 / 2, 1 / 2, 1 / 2], calls + 1)

end Embedding

/-! ## routes/documents.js: upload and delete -/

/-- The object `req.file` built by the upload middleware. -/
structure UploadedFile where
  originalname : List Char
  buffer : List Nat
  size : Nat

/-- The answer of the upload handler: the created document with the analysis of
its text, or an error answer. The field `fileSize` of the answer, formatted by
`formatFileSize`, is left out. -/
inductive UploadResponse (α : Type) where
  | created (document : Document α) (analysis : Analysis) : UploadResponse α
  | failure (status : Nat) (error message : List Char) : UploadResponse α

/-- The messages of the validators of `documentSchema` that fail for the given
values of `fileName`, `fileType` and `contentText`, each after the name of its
path, in the order of the schema. -/
def validationErrors (fileName fileType contentText : List Char) : List (List Char) :=
  (if fileName.isEmpty then ["fileName: Dosya adı gereklidir".toList] else []) ++
  (if fileType.isEmpty then ["fileType: Dosya türü gereklidir".toList]
    else if !(supportedTypes.contains fileType) then
      ["fileType: `".toList ++ fileType ++
        "` is not a valid enum value for path `fileType`.".toList]
    else []) ++
  (if contentText.isEmpty then ["contentText: Doküman içeriği gereklidir".toList]
    else if contentText.length > 1000000 then
      ["contentText: Doküman içeriği çok büyük".toList]
    else [])

/-- The list `xs.join(', ')`. -/
def joinComma : List (List Char) → List Char
  | [] => []
  | [x] => x
  | x :: y :: ys => x ++ ", ".toList ++ joinComma (y :: ys)

section Upload

variable {α : Type}

/-- An identifier that no document of the collection carries. -/
def freshId (documents : List (Document α)) : Nat :=
  (documents.map (fun d => d._id)).foldr max 0 + 1

/-- The call `Document.create` of the upload handler: the setters `trim` of
`fileName` and `lowercase` of `fileType` are applied, the validators of the
schema are run, and the document gets a new identifier, no summary, no
keywords and the current date in its date fields. -/
def createDocument (E : Externals) (documents : List (Document α)) (ownerId : Nat)
    (fileName fileType : List Char) (fileSize : Nat) (contentText : List Char)
    (embedding : List α) (now : Nat) : Except (List Char) (Document α) :=
  match validationErrors (jsTrim fileName) (E.toLowerCase fileType) contentText with
  | [] =>
    Except.ok
      { _id := freshId documents
        ownerId := ownerId
        fileName := jsTrim fileName
        fileType := E.toLowerCase fileType
        fileSize := fileSize
        contentText := contentText
        summaryText := none
        keywords := []
        embedding := some embedding
        uploadDate := now
        lastProcessed := now
        createdAt := now
        updatedAt := now }
  | e :: es =>
    Except.error ("Document validation failed: ".toList ++ joinComma (e :: es))

/-- The `catch` branch of the upload handler. -/
def uploadFailure (message : List Char) : UploadResponse α :=
  if jsIncludes "Desteklenmeyen dosya türü".toList message then
    UploadResponse.failure 400 "Dosya türü hatası".toList message
  else if jsIncludes "Dosya içeriği".toList message then
    UploadResponse.failure 400 "İçerik hatası".toList message
  else
    UploadResponse.failure 500 "Yükleme hatası".toList
      "Doküman yüklenirken bir hata oluştu.".toList

/-- The handler `DELETE /:id` for the authenticated user `userId`:
`findOneAndDelete` removes the first document with this identifier and owner. -/
def deleteRoute (userId id : Nat) (w : World α) : Response × World α :=
  match findOne w.documents id userId with
  | none => (Response.notFound, w)
  | some _ =>
    (Response.deleted,
      { w with documents := w.documents.eraseP (fun d => d._id == id && d.ownerId == userId) })

end Upload

section UploadRoute

variable {α : Type} [LinearOrderedField α]

/-- The handler `POST /upload` for the authenticated user `userId` at time
`now`, `file` being `req.file` and `random` the value of `Math.random()`. -/
def uploadRoute (E : Externals) (gen : Generative) (random : α) (now userId : Nat)
    (file : Option UploadedFile) (w : World α) : UploadResponse α × World α :=
  match file with
  | none =>
    (UploadResponse.failure 400 "Dosya hatası".toList "Lütfen bir dosya seçin.".toList, w)
  | some f =>
    match getFileTypeFromName E f.originalname with
    | Except.error message => (uploadFailure message, w)
    | Except.ok fileType =>
      match extractTextFromFile E f.buffer fileType with
      | Except.error message => (uploadFailure message, w)
      | Except.ok rawText =>
        match validateTextLength (cleanText rawText) defaultMaxLength with
        | Except.error message => (uploadFailure message, w)
        | Except.ok _ =>
          let analysis := analyzeFileContent (cleanText rawText)
          let embedded := generateEmbedding E gen w.generateCalls random (cleanText rawText)
          match createDocument E w.documents userId (sanitizeFileName f.originalname) fileType
              f.size (cleanText rawText) embedded.1 now with
          | Except.error message =>
            (uploadFailure message, { w with generateCalls := embedded.2 })
          | Except.ok document =>
            (UploadResponse.created document analysis,
              { w with documents := w.documents ++ [document], generateCalls := embedded.2 })

end UploadRoute

/-! ## routes/documents.js: the cross-document search -/

/-- An element of `combinedResults`: a document of the text search, or a
document of the semantic pass with its similarity. -/
inductive SearchRecord (α : Type) where
  | lexical (document : Document α) : SearchRecord α
  | semantic (hit : SemanticHit α) : SearchRecord α

/-- The answer of the search handler. -/
inductive SearchResponse (α : Type) where
  | badRequest (error message : List Char) : SearchResponse α
  | ok (results : List (SearchRecord α)) (query : List Char) (totalResults : Nat) :
      SearchResponse α

section SearchRoute

variable {α : Type}

/-- The field `_id` of an element of `combinedResults`. -/
def SearchRecord.documentId : SearchRecord α → Nat
  | SearchRecord.lexical d => d._id
  | SearchRecord.semantic h => h.document._id

/-- The field `ownerId` of an element of `combinedResults`. -/
def SearchRecord.ownerId : SearchRecord α → Nat
  | SearchRecord.lexical d => d.ownerId
  | SearchRecord.semantic h => h.document.ownerId

/-- The cursor method `.limit(n)` for an integer `n`: `0` sets no limit and a
negative `n` limits to its absolute value. -/
def queryLimit {β : Type} (xs : List β) (n : Int) : List β :=
  if n = 0 then xs else xs.take n.natAbs

/-- The query `Document.find({ ownerId: userId, $text: { $search: searchQuery }
}).select('-embedding').limit(limit)`; `textMatch` stands for the text index:
it tells whether a content matches a search string. -/
def textResults (textMatch : List Char → List Char → Bool) (documents : List (Document α))
    (userId : Nat) (searchQuery : List Char) (limit : Int) : List (Document α) :=
  queryLimit
    ((documents.filter
      (fun d => d.ownerId == userId && textMatch searchQuery d.contentText)).map
        (fun d => { d with embedding := none }))
    limit

/-- The array `uniqueResults`: the elements of `combinedResults` whose index is
the index of the first element with the same `_id`. -/
def uniqueResults (combinedResults : List (SearchRecord α)) : List (SearchRecord α) :=
  (combinedResults.enum.filter (fun p =>
    p.1 == combinedResults.findIdx (fun d => d.documentId == p.2.documentId))).map Prod.snd

/-- The field `results` of the answer of the search handler, computed from the
text results, the semantic results and the parsed limit. -/
def combineResults (textResults : List (Document α)) (semanticResults : List (SemanticHit α))
    (limit : Int) : List (SearchRecord α) :=
  sliceFromZero
    (uniqueResults
      (textResults.map SearchRecord.lexical ++ semanticResults.map SearchRecord.semantic))
    limit

end SearchRoute

section SearchHandler

variable {α : Type} [LinearOrderedField α]

/-- The handler `GET /search` for the authenticated user `userId`, `query` being
`req.query.query` and `limit` the integer `parseInt(limit)`. -/
def searchRoute (E : Externals) (gen : Generative) (textMatch : List Char → List Char → Bool)
    (sqrt : α → α) (random : α) (userId : Nat) (query : Option (List Char)) (limit : Int)
    (w : World α) : SearchResponse α × World α :=
  match query with
  | none =>
    (SearchResponse.badRequest "Arama hatası".toList "Arama sorgusu gereklidir.".toList, w)
  | some q =>
    if q.isEmpty || (jsTrim q).length == 0 then
      (SearchResponse.badRequest "Arama hatası".toList "Arama sorgusu gereklidir.".toList, w)
    else
      let searchQuery := jsTrim q
      let embedded := generateEmbedding E gen w.generateCalls random searchQuery
      let lexical := textResults textMatch w.documents userId searchQuery limit
      let semantic := semanticResults sqrt (some embedded.1) w.documents userId limit
      (SearchResponse.ok (combineResults lexical semantic limit) searchQuery
          (uniqueResults
            (lexical.map SearchRecord.lexical ++ semantic.map SearchRecord.semantic)).length,
        { w with generateCalls := embedded.2 })

end SearchHandler

/-! ## geminiService.js and routes/documents.js: the in-document search -/

/-- The prompt built by `searchInDocument`. -/
def searchPrompt (documentText searchQuery : List Char) : List Char :=
  "\n        Aşağıdaki doküman içinde \"".toList ++ searchQuery ++
  "\" sorgusuyla ilgili bölümleri bul ve analiz et.\n        \n        Doküman:\n        ".toList ++
  documentText ++ "\n        \n        Sorgu: ".toList ++ searchQuery ++
  "\n        \n        Yanıtını şu formatta ver:\n".toList ++
  "        1. İlgili bölümlerin başlangıç ve bitiş pozisyonları (karakter sayısı olarak)\n".toList ++
  "        2. Her bölüm için kısa açıklama\n".toList ++
  "        3. Bulunan bölümlerin önem derecesi (1-10 arası)\n        \n        Format:\n".toList ++
  "        BÖLÜM 1: [başlangıç]-[bitiş] - [açıklama] - Önem: [1-10]\n".toList ++
  "        BÖLÜM 2: [başlangıç]-[bitiş] - [açıklama] - Önem: [1-10]\n        ...\n      ".toList

/-- The method `searchInDocument` of `GeminiService`, called when `calls` calls
of the generative capability have been made: its result and the new number of
calls. -/
def searchInDocument (gen : Generative) (calls : Nat) (documentText searchQuery : List Char) :
    Except (List Char) (List SearchResult) × Nat :=
  if documentText.isEmpty || searchQuery.isEmpty then
    (Except.error ("Doküman içinde arama yapılırken bir hata oluştu: ".toList ++
      "Doküman metni ve arama sorgusu gerekli".toList), calls)
  else
    match gen calls (searchPrompt documentText searchQuery) with
    | Except.ok response =>
      (Except.ok (parseSearchResults (jsTrim response) documentText), calls + 1)
    | Except.error message =>
      (Except.error ("Doküman içinde arama yapılırken bir hata oluştu: ".toList ++ message),
        calls + 1)

/-- The answer of the in-document search handler. -/
inductive InDocumentResponse where
  | badRequest (error message : List Char) : InDocumentResponse
  | notFound : InDocumentResponse
  | ok (results : List SearchResult) (query : List Char) (totalResults : Nat) :
      InDocumentResponse
  | failure (status : Nat) (error message : List Char) : InDocumentResponse
  deriving DecidableEq, Repr

/-- The answer of the handler `GET /:id`. -/
inductive GetResponse (α : Type) where
  | notFound : GetResponse α
  | found (document : Document α) : GetResponse α

section DocumentRoutes

variable {α : Type}

/-- The handler `POST /:id/search` for the authenticated user `userId`, `query`
being `req.body.query`. -/
def inDocumentSearchRoute (gen : Generative) (userId id : Nat) (query : Option (List Char))
    (w : World α) : InDocumentResponse × World α :=
  match query with
  | none =>
    (InDocumentResponse.badRequest "Arama sorgusu gerekli".toList
      "Lütfen bir arama sorgusu girin.".toList, w)
  | some q =>
    if q.isEmpty || (jsTrim q).length == 0 then
      (InDocumentResponse.badRequest "Arama sorgusu gerekli".toList
        "Lütfen bir arama sorgusu girin.".toList, w)
    else
      match findOne w.documents id userId with
      | none => (InDocumentResponse.notFound, w)
      | some document =>
        match searchInDocument gen w.generateCalls document.contentText (jsTrim q) with
        | (Except.ok searchResults, calls) =>
          (InDocumentResponse.ok searchResults (jsTrim q) searchResults.length,
            { w with generateCalls := calls })
        | (Except.error message, calls) =>
          (InDocumentResponse.failure 500 "Arama hatası".toList
              ("Doküman içinde arama yapılırken bir hata oluştu: ".toList ++ message),
            { w with generateCalls := calls })

/-- The handler `GET /:id` for the authenticated user `userId`: the document is
loaded without its embedding. -/
def getRoute (userId id : Nat) (w : World α) : GetResponse α :=
  match findOne w.documents id userId with
  | none => GetResponse.notFound
  | some document => GetResponse.found { document with embedding := none }

end DocumentRoutes

/-! ## routes/admin.js: deleting a user -/

/-- Modelled from the spec: the model `models/User.js` is not among the sources;
a user is an identity with the fields the handlers of `routes/admin.js` read. -/
structure User where
  _id : Nat
  username : List Char
  email : List Char
  role : List Char
  deriving DecidableEq, Repr

section Admin

variable {α : Type}

/-- The handler `DELETE /users/:id` of the admin router for the authenticated
admin `adminId`: the answer, the users and the world after the request. -/
def deleteUserRoute (adminId id : Nat) (users : List User) (w : World α) :
    Response × List User × World α :=
  if id = adminId then
    (Response.failure 400 "Silme hatası".toList "Kendi hesabınızı silemezsiniz.".toList,
      users, w)
  else
    match users.find? (fun u => u._id == id) with
    | none =>
      (Response.failure 404 "Kullanıcı bulunamadı".toList
        "Belirtilen kullanıcı bulunamadı.".toList, users, w)
    | some _ =>
      (Response.userDeleted, users.eraseP (fun u => u._id == id),
        { w with documents := w.documents.filter (fun d => !(d.ownerId == id)) })

end Admin

/-! ## routes/documents.js: the order of the routes -/

/-- The request methods used by the documents router. -/
inductive HttpMethod where
  | get : HttpMethod
  | post : HttpMethod
  | delete : HttpMethod
  deriving DecidableEq, Repr

/-- A segment of a path pattern: a fixed word or a named parameter. -/
inductive PathSegment where
  | literal (word : List Char) : PathSegment
  | parameter (name : List Char) : PathSegment
  deriving DecidableEq, Repr

/-- The handlers registered on the documents router. -/
inductive DocumentsHandler where
  | upload : DocumentsHandler
  | list : DocumentsHandler
  | getById : DocumentsHandler
  | search : DocumentsHandler
  | summary : DocumentsHandler
  | searchInDocument : DocumentsHandler
  | keywords : DocumentsHandler
  | delete : DocumentsHandler
  deriving DecidableEq, Repr

/-- A registered route: method, path pattern and handler. -/
structure RouteEntry where
  method : HttpMethod
  pattern : List PathSegment
  handler : DocumentsHandler
  deriving DecidableEq, Repr

/-- The routes of `routes/documents.js` in the order of their registration. -/
def documentsRoutes : List RouteEntry :=
  [ { method := HttpMethod.post, pattern := [PathSegment.literal "upload".toList],
      handler := DocumentsHandler.upload },
    { method := HttpMethod.get, pattern := [], handler := DocumentsHandler.list },
    { method := HttpMethod.get, pattern := [PathSegment.parameter "id".toList],
      handler := DocumentsHandler.getById },
    { method := HttpMethod.get, pattern := [PathSegment.literal "search".toList],
      handler := DocumentsHandler.search },
    { method := HttpMethod.post,
      pattern := [PathSegment.parameter "id".toList, PathSegment.literal "summary".toList],
      handler := DocumentsHandler.summary },
    { method := HttpMethod.post,
      pattern := [PathSegment.parameter "id".toList, PathSegment.literal "search".toList],
      handler := DocumentsHandler.searchInDocument },
    { method := HttpMethod.post,
      pattern := [PathSegment.parameter "id".toList, PathSegment.literal "keywords".toList],
      handler := DocumentsHandler.keywords },
    { method := HttpMethod.delete, pattern := [PathSegment.parameter "id".toList],
      handler := DocumentsHandler.delete } ]

/-- The match of a path pattern against the segments of a request path: the
values of the parameters when every segment fits. -/
def matchPattern : List PathSegment → List (List Char) → Option (List (List Char × List Char))
  | [], [] => some []
  | PathSegment.literal word :: ps, x :: xs => if word = x then matchPattern ps xs else none
  | PathSegment.parameter name :: ps, x :: xs =>
    if x.isEmpty then none else (matchPattern ps xs).map (fun bound => (name, x) :: bound)
  | _, _ => none

/-- The dispatch of a request by the router: the first registered route whose
method and pattern fit handles the request (no handler of the documents router
passes the request on). -/
def dispatch (routes : List RouteEntry) (method : HttpMethod) (path : List (List Char)) :
    Option (DocumentsHandler × List (List Char × List Char)) :=
  routes.findSome? (fun r =>
    if r.method = method then (matchPattern r.pattern path).map (fun bound => (r.handler, bound))
    else none)

/-! ## Definitions used to state the properties -/

section Expected

variable {α : Type} [LinearOrderedField α]

/-- The semantic candidate list as the specification words it: the documents of
the owner whose stored embedding has similarity above `0.3` with the query
embedding, sorted by descending similarity, cut to the limit, each with its
similarity. -/
def expectedSemanticResults (sqrt : α → α) (queryEmbedding : Option (List α))
    (documents : List (Document α)) (userId : Nat) (limit : Int) : List (SemanticHit α) :=
  let scored : List (SemanticHit α) :=
    (documents.filter (fun d => d.ownerId == userId)).map (fun d =>
      { document := d
        similarity := calculateSimilarity sqrt queryEmbedding d.embedding })
  sliceFromZero
    ((scored.filter (fun h => decide (h.similarity > 3 / 10))).insertionSort
      (fun a b => b.similarity ≤ a.similarity))
    limit

end Expected

/-- A stored document with the fallback embedding `[0.5, 0.5, 0.5, 0.5]`. -/
def sampleDocument (α : Type) [LinearOrderedField α] : Document α :=
  { _id := 1
    ownerId := 7
    fileName := "a.txt".toList
    fileType := "txt".toList
    fileSize := 3
    contentText := "abc".toList
    summaryText := none
    keywords := []
    embedding := some [1 / 2, 1 / 2, 1 / 2, 1 / 2]
    uploadDate := 0
    lastProcessed := 0
    createdAt := 0
    updatedAt := 0 }

/-- The text obtained by joining lines with line feeds, `lines.join('\n')`. -/
def joinLines : List (List Char) → List Char
  | [] => []
  | [l] => l
  | l :: l' :: ls => l ++ '\n' :: joinLines (l' :: ls)

/-- The position field of a line: its first ` - `-separated part with the
segment marker removed, trimmed. -/
def positionField (line : List Char) : List Char :=
  jsTrim (removeFirst segmentMarker ((splitString " - ".toList 0 [] line).getD 0 []))

/-- A malformed line: it lacks the segment marker, or its position field does
not match `<integer>-<integer>`. -/
def malformedLine (line : List Char) : Bool :=
  !(jsIncludes segmentMarker line) || (matchPosition (positionField line)).isNone

/-- A world holding one document, before any call. -/
def singleDocumentWorld {α : Type} (d : Document α) : World α :=
  { documents := [d], computeCalls := 0, generateCalls := 0 }

/-- A generative capability that answers its first call with blanks and every
later call with a text and a comma-separated list. -/
def blankThenText : Generative :=
  fun n _ => if n = 0 then Except.ok "  ".toList else Except.ok "late, answer".toList

/-- A stored document whose summary is the empty string. -/
def emptySummaryDocument : Document ℚ :=
  { sampleDocument ℚ with summaryText := some [] }

/-- A stored document with a summary and keywords. -/
def processedDocument : Document ℚ :=
  { sampleDocument ℚ with summaryText := some "short".toList, keywords := ["key".toList] }

section ExpectedSimilarity

variable {α : Type} [LinearOrderedField α]

/-- The dot product of two vectors, `dot(a, b)`. -/
def dotProduct (a b : List α) : α :=
  (List.zipWith (fun x y => x * y) a b).sum

/-- The Euclidean norm of a vector, `||a||`, for the square root `sqrt`. -/
def euclideanNorm (sqrt : α → α) (a : List α) : α :=
  sqrt ((a.map (fun x => x * x)).sum)

end ExpectedSimilarity

section ExpectedSearch

variable {α : Type}

/-- The list de-duplicated by document identifier keeping the first occurrence:
going from left to right, a record is kept when no record before it (the ones
in `seen` and the ones already passed) has its identifier. -/
def dedupKeepFirst : List (SearchRecord α) → List (SearchRecord α) → List (SearchRecord α)
  | _, [] => []
  | seen, x :: xs =>
    if seen.any (fun d => d.documentId == x.documentId) then dedupKeepFirst (seen ++ [x]) xs
    else x :: dedupKeepFirst (seen ++ [x]) xs

/-- The invariant of a stored document: a non-empty content of at most
1,000,000 characters and a supported file type. -/
def validDocument (d : Document α) : Prop :=
  d.contentText ≠ [] ∧ d.contentText.length ≤ 1000000 ∧ d.fileType ∈ supportedTypes

end ExpectedSearch

/-- Sample platform functions: ASCII lower case, the suffix from the last dot,
libraries that fail, and bytes read as code points. -/
def sampleExternals : Externals :=
  { toLowerCase := fun s => s.map Char.toLower
    extname := fun s =>
      if s.contains '.' then '.' :: (s.reverse.takeWhile (fun c => c != '.')).reverse else []
    pdfParse := fun _ => none
    extractRawText := fun _ => none
    utf8Decode := fun b => b.map Char.ofNat }

/-- An uploaded text file holding three spaces. -/
def blankTextFile : UploadedFile :=
  { originalname := "notes.txt".toList, buffer := [32, 32, 32], size := 3 }

/-- An uploaded text file holding `Hello world`. -/
def helloTextFile : UploadedFile :=
  { originalname := "my notes.TXT".toList
    buffer := [72, 101, 108, 108, 111, 32, 119, 111, 114, 108, 100]
    size := 11 }

/-- A semantic result for a document with the given identifier. -/
def sampleHit (id : Nat) : SemanticHit ℚ :=
  { document := { sampleDocument ℚ with _id := id, embedding := none }, similarity := 1 }

/-- A store with a document of owner `7` and a document of owner `8`, both with
the content `abc`. -/
def twoOwnerWorld : World ℚ :=
  { documents := [sampleDocument ℚ, { sampleDocument ℚ with _id := 2, ownerId := 8 }]
    computeCalls := 0
    generateCalls := 0 }

/-- A generative capability whose every call fails. -/
def failingGenerative : Generative :=
  fun _ _ => Except.error "quota exceeded".toList

/-- The sample document as loaded without its embedding. -/
def sampleProjection : Document ℚ :=
  { sampleDocument ℚ with embedding := none }

/-- The number of maximal runs of non-whitespace characters of a text; the flag
tells whether the previous character was a non-whitespace character. -/
def nonWhitespaceRuns : Bool → List Char → Nat
  | _, [] => 0
  | previous, c :: cs =>
    if isJsWhitespace c then nonWhitespaceRuns false cs
    else (if previous then 0 else 1) + nonWhitespaceRuns true cs

/-- A record to be written in the response format: offsets, description and
importance. -/
structure SegmentSpec where
  start : Nat
  end_ : Nat
  description : List Char
  importance : Nat

/-- The line `BÖLÜM i: start-end - description - Önem: importance`. -/
def renderLine (i : Nat) (r : SegmentSpec) : List Char :=
  "BÖLÜM ".toList ++ (toString i).toList ++ ": ".toList ++ (toString r.start).toList ++
    "-".toList ++ (toString r.end_).toList ++ " - ".toList ++ r.description ++
    " - ".toList ++ "Önem: ".toList ++ (toString r.importance).toList

/-- The lines of a list of records, numbered from `i`. -/
def renderLines : Nat → List SegmentSpec → List (List Char)
  | _, [] => []
  | i, r :: rs => renderLine i r :: renderLines (i + 1) rs

/-- The record expected for a rendered record on a document text. -/
def expectedResult (documentText : List Char) (r : SegmentSpec) : SearchResult :=
  { start := r.start
    end_ := r.end_
    text := (documentText.drop r.start).take (r.end_ - r.start)
    description := r.description
    importance := r.importance }

/-- Two sample users: an admin and a regular user. -/
def sampleUsers : List User :=
  [ { _id := 1, username := "root".toList, email := "root@example.com".toList,
      role := "admin".toList },
    { _id := 7, username := "ann".toList, email := "ann@example.com".toList,
      role := "user".toList } ]

/-- The field holds the importance label followed by optional whitespace and the
run of digits `ds`, taken whole. -/
def followsLabelDigits (field ds : List Char) : Prop :=
  ∃ pre ws rest, field = pre ++ importanceLabel ++ ws ++ ds ++ rest ∧
    (∀ c ∈ ws, isJsWhitespace c = true) ∧ ds ≠ [] ∧ (∀ c ∈ ds, isJsDigit c = true) ∧
    (∀ c, rest.head? = some c → isJsDigit c = false)

/-- The field holds the importance label followed by optional whitespace and the
integer `n`, written with the whole run of digits found there. -/
def followsImportanceLabel (field : List Char) (n : Nat) : Prop :=
  ∃ ds, followsLabelDigits field ds ∧ n = digitsValue ds

/-- A line whose importance is an integer above `2^53`. -/
def largeImportanceLine : List Char :=
  "BÖLÜM 1: 0-3 - x - Önem: 9007199254740993".toList

/-- A record whose importance is an integer above `2^53`. -/
def largeImportanceSegments : List SegmentSpec :=
  [ { start := 0, end_ := 3, description := "x".toList, importance := 9007199254740993 } ]

/-- Two sample records on the text `"The quick brown fox"`. -/
def sampleSegments : List SegmentSpec :=
  [ { start := 4, end_ := 9, description := "quick".toList, importance := 3 },
    { start := 16, end_ := 19, description := "the fox".toList, importance := 8 } ]

/-! ## Lemmas on the similarity -/

section SimilarityLemmas

variable {α : Type} [LinearOrderedField α]

theorem similaritySums_foldl (ps : List (α × α)) (a b c : α) :
    ps.foldl (fun acc p => (acc.1 + p.1 * p.2, acc.2.1 + p.1 * p.1, acc.2.2 + p.2 * p.2))
        (a, b, c) =
      (a + (ps.map (fun p => p.1 * p.2)).sum, b + (ps.map (fun p => p.1 * p.1)).sum,
        c + (ps.map (fun p => p.2 * p.2)).sum) := by
  induction ps generalizing a b c with
  | nil => simp
  | cons p ps ih => simp [ih, add_assoc]

theorem similaritySums_eq (e1 e2 : List α) :
    similaritySums e1 e2 =
      (((e1.zip e2).map (fun p => p.1 * p.2)).sum, ((e1.zip e2).map (fun p => p.1 * p.1)).sum,
        ((e1.zip e2).map (fun p => p.2 * p.2)).sum) := by
  unfold similaritySums
  rw [similaritySums_foldl]
  simp

theorem zip_self_map {β γ : Type} (v : List β) (f : β × β → γ) :
    (v.zip v).map f = v.map (fun x => f (x, x)) := by
  induction v with
  | nil => rfl
  | cons x xs ih => simp [ih]

theorem similaritySums_self (v : List α) :
    similaritySums v v =
      ((v.map (fun x => x * x)).sum, (v.map (fun x => x * x)).sum,
        (v.map (fun x => x * x)).sum) := by
  rw [similaritySums_eq]
  simp [zip_self_map]

theorem sum_squares_nonneg (v : List α) : 0 ≤ (v.map (fun x => x * x)).sum := by
  induction v with
  | nil => simp
  | cons x xs ih =>
    simp only [List.map_cons, List.sum_cons]
    exact add_nonneg (mul_self_nonneg x) ih

theorem sum_squares_pos (v : List α) (h : ∃ x ∈ v, x ≠ 0) :
    0 < (v.map (fun x => x * x)).sum := by
  induction v with
  | nil => simp at h
  | cons y ys ih =>
    simp only [List.map_cons, List.sum_cons]
    by_cases hy : y = 0
    · subst hy
      have h2 : ∃ x ∈ ys, x ≠ 0 := by
        obtain ⟨x, hx, hx0⟩ := h
        rcases List.mem_cons.mp hx with rfl | hx
        · exact absurd rfl hx0
        · exact ⟨x, hx, hx0⟩
      simpa using ih h2
    · exact add_pos_of_pos_of_nonneg (mul_self_pos.mpr hy) (sum_squares_nonneg ys)

/-- With the real square root, a vector that is not all zeros has similarity
`1` with itself. -/
theorem calculateSimilarity_self_real (v : List ℝ) (h : ∃ x ∈ v, x ≠ 0) :
    calculateSimilarity Real.sqrt (some v) (some v) = 1 := by
  have hpos := sum_squares_pos v h
  have hsq : Real.sqrt ((v.map (fun x => x * x)).sum) ≠ 0 :=
    (Real.sqrt_pos.mpr hpos).ne'
  simp only [calculateSimilarity, similaritySums_self, ne_eq, not_true_eq_false, if_false,
    or_self, hsq]
  rw [Real.mul_self_sqrt hpos.le]
  exact div_self hpos.ne'

/-- A document loaded without its embedding is never kept by the threshold. -/
theorem semanticResults_eq_nil (sqrt : α → α) (queryEmbedding : Option (List α))
    (documents : List (Document α)) (userId : Nat) (limit : Int) :
    semanticResults sqrt queryEmbedding documents userId limit = [] := by
  have hsim : ∀ q : Option (List α), calculateSimilarity sqrt q none = 0 := by
    intro q
    cases q <;> rfl
  have hkept : ((findAllOfOwner documents userId).map (fun doc =>
      ({ document := doc
         similarity := calculateSimilarity sqrt queryEmbedding doc.embedding } :
        SemanticHit α))).filter (fun result => decide (result.similarity > 3 / 10)) = [] := by
    rw [List.filter_eq_nil_iff]
    intro hit hmem
    simp only [findAllOfOwner, List.map_map, List.mem_map, Function.comp] at hmem
    obtain ⟨d, _, rfl⟩ := hmem
    simp only [selectWithoutEmbedding, hsim, gt_iff_lt, decide_eq_true_eq, not_lt]
    positivity
  simp only [semanticResults, hkept, List.insertionSort, sliceFromZero]
  split <;> simp

end SimilarityLemmas

/-! ## Text normalisation and statistics -/

/-- C1: on the text `"a   b\n\n\nc "` the method `cleanText` returns `"a b c"`:
the first replacement turns the run of line feeds into a space, so the result
is not `"a b\nc"` and the line break is lost. -/
theorem cleanText_example_loses_line_break :
    cleanText "a   b\n\n\nc ".toList = "a b c".toList ∧
      cleanText "a   b\n\n\nc ".toList ≠ "a b\nc".toList := by
  decide

/-- C2, as stated: it is not the case that all six statistics of the empty text
are `0`. -/
theorem analyzeFileContent_empty_not_all_zero :
    ¬ ((analyzeFileContent []).characterCount = 0 ∧ (analyzeFileContent []).wordCount = 0 ∧
        (analyzeFileContent []).lineCount = 0 ∧ (analyzeFileContent []).paragraphCount = 0 ∧
        (analyzeFileContent []).averageWordLength = AverageWordLength.zero ∧
        (analyzeFileContent []).readingTime = 0) := by
  decide

/-- C2, amended: on the empty text `analyzeFileContent` returns the statistics
with `lineCount = 1` and every other entry `0`. -/
theorem analyzeFileContent_empty :
    analyzeFileContent [] =
      { characterCount := 0
        wordCount := 0
        lineCount := 1
        paragraphCount := 0
        averageWordLength := AverageWordLength.zero
        readingTime := 0 } := by
  decide

/-! ## The semantic pass -/

/-- C3: the semantic pass of the handler returns the empty list for every query
embedding, store, owner and limit, because the documents are loaded without
their embedding; for the store holding one document of owner `7` with the
embedding `[0.5, 0.5, 0.5, 0.5]`, the same query embedding and limit `10`, the
list the specification describes has one element, of similarity `1`. -/
theorem semanticResults_ignores_stored_embeddings :
    (∀ (queryEmbedding : Option (List ℝ)) (documents : List (Document ℝ)) (userId : Nat)
        (limit : Int), semanticResults Real.sqrt queryEmbedding documents userId limit = []) ∧
      (expectedSemanticResults Real.sqrt (some [1 / 2, 1 / 2, 1 / 2, 1 / 2])
          [sampleDocument ℝ] 7 10).map (fun h => (h.document._id, h.similarity)) = [(1, 1)] := by
  refine ⟨fun q docs u l => semanticResults_eq_nil Real.sqrt q docs u l, ?_⟩
  have h1 : calculateSimilarity Real.sqrt (some [1 / 2, 1 / 2, 1 / 2, 1 / 2])
      (some [(1 / 2 : ℝ), 1 / 2, 1 / 2, 1 / 2]) = 1 :=
    calculateSimilarity_self_real _ ⟨1 / 2, by simp, by norm_num⟩
  have h2 : decide ((1 : ℝ) > 3 / 10) = true := by
    rw [decide_eq_true_eq]
    norm_num
  simp only [expectedSemanticResults, sampleDocument, beq_self_eq_true, List.filter_cons,
    List.filter_nil, if_true, List.map_cons, List.map_nil, h1, h2, List.insertionSort,
    List.orderedInsert, sliceFromZero]
  rfl

/-! ## Self-similarity -/

/-- C10: for every real vector that is not all zeros, `calculateSimilarity(v, v)`
is `1`. -/
theorem calculateSimilarity_self (v : List ℝ) (h : ∃ x ∈ v, x ≠ 0) :
    calculateSimilarity Real.sqrt (some v) (some v) = 1 :=
  calculateSimilarity_self_real v h

/-- C10 at the vector `[3, 4]`. -/
theorem calculateSimilarity_self_witness :
    (∃ x ∈ [(3 : ℝ), 4], x ≠ 0) ∧
      calculateSimilarity Real.sqrt (some [3, 4]) (some [(3 : ℝ), 4]) = 1 :=
  ⟨⟨3, by simp, by norm_num⟩, calculateSimilarity_self [3, 4] ⟨3, by simp, by norm_num⟩⟩

/-! ## The parser of the in-document search -/

/-- C6, as stated: with the marker words `SEGMENT` and `Importance` the response
is not recognised and no record is returned. -/
theorem parseSearchResults_segment_example_empty :
    parseSearchResults "SEGMENT 1: 4-9 - fox jump - Importance: 7".toList
        "The quick brown fox".toList = [] := by
  decide

/-- C6, amended: with the marker words of the code, `BÖLÜM` and `Önem`, the
response `"BÖLÜM 1: 4-9 - fox jump - Önem: 7"` on the text `"The quick brown
fox"` gives exactly one record, with start 4, end 9, text `"quick"`,
description `"fox jump"` and importance 7. -/
theorem parseSearchResults_marker_example :
    parseSearchResults "BÖLÜM 1: 4-9 - fox jump - Önem: 7".toList
        "The quick brown fox".toList =
      [{ start := 4
         end_ := 9
         text := "quick".toList
         description := "fox jump".toList
         importance := 7 }] := by
  decide

/-! ## Lemmas on strings and lines -/

theorem splitChar_not_mem (sep : Char) (l acc : List Char) (h : sep ∉ l) :
    splitChar sep acc l = [acc.reverse ++ l] := by
  induction l generalizing acc with
  | nil => simp [splitChar]
  | cons c cs ih =>
    have hc : c ≠ sep := fun e => h (e ▸ List.mem_cons_self _ _)
    have hcs : sep ∉ cs := fun m => h (List.mem_cons_of_mem _ m)
    simp [splitChar, hc, ih (c :: acc) hcs]

theorem splitChar_append_sep (sep : Char) (l rest acc : List Char) (h : sep ∉ l) :
    splitChar sep acc (l ++ sep :: rest) = (acc.reverse ++ l) :: splitChar sep [] rest := by
  induction l generalizing acc with
  | nil => simp [splitChar]
  | cons c cs ih =>
    have hc : c ≠ sep := fun e => h (e ▸ List.mem_cons_self _ _)
    have hcs : sep ∉ cs := fun m => h (List.mem_cons_of_mem _ m)
    simp [splitChar, hc, ih (c :: acc) hcs]

theorem splitChar_joinLines (l : List Char) (ls : List (List Char))
    (h : ∀ x ∈ l :: ls, '\n' ∉ x) :
    splitChar '\n' [] (joinLines (l :: ls)) = l :: ls := by
  induction ls generalizing l with
  | nil => simpa [joinLines] using splitChar_not_mem '\n' l [] (h l (List.mem_cons_self _ _))
  | cons l' ls ih =>
    have hl : '\n' ∉ l := h l (List.mem_cons_self _ _)
    have hrest : ∀ x ∈ l' :: ls, '\n' ∉ x := fun x hx => h x (List.mem_cons_of_mem _ hx)
    simp only [joinLines]
    rw [splitChar_append_sep '\n' l _ [] hl, ih l' hrest]
    simp

theorem splitChar_ne_nil (sep : Char) (acc l : List Char) : splitChar sep acc l ≠ [] := by
  induction l generalizing acc with
  | nil => simp [splitChar]
  | cons c cs ih =>
    simp only [splitChar]
    split
    · simp
    · exact ih _

theorem joinLines_splitChar_acc (acc text : List Char) :
    joinLines (splitChar '\n' acc text) = acc.reverse ++ text := by
  induction text generalizing acc with
  | nil => simp [splitChar, joinLines]
  | cons c cs ih =>
    simp only [splitChar]
    split
    · rename_i hc
      obtain ⟨r, rs, hr⟩ := List.exists_cons_of_ne_nil (splitChar_ne_nil '\n' [] cs)
      have := ih []
      rw [hr] at this
      rw [hr, joinLines, this, hc]
      simp
    · rw [ih]
      simp

theorem splitChar_pieces (acc text : List Char) (hacc : '\n' ∉ acc) :
    ∀ l ∈ splitChar '\n' acc text, '\n' ∉ l := by
  induction text generalizing acc with
  | nil => simpa [splitChar] using hacc
  | cons c cs ih =>
    simp only [splitChar]
    split
    · intro l hl
      rcases List.mem_cons.mp hl with rfl | hl
      · simpa using hacc
      · exact ih [] (by simp) l hl
    · rename_i hc
      exact ih (c :: acc) (by
        intro hm
        rcases List.mem_cons.mp hm with h | h
        · exact hc h.symm
        · exact hacc h)

/-- Every response is the join of its lines, none of which holds a line feed. -/
theorem response_eq_joinLines (resultsText : List Char) :
    (∀ l ∈ splitChar '\n' [] resultsText, '\n' ∉ l) ∧
      joinLines (splitChar '\n' [] resultsText) = resultsText :=
  ⟨splitChar_pieces [] resultsText (by simp), by simpa using joinLines_splitChar_acc [] resultsText⟩

theorem responseLines_joinLines (lines : List (List Char)) (h : ∀ x ∈ lines, '\n' ∉ x) :
    responseLines (joinLines lines) = lines.filter (fun line => !(jsTrim line).isEmpty) := by
  cases lines with
  | nil => simp [responseLines, joinLines, splitChar, jsTrim]
  | cons l ls => rw [responseLines, splitChar_joinLines l ls h]

theorem mem_of_jsIncludes_cons (p : Char) (ps : List Char) (l : List Char)
    (h : jsIncludes (p :: ps) l = true) : p ∈ l := by
  induction l with
  | nil => simp [jsIncludes] at h
  | cons c cs ih =>
    simp only [jsIncludes, Bool.or_eq_true] at h
    rcases h with h | h
    · have : c = p := by
        simp only [List.isPrefixOf, Bool.and_eq_true, beq_iff_eq] at h
        exact h.1.symm
      simp [this]
    · exact List.mem_cons_of_mem _ (ih h)

theorem jsTrim_ne_nil_of_mem (l : List Char) (c : Char) (hc : c ∈ l)
    (hws : isJsWhitespace c = false) : jsTrim l ≠ [] := by
  have h1 : l.dropWhile isJsWhitespace ≠ [] := by
    intro h
    have := (List.dropWhile_eq_nil_iff.mp h) c hc
    simp [hws] at this
  intro h
  simp only [jsTrim, List.reverse_eq_nil_iff] at h
  have h2 := List.dropWhile_eq_nil_iff.mp h
  have h3 := List.head_dropWhile_not isJsWhitespace l h1
  have h4 : (l.dropWhile isJsWhitespace).head h1 ∈ (l.dropWhile isJsWhitespace).reverse :=
    List.mem_reverse.mpr (List.head_mem h1)
  have := h2 _ h4
  simp [this] at h3

theorem jsTrim_ne_nil_of_marker (line : List Char)
    (h : jsIncludes segmentMarker line = true) : jsTrim line ≠ [] :=
  jsTrim_ne_nil_of_mem line 'B' (mem_of_jsIncludes_cons 'B' _ line h) (by decide)

theorem parseLine_eq_none_of_blank (documentText line : List Char)
    (h : (jsTrim line).isEmpty = true) : parseLine documentText line = none := by
  have hm : jsIncludes segmentMarker line = false := by
    by_contra hc
    have := jsTrim_ne_nil_of_marker line (by simpa using hc)
    simp [List.isEmpty_iff] at h
    exact this h
  simp [parseLine, hm]

theorem parseLine_eq_none_of_malformed (documentText line : List Char)
    (h : malformedLine line = true) : parseLine documentText line = none := by
  simp only [malformedLine, Bool.or_eq_true, Bool.not_eq_true', Option.isNone_iff_eq_none] at h
  rcases h with h | h
  · simp [parseLine, h]
  · simp only [positionField] at h
    simp only [parseLine, h, ite_self]

theorem filterMap_filter_of_none {β γ : Type} (f : β → Option γ) (p : β → Bool) (l : List β)
    (h : ∀ x, p x = false → f x = none) : (l.filter p).filterMap f = l.filterMap f := by
  induction l with
  | nil => rfl
  | cons x xs ih =>
    cases hp : p x
    · simp [List.filter_cons, hp, List.filterMap_cons, h x hp, ih]
    · simp [List.filter_cons, hp, List.filterMap_cons, ih]

theorem emittedRecords_joinLines (documentText : List Char) (lines : List (List Char))
    (h : ∀ x ∈ lines, '\n' ∉ x) :
    emittedRecords (joinLines lines) documentText = lines.filterMap (parseLine documentText) := by
  rw [emittedRecords, responseLines_joinLines lines h]
  apply filterMap_filter_of_none
  intro x hx
  exact parseLine_eq_none_of_blank documentText x (by simpa using hx)

/-! ## Lemmas on the sort -/

theorem orderedInsert_filter_importance (k : Nat) (a : SearchResult) (l : List SearchResult) :
    (l.orderedInsert (fun a b => b.importance ≤ a.importance) a).filter
        (fun r => r.importance == k) =
      (a :: l).filter (fun r => r.importance == k) := by
  induction l with
  | nil => simp
  | cons b bs ih =>
    by_cases hab : b.importance ≤ a.importance
    · simp [List.orderedInsert, hab]
    · simp only [List.orderedInsert, hab, if_false]
      by_cases hak : a.importance = k
      · have hbk : (b.importance == k) = false := by
          simp only [beq_eq_false_iff_ne]
          omega
        rw [List.filter_cons, hbk, if_neg (by simp), ih]
        simp [List.filter_cons, hak, hbk]
      · have hak2 : (a.importance == k) = false := by simpa using hak
        rw [List.filter_cons, ih]
        simp [List.filter_cons, hak2]

theorem sortByImportance_filter (k : Nat) (l : List SearchResult) :
    (sortByImportance l).filter (fun r => r.importance == k) =
      l.filter (fun r => r.importance == k) := by
  induction l with
  | nil => rfl
  | cons a as ih =>
    simp only [sortByImportance, List.insertionSort] at ih ⊢
    rw [orderedInsert_filter_importance, List.filter_cons, List.filter_cons, ih]

theorem sortByImportance_pairwise (l : List SearchResult) :
    (sortByImportance l).Pairwise (fun a b => b.importance ≤ a.importance) := by
  haveI : IsTotal SearchResult (fun a b => b.importance ≤ a.importance) :=
    ⟨fun a b => Nat.le_total _ _⟩
  haveI : IsTrans SearchResult (fun a b => b.importance ≤ a.importance) :=
    ⟨fun _ _ _ h1 h2 => Nat.le_trans h2 h1⟩
  exact List.sorted_insertionSort (fun a b : SearchResult => b.importance ≤ a.importance) l

theorem jsSubstring_spec (s : List Char) (a b : Nat) :
    ∃ pre post, s = pre ++ jsSubstring s a b ++ post ∧
      pre.length = min (min a b) s.length ∧
      pre.length + (jsSubstring s a b).length = min (max a b) s.length := by
  refine ⟨s.take (min (min a s.length) (min b s.length)),
    (s.drop (min (min a s.length) (min b s.length))).drop
      (max (min a s.length) (min b s.length) - min (min a s.length) (min b s.length)), ?_, ?_, ?_⟩
  · simp only [jsSubstring]
    rw [List.append_assoc, List.take_append_drop, List.take_append_drop]
  · simp only [List.length_take]
    omega
  · simp only [jsSubstring, List.length_take, List.length_drop]
    omega

/-! ## The parser: sorting, tolerance of malformed lines, offsets -/

/-- C8: for every response and document text, the list returned by
`parseSearchResults` is in non-increasing order of importance, is a permutation
of the emitted records, and for every importance value the records of that
importance appear in the order in which their lines were emitted. -/
theorem parseSearchResults_sorted_stable (resultsText documentText : List Char) :
    (parseSearchResults resultsText documentText).Pairwise
        (fun a b => b.importance ≤ a.importance) ∧
      (parseSearchResults resultsText documentText).Perm
        (emittedRecords resultsText documentText) ∧
      ∀ k : Nat,
        (parseSearchResults resultsText documentText).filter (fun r => r.importance == k) =
          (emittedRecords resultsText documentText).filter (fun r => r.importance == k) :=
  ⟨sortByImportance_pairwise _, List.perm_insertionSort _ _,
    fun k => sortByImportance_filter k _⟩

/-- C7: for every document text and every response made of lines joined by line
feeds, removing the malformed lines (those lacking the segment marker or whose
position field does not match `<integer>-<integer>`) does not change the
result, which consists of the records of the remaining lines sorted by
importance. -/
theorem parseSearchResults_skips_malformed (documentText : List Char)
    (lines : List (List Char)) (h : ∀ x ∈ lines, '\n' ∉ x) :
    parseSearchResults (joinLines lines) documentText =
        parseSearchResults (joinLines (lines.filter (fun l => !malformedLine l))) documentText ∧
      parseSearchResults (joinLines lines) documentText =
        sortByImportance
          ((lines.filter (fun l => !malformedLine l)).filterMap (parseLine documentText)) := by
  have hfilter : ∀ x ∈ lines.filter (fun l => !malformedLine l), '\n' ∉ x :=
    fun x hx => h x (List.mem_of_mem_filter hx)
  have hkeep : (lines.filter (fun l => !malformedLine l)).filterMap (parseLine documentText) =
      lines.filterMap (parseLine documentText) := by
    apply filterMap_filter_of_none
    intro x hx
    exact parseLine_eq_none_of_malformed documentText x (by simpa using hx)
  simp only [parseSearchResults, emittedRecords_joinLines documentText lines h,
    emittedRecords_joinLines documentText _ hfilter, hkeep, and_self]

/-- C7 on the response `"garbage"`, a valid line, and a line whose position
field has no offsets. -/
theorem parseSearchResults_skips_malformed_witness :
    (∀ x ∈ ["garbage".toList, "BÖLÜM 1: 4-9 - fox jump - Önem: 7".toList,
        "BÖLÜM x - 1-2 - Önem: 3".toList], '\n' ∉ x) ∧
      (parseSearchResults (joinLines ["garbage".toList,
          "BÖLÜM 1: 4-9 - fox jump - Önem: 7".toList, "BÖLÜM x - 1-2 - Önem: 3".toList])
          "The quick brown fox".toList =
        parseSearchResults (joinLines (["garbage".toList,
          "BÖLÜM 1: 4-9 - fox jump - Önem: 7".toList, "BÖLÜM x - 1-2 - Önem: 3".toList].filter
            (fun l => !malformedLine l))) "The quick brown fox".toList ∧
      parseSearchResults (joinLines ["garbage".toList,
          "BÖLÜM 1: 4-9 - fox jump - Önem: 7".toList, "BÖLÜM x - 1-2 - Önem: 3".toList])
          "The quick brown fox".toList =
        sortByImportance
          ((["garbage".toList, "BÖLÜM 1: 4-9 - fox jump - Önem: 7".toList,
            "BÖLÜM x - 1-2 - Önem: 3".toList].filter (fun l => !malformedLine l)).filterMap
              (parseLine "The quick brown fox".toList))) :=
  ⟨by decide, parseSearchResults_skips_malformed _ _ (by decide)⟩

/-- C9: for every document text and every candidate line (it holds the segment
marker and a hyphen and has at least three ` - `-separated parts) whose position
field parses to the offsets `start` and `end_`, whatever their size and order,
`parseSearchResults` returns exactly one record; it carries these offsets and
its text is the piece of the document text from position `min start end_` to
position `max start end_`, both clamped to the length of the text, so the text
is no longer than the document text. -/
theorem parseSearchResults_clamps_offsets (documentText line : List Char) (start end_ : Nat)
    (hnl : '\n' ∉ line)
    (hmarker : jsIncludes segmentMarker line = true)
    (hhyphen : jsIncludes ['-'] line = true)
    (hparts : 3 ≤ (splitString " - ".toList 0 [] line).length)
    (hpos : matchPosition (positionField line) = some (start, end_)) :
    ∃ r, parseSearchResults line documentText = [r] ∧ r.start = start ∧ r.end_ = end_ ∧
      (∃ pre post, documentText = pre ++ r.text ++ post ∧
        pre.length = min (min start end_) documentText.length ∧
        pre.length + r.text.length = min (max start end_) documentText.length) ∧
      r.text.length ≤ documentText.length := by
  have hlines : responseLines line = [line] := by
    have := responseLines_joinLines [line] (by simpa using hnl)
    simpa [joinLines, jsTrim_ne_nil_of_marker line hmarker, List.isEmpty_iff] using this
  have hpos2 : matchPosition
      (jsTrim (removeFirst segmentMarker ((splitString " - ".toList 0 [] line).getD 0 []))) =
      some (start, end_) := hpos
  obtain ⟨pre, post, h1, h2, h3⟩ := jsSubstring_spec documentText start end_
  refine ⟨{ start := start
            end_ := end_
            text := jsSubstring documentText start end_
            description := (splitString " - ".toList 0 [] line).getD 1 []
            importance :=
              match matchImportance ((splitString " - ".toList 0 [] line).getD 2 []) with
              | some n => n
              | none => 5 }, ?_, rfl, rfl, ⟨pre, post, h1, h2, h3⟩, ?_⟩
  · simp only [parseSearchResults, emittedRecords, hlines, List.filterMap_cons,
      List.filterMap_nil, parseLine, hmarker, hhyphen, Bool.and_self, if_true, hparts,
      ge_iff_le, hpos2, sortByImportance, List.insertionSort, List.orderedInsert]
  · show (jsSubstring documentText start end_).length ≤ documentText.length
    have := congrArg List.length h1
    simp only [List.length_append] at this
    omega

/-- C9 on a line with the offsets `90` and `3` for a text of 19 characters. -/
theorem parseSearchResults_clamps_offsets_witness :
    ∃ r, parseSearchResults "BÖLÜM 2: 90-3 - a - b".toList "The quick brown fox".toList = [r] ∧
      r.start = 90 ∧ r.end_ = 3 ∧
      (∃ pre post, "The quick brown fox".toList = pre ++ r.text ++ post ∧
        pre.length = min (min 90 3) "The quick brown fox".toList.length ∧
        pre.length + r.text.length = min (max 90 3) "The quick brown fox".toList.length) ∧
      r.text.length ≤ "The quick brown fox".toList.length :=
  parseSearchResults_clamps_offsets "The quick brown fox".toList "BÖLÜM 2: 90-3 - a - b".toList
    90 3 (by decide) (by decide) (by decide) (by decide) (by decide)

/-! ## Lemmas on the artifact handlers -/

theorem jsTrim_idempotent (s : List Char) : jsTrim (jsTrim s) = jsTrim s := by
  have e : ∀ x, jsTrim x = (x.dropWhile isJsWhitespace).rdropWhile isJsWhitespace :=
    fun x => rfl
  rw [e (jsTrim s), e s]
  have h1 : (((s.dropWhile isJsWhitespace).rdropWhile isJsWhitespace).dropWhile
      isJsWhitespace) = (s.dropWhile isJsWhitespace).rdropWhile isJsWhitespace := by
    have hpre := List.rdropWhile_prefix isJsWhitespace (s.dropWhile isJsWhitespace)
    cases hu : (s.dropWhile isJsWhitespace).rdropWhile isJsWhitespace with
    | nil => rfl
    | cons a u =>
      rw [hu] at hpre
      obtain ⟨rest, hrest⟩ := hpre
      have hne : s.dropWhile isJsWhitespace ≠ [] := by
        rw [← hrest]
        simp
      have hhead := List.head_dropWhile_not isJsWhitespace s hne
      have ha : (s.dropWhile isJsWhitespace).head hne = a := by
        simp [← hrest]
      rw [ha] at hhead
      simp [List.dropWhile_cons, hhead]
  rw [h1, List.rdropWhile_idempotent]

theorem extractKeywords_trimmed (gen : Generative) (calls : Nat) (text : List Char) (m : Nat)
    (ks : List (List Char)) (calls2 : Nat)
    (h : extractKeywords gen calls text m = (Except.ok ks, calls2)) :
    ks.map jsTrim = ks ∧ calls2 = calls + 1 := by
  unfold extractKeywords at h
  split at h
  · simp only [Prod.mk.injEq, Except.ok.injEq] at h
    obtain ⟨hks, hc⟩ := h
    refine ⟨?_, hc.symm⟩
    rw [← hks]
    conv_rhs => rw [← List.map_id (List.take m _)]
    apply List.map_congr_left
    intro k hk
    have hk2 := List.mem_of_mem_filter (List.mem_of_mem_take hk)
    obtain ⟨x, _, rfl⟩ := List.mem_map.mp hk2
    simpa using jsTrim_idempotent x
  · simp at h

theorem summarizeText_ok_calls (gen : Generative) (calls : Nat) (text : List Char) (m : Nat)
    (summary : List Char) (calls2 : Nat)
    (h : summarizeText gen calls text m = (Except.ok summary, calls2)) : calls2 = calls + 1 := by
  unfold summarizeText at h
  split at h
  · simp at h
  · split at h
    · simp only [Prod.mk.injEq] at h
      exact h.2.symm
    · simp at h

theorem findOne_map {α : Type} (documents : List (Document α)) (id userId : Nat)
    (f : Document α → Document α) (hid : ∀ d, (f d)._id = d._id)
    (hown : ∀ d, (f d).ownerId = d.ownerId) :
    findOne (documents.map f) id userId = (findOne documents id userId).map f := by
  induction documents with
  | nil => rfl
  | cons d ds ih =>
    simp only [findOne, List.map_cons, List.find?_cons, hid, hown] at ih ⊢
    split
    · rfl
    · exact ih

theorem findOne_id {α : Type} (documents : List (Document α)) (id userId : Nat)
    (document : Document α) (h : findOne documents id userId = some document) :
    document._id = id := by
  have := List.find?_some h
  simp only [Bool.and_eq_true, beq_iff_eq] at this
  exact this.1

/-- A computed summary longer than 10000 characters is rejected by the schema
validator when the document is saved: the request fails and nothing is
stored. -/
theorem summaryRoute_long_summary {α : Type} (gen : Generative) (now userId id : Nat)
    (w : World α) (document : Document α) (summary : List Char) (calls : Nat)
    (hfind : findOne w.documents id userId = some document)
    (hpresent : summaryPresent document = false)
    (hsum : summarizeText gen w.generateCalls document.contentText 500 =
      (Except.ok summary, calls))
    (hlen : 10000 < summary.length) :
    (summaryRoute gen now userId id w).1 =
        summaryFailure "Document validation failed: summaryText: Özet çok büyük".toList ∧
      (summaryRoute gen now userId id w).2.documents = w.documents := by
  simp only [summaryRoute, hfind, hpresent, hsum, saveSummary, Bool.false_eq_true, if_false,
    gt_iff_lt, hlen, if_true, and_self]

/-! ## Cached artifacts -/

/-- C4, as stated: the generative capability answers both calls, yet the
summary computed from the first answer is the empty string, so the second
request computes again: it is answered with `cached = false` and a different
value, and the compute function has been invoked twice. -/
theorem summary_recomputed_after_empty_result :
    findOne (singleDocumentWorld (sampleDocument ℚ)).documents 1 7 = some (sampleDocument ℚ) ∧
      (summaryRoute blankThenText 5 7 1 (singleDocumentWorld (sampleDocument ℚ))).1 =
        Response.summary [] false ∧
      (summaryRoute blankThenText 6 7 1
          (summaryRoute blankThenText 5 7 1 (singleDocumentWorld (sampleDocument ℚ))).2).1 =
        Response.summary "late, answer".toList false ∧
      (summaryRoute blankThenText 6 7 1
          (summaryRoute blankThenText 5 7 1
            (singleDocumentWorld (sampleDocument ℚ))).2).2.computeCalls = 2 := by
  refine ⟨rfl, ?_, ?_, ?_⟩ <;> decide

/-- C4, amended: for a stored document whose summary (resp. keyword list) is
not yet present, if `summarizeText` succeeds with a non-empty summary of at
most 10000 characters (resp. `extractKeywords` succeeds with a non-empty list),
the first request returns that value with `cached = false`, the next request
returns the same value with `cached = true`, and over the two requests the
compute function is invoked once and the generative capability called once. -/
theorem artifact_computed_once {α : Type} (gen : Generative) (now now2 userId id : Nat)
    (w : World α) (document : Document α)
    (hfind : findOne w.documents id userId = some document) :
    (∀ (summary : List Char) (calls : Nat), summaryPresent document = false →
      summarizeText gen w.generateCalls document.contentText 500 = (Except.ok summary, calls) →
      summary ≠ [] → summary.length ≤ 10000 →
      (summaryRoute gen now userId id w).1 = Response.summary summary false ∧
        (summaryRoute gen now2 userId id (summaryRoute gen now userId id w).2).1 =
          Response.summary summary true ∧
        (summaryRoute gen now2 userId id (summaryRoute gen now userId id w).2).2.computeCalls =
          w.computeCalls + 1 ∧
        (summaryRoute gen now2 userId id (summaryRoute gen now userId id w).2).2.generateCalls =
          w.generateCalls + 1) ∧
    (∀ (keywords : List (List Char)) (calls : Nat), document.keywords = [] →
      extractKeywords gen w.generateCalls document.contentText 10 = (Except.ok keywords, calls) →
      keywords ≠ [] →
      (keywordsRoute gen now userId id w).1 = Response.keywords keywords false ∧
        (keywordsRoute gen now2 userId id (keywordsRoute gen now userId id w).2).1 =
          Response.keywords keywords true ∧
        (keywordsRoute gen now2 userId id (keywordsRoute gen now userId id w).2).2.computeCalls =
          w.computeCalls + 1 ∧
        (keywordsRoute gen now2 userId id (keywordsRoute gen now userId id w).2).2.generateCalls =
          w.generateCalls + 1) := by
  have hid := findOne_id w.documents id userId document hfind
  constructor
  · intro summary calls hpresent hsum hne hlen
    have hcalls := summarizeText_ok_calls gen _ _ _ _ _ hsum
    have hfirst : summaryRoute gen now userId id w =
        (Response.summary summary false,
          { documents := w.documents.map (fun d =>
              if d._id = document._id then
                { d with summaryText := some summary, lastProcessed := now, updatedAt := now }
              else d)
            computeCalls := w.computeCalls + 1
            generateCalls := calls }) := by
      simp only [summaryRoute, hfind, hpresent, hsum, saveSummary, Bool.false_eq_true, if_false,
        not_lt.mpr hlen]
    have hfind2 : findOne (w.documents.map (fun d =>
        if d._id = document._id then
          { d with summaryText := some summary, lastProcessed := now, updatedAt := now }
        else d)) id userId =
        some { document with summaryText := some summary, lastProcessed := now,
                             updatedAt := now } := by
      rw [findOne_map _ _ _ _ (fun d => by split <;> rfl) (fun d => by split <;> rfl), hfind]
      simp
    have hpresent2 : summaryPresent
        ({ document with summaryText := some summary, lastProcessed := now, updatedAt := now } :
          Document α) = true := by
      simp [summaryPresent, List.isEmpty_iff, hne]
    rw [hfirst]
    simp only [summaryRoute, hfind2, hpresent2, if_true, Option.getD_some, hcalls, and_self]
  · intro keywords calls hnone hkw hne
    obtain ⟨htrim, hcalls⟩ := extractKeywords_trimmed gen _ _ _ _ _ hkw
    have hlen0 : ¬ (document.keywords.length > 0) := by simp [hnone]
    have hfirst : keywordsRoute gen now userId id w =
        (Response.keywords keywords false,
          { documents := w.documents.map (fun d =>
              if d._id = document._id then
                { d with keywords := keywords.map jsTrim, lastProcessed := now, updatedAt := now }
              else d)
            computeCalls := w.computeCalls + 1
            generateCalls := calls }) := by
      simp only [keywordsRoute, hfind, hlen0, decide_False, Bool.false_eq_true, if_false, hkw,
        saveKeywords]
    have hfind2 : findOne (w.documents.map (fun d =>
        if d._id = document._id then
          { d with keywords := keywords.map jsTrim, lastProcessed := now, updatedAt := now }
        else d)) id userId =
        some { document with keywords := keywords.map jsTrim, lastProcessed := now,
                             updatedAt := now } := by
      rw [findOne_map _ _ _ _ (fun d => by split <;> rfl) (fun d => by split <;> rfl), hfind]
      simp
    have hlen2 : keywords.length > 0 := List.length_pos.mpr hne
    rw [htrim] at hfirst hfind2
    rw [hfirst]
    simp only [keywordsRoute, hfind2, hlen2, decide_True, if_true, hcalls, and_self]

/-- C4 on a store with one unprocessed document and a generative capability
answering every call with the same text. -/
theorem artifact_computed_once_witness :
    findOne (singleDocumentWorld (sampleDocument ℚ)).documents 1 7 = some (sampleDocument ℚ) ∧
      ((summaryRoute (fun _ _ => Except.ok " one, two ".toList) 5 7 1
            (singleDocumentWorld (sampleDocument ℚ))).1 =
          Response.summary "one, two".toList false ∧
        (summaryRoute (fun _ _ => Except.ok " one, two ".toList) 6 7 1
            (summaryRoute (fun _ _ => Except.ok " one, two ".toList) 5 7 1
              (singleDocumentWorld (sampleDocument ℚ))).2).1 =
          Response.summary "one, two".toList true ∧
        (summaryRoute (fun _ _ => Except.ok " one, two ".toList) 6 7 1
            (summaryRoute (fun _ _ => Except.ok " one, two ".toList) 5 7 1
              (singleDocumentWorld (sampleDocument ℚ))).2).2.computeCalls = 0 + 1 ∧
        (summaryRoute (fun _ _ => Except.ok " one, two ".toList) 6 7 1
            (summaryRoute (fun _ _ => Except.ok " one, two ".toList) 5 7 1
              (singleDocumentWorld (sampleDocument ℚ))).2).2.generateCalls = 0 + 1) ∧
      ((keywordsRoute (fun _ _ => Except.ok " one, two ".toList) 5 7 1
            (singleDocumentWorld (sampleDocument ℚ))).1 =
          Response.keywords ["one".toList, "two".toList] false ∧
        (keywordsRoute (fun _ _ => Except.ok " one, two ".toList) 6 7 1
            (keywordsRoute (fun _ _ => Except.ok " one, two ".toList) 5 7 1
              (singleDocumentWorld (sampleDocument ℚ))).2).1 =
          Response.keywords ["one".toList, "two".toList] true ∧
        (keywordsRoute (fun _ _ => Except.ok " one, two ".toList) 6 7 1
            (keywordsRoute (fun _ _ => Except.ok " one, two ".toList) 5 7 1
              (singleDocumentWorld (sampleDocument ℚ))).2).2.computeCalls = 0 + 1 ∧
        (keywordsRoute (fun _ _ => Except.ok " one, two ".toList) 6 7 1
            (keywordsRoute (fun _ _ => Except.ok " one, two ".toList) 5 7 1
              (singleDocumentWorld (sampleDocument ℚ))).2).2.generateCalls = 0 + 1) :=
  ⟨rfl,
    (artifact_computed_once (fun _ _ => Except.ok " one, two ".toList) 5 6 7 1
      (singleDocumentWorld (sampleDocument ℚ)) (sampleDocument ℚ) rfl).1
      "one, two".toList 1 rfl rfl (by decide) (by decide),
    (artifact_computed_once (fun _ _ => Except.ok " one, two ".toList) 5 6 7 1
      (singleDocumentWorld (sampleDocument ℚ)) (sampleDocument ℚ) rfl).2
      ["one".toList, "two".toList] 1 rfl rfl (by decide)⟩

/-- C5, as stated: after a summary request whose computed summary is the empty
string, the stored `summaryText` is the empty string, which is not `null`; yet
the next summary request does not return it as cached: it calls the generative
capability again, answers with the new summary and `cached = false`, and
rewrites the document. -/
theorem empty_summary_not_served_from_cache :
    (summaryRoute blankThenText 5 7 1 (singleDocumentWorld (sampleDocument ℚ))).2.documents.map
        (fun d => d.summaryText) = [some []] ∧
      findOne (singleDocumentWorld emptySummaryDocument).documents 1 7 =
        some emptySummaryDocument ∧
      emptySummaryDocument.summaryText ≠ none ∧
      (summaryRoute (fun _ _ => Except.ok "fresh".toList) 5 7 1
          (singleDocumentWorld emptySummaryDocument)).1 =
        Response.summary "fresh".toList false ∧
      (summaryRoute (fun _ _ => Except.ok "fresh".toList) 5 7 1
          (singleDocumentWorld emptySummaryDocument)).2.generateCalls = 1 ∧
      (summaryRoute (fun _ _ => Except.ok "fresh".toList) 5 7 1
          (singleDocumentWorld emptySummaryDocument)).2.documents.map
        (fun d => (d.summaryText, d.lastProcessed)) = [(some "fresh".toList, 5)] := by
  refine ⟨by decide, rfl, by decide, ?_, ?_, ?_⟩ <;> decide

/-- C5, amended: for a stored document whose summary is a non-empty string
(resp. whose keyword list is non-empty), the summary (resp. keywords) request
returns exactly the stored value with `cached = true` and leaves the world as it
was: every field of every document and both call counters are unchanged. -/
theorem cached_artifact_served_unchanged {α : Type} (gen : Generative) (now userId id : Nat)
    (w : World α) (document : Document α)
    (hfind : findOne w.documents id userId = some document) :
    (∀ s : List Char, document.summaryText = some s → s ≠ [] →
      summaryRoute gen now userId id w = (Response.summary s true, w)) ∧
    (document.keywords ≠ [] →
      keywordsRoute gen now userId id w = (Response.keywords document.keywords true, w)) := by
  constructor
  · intro s hs hne
    have hpresent : summaryPresent document = true := by
      simp [summaryPresent, hs, List.isEmpty_iff, hne]
    simp only [summaryRoute, hfind, hpresent, if_true, hs, Option.getD_some]
  · intro hne
    have hlen : document.keywords.length > 0 := List.length_pos.mpr hne
    simp only [keywordsRoute, hfind, hlen, decide_True, if_true]

/-- C5 on a store with one processed document. -/
theorem cached_artifact_served_unchanged_witness :
    findOne (singleDocumentWorld processedDocument).documents 1 7 = some processedDocument ∧
      summaryRoute blankThenText 5 7 1 (singleDocumentWorld processedDocument) =
        (Response.summary "short".toList true, singleDocumentWorld processedDocument) ∧
      keywordsRoute blankThenText 5 7 1 (singleDocumentWorld processedDocument) =
        (Response.keywords ["key".toList] true, singleDocumentWorld processedDocument) :=
  ⟨rfl,
    (cached_artifact_served_unchanged blankThenText 5 7 1 (singleDocumentWorld processedDocument)
      processedDocument rfl).1 "short".toList rfl (by decide),
    (cached_artifact_served_unchanged blankThenText 5 7 1 (singleDocumentWorld processedDocument)
      processedDocument rfl).2 (by decide)⟩

/-! ## Similarity: defensive cases and bounds -/

section SimilarityBounds

variable {α : Type} [LinearOrderedField α]

theorem sum_map_eq_zero {β : Type} (l : List β) (f : β → α) (h : ∀ x ∈ l, f x = 0) :
    (l.map f).sum = 0 := by
  induction l with
  | nil => rfl
  | cons x xs ih =>
    simp only [List.map_cons, List.sum_cons, h x (List.mem_cons_self _ _), zero_add]
    exact ih (fun y hy => h y (List.mem_cons_of_mem _ hy))

theorem sum_map_nonneg {β : Type} (l : List β) (f : β → α) (h : ∀ x, 0 ≤ f x) :
    0 ≤ (l.map f).sum := by
  induction l with
  | nil => simp
  | cons x xs ih =>
    simp only [List.map_cons, List.sum_cons]
    exact add_nonneg (h x) ih

theorem zip_sums_of_length_eq (a b : List α) (h : a.length = b.length) :
    ((a.zip b).map (fun p => p.1 * p.2)).sum = dotProduct a b ∧
      ((a.zip b).map (fun p => p.1 * p.1)).sum = (a.map (fun x => x * x)).sum ∧
      ((a.zip b).map (fun p => p.2 * p.2)).sum = (b.map (fun x => x * x)).sum := by
  induction a generalizing b with
  | nil =>
    cases b with
    | nil => simp [dotProduct]
    | cons y ys => simp at h
  | cons x xs ih =>
    cases b with
    | nil => simp at h
    | cons y ys =>
      have hlen : xs.length = ys.length := by simpa using h
      obtain ⟨h1, h2, h3⟩ := ih ys hlen
      simp only [dotProduct] at h1
      simp [dotProduct, h1, h2, h3]

/-- The Cauchy-Schwarz inequality for the three sums of the loop. -/
theorem sq_sum_mul_le (ps : List (α × α)) :
    (ps.map (fun p => p.1 * p.2)).sum ^ 2 ≤
      (ps.map (fun p => p.1 * p.1)).sum * (ps.map (fun p => p.2 * p.2)).sum := by
  induction ps with
  | nil => simp
  | cons p ps ih =>
    simp only [List.map_cons, List.sum_cons]
    have hb : 0 ≤ (ps.map (fun p => p.1 * p.1)).sum :=
      sum_map_nonneg ps _ (fun p => mul_self_nonneg p.1)
    have hc : 0 ≤ (ps.map (fun p => p.2 * p.2)).sum :=
      sum_map_nonneg ps _ (fun p => mul_self_nonneg p.2)
    generalize (ps.map (fun p => p.1 * p.2)).sum = a at ih
    generalize (ps.map (fun p => p.1 * p.1)).sum = b at ih hb
    generalize (ps.map (fun p => p.2 * p.2)).sum = c at ih hc
    obtain ⟨x, y⟩ := p
    simp only
    have hcross : 2 * a * (x * y) ≤ b * (y * y) + c * (x * x) := by
      rcases hb.eq_or_lt with hb0 | hbpos
      · have ha : a = 0 := by
          have : a ^ 2 ≤ 0 := by simpa [← hb0] using ih
          exact pow_eq_zero_iff (two_ne_zero) |>.mp (le_antisymm this (sq_nonneg a))
        rw [ha, ← hb0]
        have := mul_nonneg hc (mul_self_nonneg x)
        simpa using this
      · have hkey : 0 ≤ b * (b * (y * y) + c * (x * x) - 2 * a * (x * y)) := by
          have h1 := sq_nonneg (b * y - a * x)
          have h2 := mul_nonneg (sub_nonneg.mpr ih) (mul_self_nonneg x)
          nlinarith [h1, h2]
        have := nonneg_of_mul_nonneg_right hkey hbpos
        linarith
    nlinarith [hcross, ih, mul_self_nonneg (x * y)]

end SimilarityBounds

theorem calculateSimilarity_abs_le_one (a b : Option (List ℝ)) :
    |calculateSimilarity Real.sqrt a b| ≤ 1 := by
  unfold calculateSimilarity
  split
  · rename_i e1 e2
    split
    · simp
    · rw [similaritySums_eq]
      simp only
      split
      · simp
      · rename_i hnorm
        push_neg at hnorm
        obtain ⟨h1, h2⟩ := hnorm
        have hp1 : 0 < Real.sqrt (((e1.zip e2).map (fun p => p.1 * p.1)).sum) :=
          lt_of_le_of_ne (Real.sqrt_nonneg _) (Ne.symm h1)
        have hp2 : 0 < Real.sqrt (((e1.zip e2).map (fun p => p.2 * p.2)).sum) :=
          lt_of_le_of_ne (Real.sqrt_nonneg _) (Ne.symm h2)
        have hcs := Real.abs_le_sqrt (sq_sum_mul_le (e1.zip e2))
        rw [Real.sqrt_mul (sum_map_nonneg (e1.zip e2) (fun p : ℝ × ℝ => p.1 * p.1)
          (fun p => mul_self_nonneg p.1))] at hcs
        rw [abs_div, abs_of_pos (mul_pos hp1 hp2)]
        exact (div_le_one (mul_pos hp1 hp2)).mpr hcs
  · simp

/-- C11: `calculateSimilarity` is total and returns `0` when an argument is
absent, when the lengths differ and when one of the two vectors has only zero
components (the empty vector included); in particular the similarity of any
vector with the zero vector of its length is `0`. -/
theorem calculateSimilarity_defensive_zero :
    (∀ b : Option (List ℝ), calculateSimilarity Real.sqrt none b = 0) ∧
      (∀ a : Option (List ℝ), calculateSimilarity Real.sqrt a none = 0) ∧
      (∀ a b : List ℝ, a.length ≠ b.length →
        calculateSimilarity Real.sqrt (some a) (some b) = 0) ∧
      (∀ a b : List ℝ, ((∀ x ∈ a, x = 0) ∨ (∀ x ∈ b, x = 0)) →
        calculateSimilarity Real.sqrt (some a) (some b) = 0) ∧
      (∀ v : List ℝ,
        calculateSimilarity Real.sqrt (some v) (some (List.replicate v.length 0)) = 0) := by
  have hzero : ∀ a b : List ℝ, ((∀ x ∈ a, x = 0) ∨ (∀ x ∈ b, x = 0)) →
      calculateSimilarity Real.sqrt (some a) (some b) = 0 := by
    intro a b h
    unfold calculateSimilarity
    simp only
    split
    · rfl
    · rw [similaritySums_eq]
      simp only
      rcases h with h | h
      · have : ((a.zip b).map (fun p => p.1 * p.1)).sum = 0 :=
          sum_map_eq_zero _ _ (fun p hp => by
            have := h p.1 (List.of_mem_zip hp).1
            simp [this])
        simp [this]
      · have : ((a.zip b).map (fun p => p.2 * p.2)).sum = 0 :=
          sum_map_eq_zero _ _ (fun p hp => by
            have := h p.2 (List.of_mem_zip hp).2
            simp [this])
        simp [this]
  refine ⟨fun b => ?_, fun a => ?_, fun a b h => ?_, hzero, fun v => ?_⟩
  · rfl
  · cases a <;> rfl
  · simp [calculateSimilarity, h]
  · exact hzero v _ (Or.inr (fun x hx => (List.mem_replicate.mp hx).2))

/-- C11 on the vectors `[1, 2]` and `[1, 2, 3]`, and on `[0, 0]`. -/
theorem calculateSimilarity_defensive_zero_witness :
    calculateSimilarity Real.sqrt (some [1, 2]) (some [(1 : ℝ), 2, 3]) = 0 ∧
      calculateSimilarity Real.sqrt (some [1, 2]) (some [(0 : ℝ), 0]) = 0 :=
  ⟨calculateSimilarity_defensive_zero.2.2.1 [1, 2] [1, 2, 3] (by decide),
    calculateSimilarity_defensive_zero.2.2.2.1 [1, 2] [0, 0] (Or.inr (by simp))⟩

/-- C12: for all vectors, absent or of any lengths, with real components,
`calculateSimilarity` lies between `-1` and `1`; for two vectors of the same
length whose norms are not zero it equals `dot(a, b) / (||a|| * ||b||)`. -/
theorem calculateSimilarity_bounds_and_cosine :
    (∀ a b : Option (List ℝ),
        -1 ≤ calculateSimilarity Real.sqrt a b ∧ calculateSimilarity Real.sqrt a b ≤ 1) ∧
      (∀ a b : List ℝ, a.length = b.length → euclideanNorm Real.sqrt a ≠ 0 →
        euclideanNorm Real.sqrt b ≠ 0 →
        calculateSimilarity Real.sqrt (some a) (some b) =
          dotProduct a b / (euclideanNorm Real.sqrt a * euclideanNorm Real.sqrt b)) := by
  refine ⟨fun a b => abs_le.mp (calculateSimilarity_abs_le_one a b), ?_⟩
  intro a b hlen ha hb
  obtain ⟨h1, h2, h3⟩ := zip_sums_of_length_eq a b hlen
  simp only [euclideanNorm] at ha hb
  simp only [calculateSimilarity, similaritySums_eq, h1, h2, h3, hlen, ne_eq, not_true_eq_false,
    if_false, ha, hb, or_self, euclideanNorm]

/-- C12 on the vectors `[3, 4]` and `[4, 3]`. -/
theorem calculateSimilarity_bounds_and_cosine_witness :
    (-1 ≤ calculateSimilarity Real.sqrt (some [3, 4]) (some [(4 : ℝ), 3]) ∧
        calculateSimilarity Real.sqrt (some [3, 4]) (some [(4 : ℝ), 3]) ≤ 1) ∧
      calculateSimilarity Real.sqrt (some [3, 4]) (some [(4 : ℝ), 3]) =
        dotProduct [3, 4] [(4 : ℝ), 3] /
          (euclideanNorm Real.sqrt [3, 4] * euclideanNorm Real.sqrt [(4 : ℝ), 3]) :=
  ⟨calculateSimilarity_bounds_and_cosine.1 _ _,
    calculateSimilarity_bounds_and_cosine.2 [3, 4] [4, 3] rfl
      (by
        have h : (0 : ℝ) < 3 * 3 + (4 * 4 + 0) := by norm_num
        simpa [euclideanNorm] using (Real.sqrt_pos.mpr h).ne')
      (by
        have h : (0 : ℝ) < 4 * 4 + (3 * 3 + 0) := by norm_num
        simpa [euclideanNorm] using (Real.sqrt_pos.mpr h).ne')⟩

/-! ## The cross-document search: union, de-duplication, limit -/

section SearchLemmas

variable {α : Type}

theorem uniqueResults_aux (pre l : List (SearchRecord α)) :
    ((l.enumFrom pre.length).filter (fun p =>
        p.1 == (pre ++ l).findIdx (fun d => d.documentId == p.2.documentId))).map Prod.snd =
      dedupKeepFirst pre l := by
  induction l generalizing pre with
  | nil => rfl
  | cons x xs ih =>
    have htail := ih (pre ++ [x])
    simp only [List.length_append, List.length_singleton, List.append_assoc,
      List.singleton_append] at htail
    simp only [List.enumFrom_cons, List.filter_cons, dedupKeepFirst]
    have hidx : (pre ++ x :: xs).findIdx (fun d => d.documentId == x.documentId) =
        if pre.findIdx (fun d => d.documentId == x.documentId) < pre.length then
          pre.findIdx (fun d => d.documentId == x.documentId)
        else pre.length := by
      rw [List.findIdx_append]
      simp [List.findIdx_cons]
    by_cases hany : pre.any (fun d => d.documentId == x.documentId) = true
    · have hlt : pre.findIdx (fun d => d.documentId == x.documentId) < pre.length := by
        rw [List.findIdx_lt_length]
        simpa using hany
      have hne : (pre.length == (pre ++ x :: xs).findIdx
          (fun d => d.documentId == x.documentId)) = false := by
        rw [hidx, if_pos hlt]
        simp only [beq_eq_false_iff_ne]
        omega
      simp only [hne, hany, if_true, Bool.false_eq_true, if_false]
      exact htail
    · have hnlt : ¬ pre.findIdx (fun d => d.documentId == x.documentId) < pre.length := by
        rw [List.findIdx_lt_length]
        simpa using hany
      have heq : (pre.length == (pre ++ x :: xs).findIdx
          (fun d => d.documentId == x.documentId)) = true := by
        rw [hidx, if_neg hnlt]
        simp
      simp only [heq, hany, if_true, Bool.false_eq_true, if_false, List.map_cons]
      rw [htail]

theorem uniqueResults_eq (l : List (SearchRecord α)) :
    uniqueResults l = dedupKeepFirst [] l := by
  have := uniqueResults_aux [] l
  simpa [uniqueResults, List.enum] using this

theorem mem_dedupKeepFirst (seen l : List (SearchRecord α)) (r : SearchRecord α)
    (h : r ∈ dedupKeepFirst seen l) :
    r ∈ l ∧ ∀ d ∈ seen, d.documentId ≠ r.documentId := by
  induction l generalizing seen with
  | nil => simp [dedupKeepFirst] at h
  | cons x xs ih =>
    simp only [dedupKeepFirst] at h
    have hrec : r ∈ dedupKeepFirst (seen ++ [x]) xs →
        r ∈ x :: xs ∧ ∀ d ∈ seen, d.documentId ≠ r.documentId := by
      intro hr
      obtain ⟨h1, h2⟩ := ih (seen ++ [x]) hr
      exact ⟨List.mem_cons_of_mem _ h1, fun d hd => h2 d (List.mem_append_left _ hd)⟩
    split at h
    · exact hrec h
    · rename_i hany
      rcases List.mem_cons.mp h with rfl | hr
      · refine ⟨List.mem_cons_self _ _, fun d hd hid => hany ?_⟩
        simp only [List.any_eq_true, beq_iff_eq]
        exact ⟨d, hd, hid⟩
      · exact hrec hr

theorem dedupKeepFirst_nodup (seen l : List (SearchRecord α)) :
    ((dedupKeepFirst seen l).map (fun r => r.documentId)).Nodup := by
  induction l generalizing seen with
  | nil => simp [dedupKeepFirst]
  | cons x xs ih =>
    simp only [dedupKeepFirst]
    split
    · exact ih _
    · simp only [List.map_cons, List.nodup_cons]
      refine ⟨?_, ih _⟩
      intro hmem
      obtain ⟨r, hr, hid⟩ := List.mem_map.mp hmem
      exact (mem_dedupKeepFirst _ _ r hr).2 x (by simp) hid.symm

theorem dedupKeepFirst_append (seen l1 l2 : List (SearchRecord α)) :
    dedupKeepFirst seen (l1 ++ l2) = dedupKeepFirst seen l1 ++ dedupKeepFirst (seen ++ l1) l2 := by
  induction l1 generalizing seen with
  | nil => simp [dedupKeepFirst]
  | cons x xs ih =>
    have e : seen ++ x :: xs = (seen ++ [x]) ++ xs := by simp
    rw [List.cons_append, e]
    simp only [dedupKeepFirst]
    rw [ih (seen ++ [x])]
    split <;> simp

theorem dedupKeepFirst_length_le (seen l : List (SearchRecord α)) :
    (dedupKeepFirst seen l).length ≤ l.length := by
  induction l generalizing seen with
  | nil => simp [dedupKeepFirst]
  | cons x xs ih =>
    simp only [dedupKeepFirst]
    split
    · exact Nat.le_succ_of_le (ih _)
    · simpa using ih _

theorem dedupKeepFirst_covers (seen l : List (SearchRecord α)) (x : SearchRecord α)
    (hx : x ∈ l) (hseen : ∀ d ∈ seen, d.documentId ≠ x.documentId) :
    ∃ r ∈ dedupKeepFirst seen l, r.documentId = x.documentId := by
  induction l generalizing seen with
  | nil => simp at hx
  | cons y ys ih =>
    simp only [dedupKeepFirst]
    by_cases hid : y.documentId = x.documentId
    · have hany : ¬ seen.any (fun d => d.documentId == y.documentId) = true := by
        simp only [List.any_eq_true, beq_iff_eq, not_exists, not_and]
        intro d hd
        rw [hid]
        exact hseen d hd
      rw [if_neg hany]
      exact ⟨y, List.mem_cons_self _ _, hid⟩
    · have hxys : x ∈ ys := by
        rcases List.mem_cons.mp hx with rfl | h
        · exact absurd rfl hid
        · exact h
      have hseen2 : ∀ d ∈ seen ++ [y], d.documentId ≠ x.documentId := by
        intro d hd
        rcases List.mem_append.mp hd with h | h
        · exact hseen d h
        · rw [List.mem_singleton.mp h]
          exact hid
      obtain ⟨r, hr, hrid⟩ := ih (seen ++ [y]) hxys hseen2
      split
      · exact ⟨r, hr, hrid⟩
      · exact ⟨r, List.mem_cons_of_mem _ hr, hrid⟩

theorem filter_length_eq_one {β : Type} (f : β → Nat) (l : List β) (k : Nat)
    (hn : (l.map f).Nodup) (h : ∃ r ∈ l, f r = k) :
    (l.filter (fun r => f r == k)).length = 1 := by
  induction l with
  | nil => simp at h
  | cons y ys ih =>
    simp only [List.map_cons, List.nodup_cons] at hn
    by_cases hy : f y = k
    · have hnone : ys.filter (fun r => f r == k) = [] := by
        rw [List.filter_eq_nil_iff]
        intro r hr
        simp only [beq_iff_eq]
        intro hrk
        exact hn.1 (List.mem_map.mpr ⟨r, hr, by rw [hrk, hy]⟩)
      simp [List.filter_cons, hy, hnone]
    · obtain ⟨r, hr, hrk⟩ := h
      have hrys : r ∈ ys := by
        rcases List.mem_cons.mp hr with rfl | h
        · exact absurd hrk hy
        · exact h
      simp only [List.filter_cons, beq_iff_eq, hy, if_false]
      exact ih hn.2 ⟨r, hrys, hrk⟩

end SearchLemmas

/-- C13: for every list `A` of text results, every list `B` of semantic results
and every limit `L`, the returned results are the first `L` elements of `A ++ B`
de-duplicated by document identifier keeping the first occurrence; no
identifier appears twice; at most `L` results are returned; a returned record
whose identifier occurs in `A` is a record of `A`, without similarity; and when
`A` has at most `L` elements every document of `A` is returned, hence exactly
once. -/
theorem combineResults_dedup_first {α : Type} (A : List (Document α))
    (B : List (SemanticHit α)) (L : Nat) :
    combineResults A B (L : Int) =
        (dedupKeepFirst [] (A.map SearchRecord.lexical ++ B.map SearchRecord.semantic)).take L ∧
      ((combineResults A B (L : Int)).map (fun r => r.documentId)).Nodup ∧
      (combineResults A B (L : Int)).length ≤ L ∧
      (∀ r ∈ combineResults A B (L : Int), (∃ a ∈ A, a._id = r.documentId) →
        ∃ a ∈ A, r = SearchRecord.lexical a) ∧
      (A.length ≤ L → ∀ a ∈ A,
        ((combineResults A B (L : Int)).filter
          (fun r => r.documentId == a._id)).length = 1) := by
  have hmain : combineResults A B (L : Int) =
      (dedupKeepFirst [] (A.map SearchRecord.lexical ++ B.map SearchRecord.semantic)).take L := by
    simp [combineResults, sliceFromZero, uniqueResults_eq]
  have hnodup : ((combineResults A B (L : Int)).map (fun r => r.documentId)).Nodup := by
    rw [hmain, List.map_take]
    exact (dedupKeepFirst_nodup _ _).sublist (List.take_sublist _ _)
  have hfromA : ∀ r ∈ combineResults A B (L : Int), (∃ a ∈ A, a._id = r.documentId) →
      ∃ a ∈ A, r = SearchRecord.lexical a := by
    intro r hr ⟨a, ha, hid⟩
    rw [hmain] at hr
    have hr2 := List.mem_of_mem_take hr
    rw [dedupKeepFirst_append] at hr2
    rcases List.mem_append.mp hr2 with h | h
    · obtain ⟨a2, ha2, rfl⟩ := List.mem_map.mp (mem_dedupKeepFirst _ _ r h).1
      exact ⟨a2, ha2, rfl⟩
    · have := (mem_dedupKeepFirst _ _ r h).2 (SearchRecord.lexical a)
        (by simpa using List.mem_map_of_mem SearchRecord.lexical ha)
      exact absurd hid this
  refine ⟨hmain, hnodup, ?_, hfromA, ?_⟩
  · rw [hmain]
    simp [List.length_take]
  · intro hlen a ha
    have hin : ∃ r ∈ combineResults A B (L : Int), r.documentId = a._id := by
      obtain ⟨r, hr, hid⟩ := dedupKeepFirst_covers [] (A.map SearchRecord.lexical)
        (SearchRecord.lexical a) (List.mem_map_of_mem _ ha) (by simp)
      refine ⟨r, ?_, hid⟩
      rw [hmain, dedupKeepFirst_append]
      have hle : (dedupKeepFirst [] (A.map SearchRecord.lexical)).length ≤ L :=
        le_trans (dedupKeepFirst_length_le _ _) (by simpa using hlen)
      rw [List.take_append_eq_append_take, List.take_of_length_le hle]
      exact List.mem_append_left _ hr
    exact filter_length_eq_one (fun r => r.documentId) _ a._id hnodup hin

/-- C13 on a text result for document `1` and semantic results for documents
`1` and `2`, with limit `10`. -/
theorem combineResults_dedup_first_witness :
    [sampleDocument ℚ].length ≤ 10 ∧
      ((combineResults [sampleDocument ℚ] [sampleHit 1, sampleHit 2] ((10 : Nat) : Int)).filter
        (fun r => r.documentId == (sampleDocument ℚ)._id)).length = 1 :=
  ⟨by decide,
    (combineResults_dedup_first [sampleDocument ℚ] [sampleHit 1, sampleHit 2] 10).2.2.2.2
      (by decide) (sampleDocument ℚ) (by simp)⟩

/-! ## The cross-document search: owner scoping -/

section OwnerScopeLemmas

variable {α : Type}

theorem mem_sliceFromZero {β : Type} (xs : List β) (n : Int) (x : β)
    (h : x ∈ sliceFromZero xs n) : x ∈ xs := by
  unfold sliceFromZero at h
  split at h <;> exact List.mem_of_mem_take h

theorem mem_queryLimit {β : Type} (xs : List β) (n : Int) (x : β)
    (h : x ∈ queryLimit xs n) : x ∈ xs := by
  unfold queryLimit at h
  split at h
  · exact h
  · exact List.mem_of_mem_take h

theorem textResults_owner (textMatch : List Char → List Char → Bool)
    (documents : List (Document α)) (userId : Nat) (searchQuery : List Char) (limit : Int)
    (d : Document α) (h : d ∈ textResults textMatch documents userId searchQuery limit) :
    d.ownerId = userId := by
  have h2 := mem_queryLimit _ _ _ h
  obtain ⟨d0, hd0, rfl⟩ := List.mem_map.mp h2
  have := (List.mem_filter.mp hd0).2
  simp only [Bool.and_eq_true, beq_iff_eq] at this
  exact this.1

theorem textResults_filter_owner (textMatch : List Char → List Char → Bool)
    (documents : List (Document α)) (userId : Nat) (searchQuery : List Char) (limit : Int) :
    textResults textMatch (documents.filter (fun d => d.ownerId == userId)) userId searchQuery
        limit =
      textResults textMatch documents userId searchQuery limit := by
  simp only [textResults, List.filter_filter]
  congr 2
  apply List.filter_congr
  intro d _
  cases h : (d.ownerId == userId) <;> simp [h]

end OwnerScopeLemmas

section OwnerScope

variable {α : Type} [LinearOrderedField α]

/-- C14: for every store, requesting owner, query and limit, every record
returned by the cross-document search belongs to the requesting owner, and the
answer is the one obtained from the store without the documents of the other
owners. -/
theorem searchRoute_owner_scoped (E : Externals) (gen : Generative)
    (textMatch : List Char → List Char → Bool) (sqrt : α → α) (random : α) (userId : Nat)
    (query : Option (List Char)) (limit : Int) (w : World α) :
    (∀ (results : List (SearchRecord α)) (q : List Char) (total : Nat),
        (searchRoute E gen textMatch sqrt random userId query limit w).1 =
          SearchResponse.ok results q total →
        ∀ r ∈ results, r.ownerId = userId) ∧
      (searchRoute E gen textMatch sqrt random userId query limit
          { w with documents := w.documents.filter (fun d => d.ownerId == userId) }).1 =
        (searchRoute E gen textMatch sqrt random userId query limit w).1 := by
  constructor
  · intro results q total h
    unfold searchRoute at h
    split at h
    · simp at h
    · split at h
      · simp at h
      · simp only [semanticResults_eq_nil, List.map_nil, List.append_nil,
          SearchResponse.ok.injEq] at h
        obtain ⟨hres, _, _⟩ := h
        intro r hr
        rw [← hres] at hr
        have h1 := mem_sliceFromZero _ _ _ hr
        rw [List.map_nil, List.append_nil, uniqueResults_eq] at h1
        obtain ⟨d, hd, rfl⟩ := List.mem_map.mp (mem_dedupKeepFirst _ _ r h1).1
        exact textResults_owner textMatch _ _ _ _ d hd
  · unfold searchRoute
    split
    · rfl
    · split
      · rfl
      · simp only [semanticResults_eq_nil, textResults_filter_owner]

end OwnerScope

/-! ## Validation of the text length -/

theorem emptyContentMessage_ne (maxLength : Nat) :
    emptyContentMessage ≠ contentTooLargeMessage maxLength := by
  intro h
  have h2 := congrArg (List.take 15) h
  simp only [contentTooLargeMessage, List.append_assoc] at h2
  rw [List.take_append_of_le_length (by decide)] at h2
  revert h2
  decide

/-- C15: `validateTextLength(text, max)` throws the empty-content error exactly
when the text is empty, throws the content-too-large error exactly when the
text is non-empty and longer than `max`, and returns `true` exactly when the
text is non-empty and of length at most `max`; the default `max` is
1,000,000. -/
theorem validateTextLength_cases (text : List Char) (maxLength : Nat) :
    (validateTextLength text maxLength = Except.error emptyContentMessage ↔ text = []) ∧
      (validateTextLength text maxLength = Except.error (contentTooLargeMessage maxLength) ↔
        text ≠ [] ∧ text.length > maxLength) ∧
      (validateTextLength text maxLength = Except.ok true ↔
        text ≠ [] ∧ text.length ≤ maxLength) ∧
      defaultMaxLength = 1000000 := by
  have hne := emptyContentMessage_ne maxLength
  refine ⟨?_, ?_, ?_, rfl⟩ <;> unfold validateTextLength
  all_goals
    by_cases h1 : text = []
    · subst h1
      simp [hne]
    · by_cases h2 : text.length > maxLength
      · simp [List.isEmpty_iff, h1, h2, hne.symm]
      · simp [List.isEmpty_iff, h1, h2]
        try exact Nat.le_of_not_gt h2

/-! ## The upload flow -/

theorem replaceRuns_whitespace (l : List Char) (inRun : Bool)
    (h : ∀ c ∈ l, isJsWhitespace c = true) :
    replaceRuns isJsWhitespace ' ' inRun l = if inRun || l.isEmpty then [] else [' '] := by
  induction l generalizing inRun with
  | nil => simp [replaceRuns]
  | cons c cs ih =>
    have hc := h c (List.mem_cons_self _ _)
    have hcs : ∀ x ∈ cs, isJsWhitespace x = true := fun x hx => h x (List.mem_cons_of_mem _ hx)
    simp only [replaceRuns, hc, if_true, ih true hcs]
    cases inRun <;> simp

/-- A text made of whitespace only is cleaned to the empty text. -/
theorem cleanText_whitespace (text : List Char) (h : ∀ c ∈ text, isJsWhitespace c = true) :
    cleanText text = [] := by
  unfold cleanText
  split
  · rfl
  · rename_i hne
    rw [replaceRuns_whitespace text false h]
    simp only [Bool.false_or, hne, Bool.false_eq_true, if_false]
    decide

theorem createDocument_valid {α : Type} (E : Externals) (documents : List (Document α)) (ownerId : Nat)
    (fileName fileType : List Char) (fileSize : Nat) (contentText : List Char)
    (embedding : List α) (now : Nat) (document : Document α)
    (h : createDocument E documents ownerId fileName fileType fileSize contentText embedding
      now = Except.ok document) : validDocument document := by
  unfold createDocument at h
  split at h
  · rename_i herr
    simp only [Except.ok.injEq] at h
    subst h
    simp only [validationErrors, List.append_eq_nil] at herr
    obtain ⟨⟨_, htype⟩, hcontent⟩ := herr
    refine ⟨?_, ?_, ?_⟩
    · show contentText ≠ []
      intro he
      simp [he] at hcontent
    · show contentText.length ≤ 1000000
      by_contra hlen
      have hlen2 : contentText.length > 1000000 := Nat.lt_of_not_le hlen
      split at hcontent
      · simp at hcontent
      · simp [hlen2] at hcontent
    · show E.toLowerCase fileType ∈ supportedTypes
      split at htype
      · simp at htype
      · split at htype
        · simp at htype
        · rename_i hmem
          simpa using hmem
  · simp at h

section UploadTheorems

variable {α : Type} [LinearOrderedField α]

/-- C16: in the upload flow, when the text extracted from the file is cleaned to
the empty text (as for whitespace-only input) or to a text longer than the
maximum length, the upload is answered with status 400 and the content error,
and the world after the request is the world before it: no document is
created. -/
theorem uploadRoute_rejects_bad_content (E : Externals) (gen : Generative) (random : α)
    (now userId : Nat) (f : UploadedFile) (w : World α) (fileType rawText : List Char)
    (htype : getFileTypeFromName E f.originalname = Except.ok fileType)
    (hextract : extractTextFromFile E f.buffer fileType = Except.ok rawText)
    (hbad : (∀ c ∈ rawText, isJsWhitespace c = true) ∨ cleanText rawText = [] ∨
      (cleanText rawText).length > defaultMaxLength) :
    uploadRoute E gen random now userId (some f) w =
      (UploadResponse.failure 400 "İçerik hatası".toList
        (if cleanText rawText = [] then emptyContentMessage
          else contentTooLargeMessage defaultMaxLength), w) := by
  have hcases : cleanText rawText = [] ∨
      (cleanText rawText ≠ [] ∧ (cleanText rawText).length > defaultMaxLength) := by
    by_cases he : cleanText rawText = []
    · exact Or.inl he
    · rcases hbad with h | h | h
      · exact absurd (cleanText_whitespace rawText h) he
      · exact absurd h he
      · exact Or.inr ⟨he, h⟩
  have h1 : (uploadFailure emptyContentMessage : UploadResponse α) =
      UploadResponse.failure 400 "İçerik hatası".toList emptyContentMessage := by
    have ha : jsIncludes "Desteklenmeyen dosya türü".toList emptyContentMessage = false := by
      decide
    have hb : jsIncludes "Dosya içeriği".toList emptyContentMessage = true := by decide
    simp only [uploadFailure, ha, hb, Bool.false_eq_true, if_false, if_true]
  have h2 : (uploadFailure (contentTooLargeMessage defaultMaxLength) : UploadResponse α) =
      UploadResponse.failure 400 "İçerik hatası".toList
        (contentTooLargeMessage defaultMaxLength) := by
    have ha : jsIncludes "Desteklenmeyen dosya türü".toList
        (contentTooLargeMessage defaultMaxLength) = false := by decide
    have hb : jsIncludes "Dosya içeriği".toList (contentTooLargeMessage defaultMaxLength) =
        true := by decide
    simp only [uploadFailure, ha, hb, Bool.false_eq_true, if_false, if_true]
  rcases hcases with he | ⟨hne, hlen⟩
  · simp only [uploadRoute, htype, hextract, validateTextLength, he, List.isEmpty_nil, if_true,
      h1]
  · simp only [uploadRoute, htype, hextract, validateTextLength, List.isEmpty_iff, hne, hlen,
      if_false, if_true, h2]

end UploadTheorems


/-! ## The store invariant -/

section InvariantLemmas

variable {α : Type}

theorem summaryRoute_keeps_content (gen : Generative) (now userId id : Nat) (w : World α) :
    ∀ d ∈ (summaryRoute gen now userId id w).2.documents,
      ∃ d0 ∈ w.documents, d.contentText = d0.contentText ∧ d.fileType = d0.fileType := by
  unfold summaryRoute
  split
  · exact fun d hd => ⟨d, hd, rfl, rfl⟩
  · split
    · exact fun d hd => ⟨d, hd, rfl, rfl⟩
    · split
      · exact fun d hd => ⟨d, hd, rfl, rfl⟩
      · split
        · exact fun d hd => ⟨d, hd, rfl, rfl⟩
        · rename_i documents hsave
          intro d hd
          unfold saveSummary at hsave
          split at hsave
          · simp at hsave
          · simp only [Except.ok.injEq] at hsave
            subst hsave
            obtain ⟨d0, hd0, rfl⟩ := List.mem_map.mp hd
            refine ⟨d0, hd0, ?_⟩
            split <;> exact ⟨rfl, rfl⟩

theorem keywordsRoute_keeps_content (gen : Generative) (now userId id : Nat) (w : World α) :
    ∀ d ∈ (keywordsRoute gen now userId id w).2.documents,
      ∃ d0 ∈ w.documents, d.contentText = d0.contentText ∧ d.fileType = d0.fileType := by
  unfold keywordsRoute
  split
  · exact fun d hd => ⟨d, hd, rfl, rfl⟩
  · split
    · exact fun d hd => ⟨d, hd, rfl, rfl⟩
    · split
      · exact fun d hd => ⟨d, hd, rfl, rfl⟩
      · intro d hd
        obtain ⟨d0, hd0, rfl⟩ := List.mem_map.mp hd
        refine ⟨d0, hd0, ?_⟩
        split <;> exact ⟨rfl, rfl⟩

theorem deleteRoute_keeps_content (userId id : Nat) (w : World α) :
    ∀ d ∈ (deleteRoute userId id w).2.documents, d ∈ w.documents := by
  unfold deleteRoute
  split
  · exact fun d hd => hd
  · exact fun d hd => List.mem_of_mem_eraseP hd

end InvariantLemmas

section Invariant

variable {α : Type} [LinearOrderedField α]

theorem uploadRoute_documents (E : Externals) (gen : Generative) (random : α)
    (now userId : Nat) (file : Option UploadedFile) (w : World α) :
    ((uploadRoute E gen random now userId file w).2.documents = w.documents ∧
        ∃ status error message,
          (uploadRoute E gen random now userId file w).1 =
            UploadResponse.failure status error message) ∨
      ∃ document analysis,
        (uploadRoute E gen random now userId file w).1 =
            UploadResponse.created document analysis ∧
          validDocument document ∧
          (uploadRoute E gen random now userId file w).2.documents =
            w.documents ++ [document] := by
  have hfail : ∀ message : List Char, ∃ status error text,
      (uploadFailure message : UploadResponse α) = UploadResponse.failure status error text := by
    intro message
    unfold uploadFailure
    split
    · exact ⟨_, _, _, rfl⟩
    · split <;> exact ⟨_, _, _, rfl⟩
  unfold uploadRoute
  split
  · exact Or.inl ⟨rfl, _, _, _, rfl⟩
  · split
    · exact Or.inl ⟨rfl, hfail _⟩
    · split
      · exact Or.inl ⟨rfl, hfail _⟩
      · split
        · exact Or.inl ⟨rfl, hfail _⟩
        · dsimp only
          split
          · exact Or.inl ⟨rfl, hfail _⟩
          · rename_i document hcreate
            exact Or.inr ⟨document, _, rfl, createDocument_valid _ _ _ _ _ _ _ _ _ _ hcreate, rfl⟩

/-- C17: a document created by the upload flow has a non-empty content of at
most 1,000,000 characters and a file type among `pdf`, `docx`, `txt`, and it is
the only change the upload makes to the store; the summary, keywords and delete
handlers leave the content and the file type of every document of the store as
they were; hence all four handlers preserve the invariant of the store. -/
theorem store_invariant_preserved (E : Externals) (gen : Generative) (random : α)
    (now userId id : Nat) (file : Option UploadedFile) (w : World α) :
    (∀ document analysis,
        (uploadRoute E gen random now userId file w).1 =
          UploadResponse.created document analysis →
        validDocument document ∧
          (uploadRoute E gen random now userId file w).2.documents =
            w.documents ++ [document]) ∧
      (∀ d ∈ (summaryRoute gen now userId id w).2.documents,
        ∃ d0 ∈ w.documents, d.contentText = d0.contentText ∧ d.fileType = d0.fileType) ∧
      (∀ d ∈ (keywordsRoute gen now userId id w).2.documents,
        ∃ d0 ∈ w.documents, d.contentText = d0.contentText ∧ d.fileType = d0.fileType) ∧
      (∀ d ∈ (deleteRoute userId id w).2.documents, d ∈ w.documents) ∧
      ((∀ d ∈ w.documents, validDocument d) →
        (∀ d ∈ (uploadRoute E gen random now userId file w).2.documents, validDocument d) ∧
          (∀ d ∈ (summaryRoute gen now userId id w).2.documents, validDocument d) ∧
          (∀ d ∈ (keywordsRoute gen now userId id w).2.documents, validDocument d) ∧
          (∀ d ∈ (deleteRoute userId id w).2.documents, validDocument d)) := by
  have hkeep : ∀ docs : List (Document α),
      (∀ d ∈ docs, ∃ d0 ∈ w.documents,
        d.contentText = d0.contentText ∧ d.fileType = d0.fileType) →
      (∀ d ∈ w.documents, validDocument d) → ∀ d ∈ docs, validDocument d := by
    intro docs h hw d hd
    obtain ⟨d0, hd0, hc, ht⟩ := h d hd
    have hv := hw d0 hd0
    simp only [validDocument] at hv ⊢
    rw [hc, ht]
    exact hv
  refine ⟨?_, summaryRoute_keeps_content gen now userId id w,
    keywordsRoute_keeps_content gen now userId id w, deleteRoute_keeps_content userId id w, ?_⟩
  · intro document analysis hresp
    rcases uploadRoute_documents E gen random now userId file w with
      ⟨_, status, error, message, hf⟩ | ⟨d2, a2, h1, h2, h3⟩
    · rw [hf] at hresp
      exact absurd hresp (by simp)
    · rw [h1] at hresp
      simp only [UploadResponse.created.injEq] at hresp
      rw [← hresp.1]
      exact ⟨h2, h3⟩
  · intro hw
    refine ⟨?_, hkeep _ (summaryRoute_keeps_content gen now userId id w) hw,
      hkeep _ (keywordsRoute_keeps_content gen now userId id w) hw,
      fun d hd => hw d (deleteRoute_keeps_content userId id w d hd)⟩
    rcases uploadRoute_documents E gen random now userId file w with ⟨h, _⟩ | ⟨d2, a2, _, h2, h3⟩
    · rw [h]
      exact hw
    · rw [h3]
      intro d hd
      rcases List.mem_append.mp hd with h | h
      · exact hw d h
      · rw [List.mem_singleton.mp h]
        exact h2

end Invariant

/-! ## The embedding -/

section EmbeddingTheorems

variable {α : Type} [LinearOrderedField α]

/-- C18: for every text, every answer of the generative capability and every
random draw in `[0, 1)`, `generateEmbedding` returns a vector of length 4 whose
components all lie in `[0, 1]`. -/
theorem generateEmbedding_shape (E : Externals) (gen : Generative) (calls : Nat) (random : α)
    (text : List Char) (h0 : 0 ≤ random) (h1 : random < 1) :
    (generateEmbedding E gen calls random text).1.length = 4 ∧
      ∀ x ∈ (generateEmbedding E gen calls random text).1, 0 ≤ x ∧ x ≤ 1 := by
  have hmin : ∀ n : Nat, ∀ k : α, 0 < k → 0 ≤ min ((n : α) / k) 1 ∧ min ((n : α) / k) 1 ≤ 1 :=
    fun n k hk => ⟨le_min (div_nonneg (Nat.cast_nonneg n) hk.le) zero_le_one, min_le_right _ _⟩
  unfold generateEmbedding
  split
  · refine ⟨rfl, ?_⟩
    intro x hx
    simp only [List.mem_cons, List.mem_singleton, List.not_mem_nil, or_false] at hx
    rcases hx with rfl | rfl | rfl | rfl
    · exact hmin _ _ (by norm_num)
    · exact hmin _ _ (by norm_num)
    · exact hmin _ _ (by norm_num)
    · constructor <;> linarith
  · refine ⟨rfl, ?_⟩
    intro x hx
    simp only [List.mem_cons, List.mem_singleton, List.not_mem_nil, or_false] at hx
    have hx2 : x = 1 / 2 := by
      rcases hx with rfl | rfl | rfl | rfl <;> rfl
    rw [hx2]
    constructor <;> norm_num

/-- C19: for every text, when the call of the generative capability made by
`generateEmbedding` fails, `generateEmbedding` returns the neutral vector
`[0.5, 0.5, 0.5, 0.5]`. -/
theorem generateEmbedding_fallback (E : Externals) (gen : Generative) (calls : Nat)
    (random : α) (text message : List Char)
    (h : gen calls (embeddingPrompt text) = Except.error message) :
    (generateEmbedding E gen calls random text).1 = [1 / 2, 1 / 2, 1 / 2, 1 / 2] := by
  simp only [generateEmbedding, h]

end EmbeddingTheorems

/-! ## Failed computations are not cached -/

/-- C20: for a stored document whose summary (resp. keyword list) is not
present, when `summarizeText` (resp. `extractKeywords`) fails, the request is
answered with an error and the documents of the store are unchanged: no summary,
keyword or date is written. -/
theorem failed_compute_not_cached {α : Type} (gen : Generative) (now userId id : Nat)
    (w : World α) (document : Document α)
    (hfind : findOne w.documents id userId = some document) :
    (∀ (message : List Char) (calls : Nat), summaryPresent document = false →
      summarizeText gen w.generateCalls document.contentText 500 =
        (Except.error message, calls) →
      (∃ status error text,
          (summaryRoute gen now userId id w).1 = Response.failure status error text) ∧
        (summaryRoute gen now userId id w).2.documents = w.documents) ∧
    (∀ (message : List Char) (calls : Nat), document.keywords = [] →
      extractKeywords gen w.generateCalls document.contentText 10 =
        (Except.error message, calls) →
      (∃ status error text,
          (keywordsRoute gen now userId id w).1 = Response.failure status error text) ∧
        (keywordsRoute gen now userId id w).2.documents = w.documents) := by
  constructor
  · intro message calls hpresent hsum
    have hfail : ∃ status error text, summaryFailure message =
        Response.failure status error text := by
      unfold summaryFailure
      split
      · exact ⟨_, _, _, rfl⟩
      · split <;> exact ⟨_, _, _, rfl⟩
    simp only [summaryRoute, hfind, hpresent, hsum, Bool.false_eq_true, if_false, and_true]
    exact hfail
  · intro message calls hnone hkw
    have hlen0 : ¬ (document.keywords.length > 0) := by simp [hnone]
    simp only [keywordsRoute, hfind, hlen0, decide_False, Bool.false_eq_true, if_false, hkw,
      and_true]
    exact ⟨_, _, _, rfl⟩

/-! ## Instances on sample data -/

/-- C14 on a store with documents of the owners `7` and `8`, both matching the
query `abc`, for the requesting owner `7`. -/
theorem searchRoute_owner_scoped_witness :
    (searchRoute sampleExternals failingGenerative (fun q c => jsIncludes q c) (fun x : ℚ => x) (0 : ℚ) 7
        (some "abc".toList) 10 twoOwnerWorld).1 =
      SearchResponse.ok [SearchRecord.lexical sampleProjection]
        "abc".toList 1 ∧
      ∀ r ∈ [SearchRecord.lexical sampleProjection],
        r.ownerId = 7 := by
  have h : (searchRoute sampleExternals failingGenerative (fun q c => jsIncludes q c)
      (fun x : ℚ => x) (0 : ℚ) 7 (some "abc".toList) 10 twoOwnerWorld).1 =
      SearchResponse.ok [SearchRecord.lexical sampleProjection] "abc".toList 1 := by
    simp only [searchRoute, semanticResults_eq_nil, combineResults, List.map_nil,
      List.append_nil]
    rfl
  exact ⟨h,
    (searchRoute_owner_scoped sampleExternals failingGenerative (fun q c => jsIncludes q c)
      (fun x : ℚ => x) (0 : ℚ) 7 (some "abc".toList) 10 twoOwnerWorld).1 _ _ _ h⟩

/-- C16 on a text file holding three spaces. -/
theorem uploadRoute_rejects_bad_content_witness :
    getFileTypeFromName sampleExternals blankTextFile.originalname = Except.ok "txt".toList ∧
      extractTextFromFile sampleExternals blankTextFile.buffer "txt".toList =
        Except.ok "   ".toList ∧
      uploadRoute sampleExternals failingGenerative (0 : ℚ) 5 7 (some blankTextFile)
          (singleDocumentWorld (sampleDocument ℚ)) =
        (UploadResponse.failure 400 "İçerik hatası".toList
          (if cleanText "   ".toList = [] then emptyContentMessage
            else contentTooLargeMessage defaultMaxLength),
          singleDocumentWorld (sampleDocument ℚ)) :=
  ⟨rfl, rfl,
    uploadRoute_rejects_bad_content sampleExternals failingGenerative (0 : ℚ) 5 7 blankTextFile
      (singleDocumentWorld (sampleDocument ℚ)) "txt".toList "   ".toList rfl rfl
      (Or.inl (by decide))⟩

/-- C17 on the upload of a text file holding `Hello world` to a store with one
valid document. -/
theorem store_invariant_preserved_witness :
    (∀ d ∈ (singleDocumentWorld (sampleDocument ℚ)).documents, validDocument d) ∧
      (∃ document analysis,
        (uploadRoute sampleExternals failingGenerative (0 : ℚ) 5 7 (some helloTextFile)
            (singleDocumentWorld (sampleDocument ℚ))).1 =
          UploadResponse.created document analysis ∧
        document.contentText = "Hello world".toList ∧ document.fileType = "txt".toList ∧
        validDocument document) ∧
      (∀ d ∈ (uploadRoute sampleExternals failingGenerative (0 : ℚ) 5 7 (some helloTextFile)
          (singleDocumentWorld (sampleDocument ℚ))).2.documents, validDocument d) :=
  have hvalid : ∀ d ∈ (singleDocumentWorld (sampleDocument ℚ)).documents, validDocument d := by
    intro d hd
    rw [List.mem_singleton.mp hd]
    exact ⟨by decide, by decide, by decide⟩
  ⟨hvalid,
    ⟨_, _, rfl, rfl, rfl,
      ((store_invariant_preserved sampleExternals failingGenerative (0 : ℚ) 5 7 1
        (some helloTextFile) (singleDocumentWorld (sampleDocument ℚ))).1 _ _ rfl).1⟩,
    ((store_invariant_preserved sampleExternals failingGenerative (0 : ℚ) 5 7 1
      (some helloTextFile) (singleDocumentWorld (sampleDocument ℚ))).2.2.2.2 hvalid).1⟩

/-- C18 on the text `abc` with the random draw `1/2`. -/
theorem generateEmbedding_shape_witness :
    (0 : ℚ) ≤ 1 / 2 ∧ (1 / 2 : ℚ) < 1 ∧
      (generateEmbedding sampleExternals blankThenText 0 (1 / 2 : ℚ) "abc".toList).1.length = 4 ∧
      ∀ x ∈ (generateEmbedding sampleExternals blankThenText 0 (1 / 2 : ℚ) "abc".toList).1,
        0 ≤ x ∧ x ≤ 1 :=
  ⟨by norm_num, by norm_num,
    generateEmbedding_shape sampleExternals blankThenText 0 (1 / 2 : ℚ) "abc".toList
      (by norm_num) (by norm_num)⟩

/-- C19 on the text `abc` with a generative capability that fails. -/
theorem generateEmbedding_fallback_witness :
    failingGenerative 0 (embeddingPrompt "abc".toList) = Except.error "quota exceeded".toList ∧
      (generateEmbedding sampleExternals failingGenerative 0 (1 / 2 : ℚ) "abc".toList).1 =
        [1 / 2, 1 / 2, 1 / 2, 1 / 2] :=
  ⟨rfl,
    generateEmbedding_fallback sampleExternals failingGenerative 0 (1 / 2 : ℚ) "abc".toList
      "quota exceeded".toList rfl⟩

/-- C20 on a store with one unprocessed document and a generative capability
that fails. -/
theorem failed_compute_not_cached_witness :
    findOne (singleDocumentWorld (sampleDocument ℚ)).documents 1 7 = some (sampleDocument ℚ) ∧
      ((∃ status error text,
          (summaryRoute failingGenerative 5 7 1 (singleDocumentWorld (sampleDocument ℚ))).1 =
            Response.failure status error text) ∧
        (summaryRoute failingGenerative 5 7 1
            (singleDocumentWorld (sampleDocument ℚ))).2.documents =
          (singleDocumentWorld (sampleDocument ℚ)).documents) ∧
      ((∃ status error text,
          (keywordsRoute failingGenerative 5 7 1 (singleDocumentWorld (sampleDocument ℚ))).1 =
            Response.failure status error text) ∧
        (keywordsRoute failingGenerative 5 7 1
            (singleDocumentWorld (sampleDocument ℚ))).2.documents =
          (singleDocumentWorld (sampleDocument ℚ)).documents) :=
  ⟨rfl,
    (failed_compute_not_cached failingGenerative 5 7 1 (singleDocumentWorld (sampleDocument ℚ))
      (sampleDocument ℚ) rfl).1
      ("Metin özetlenirken bir hata oluştu: ".toList ++ "quota exceeded".toList) 1 rfl rfl,
    (failed_compute_not_cached failingGenerative 5 7 1 (singleDocumentWorld (sampleDocument ℚ))
      (sampleDocument ℚ) rfl).2
      "Anahtar kelimeler çıkarılırken bir hata oluştu".toList 1 rfl rfl⟩

/-! ## Word count and reading time -/

theorem splitWhitespace_count (inRun : Bool) (acc l : List Char)
    (h : inRun = true → acc = []) :
    ((splitWhitespace inRun acc l).filter (fun word => decide (word.length > 0))).length =
      (if acc = [] then 0 else 1) + nonWhitespaceRuns (!acc.isEmpty) l := by
  induction l generalizing inRun acc with
  | nil =>
    cases acc with
    | nil => simp [splitWhitespace, nonWhitespaceRuns]
    | cons a as => simp [splitWhitespace, nonWhitespaceRuns]
  | cons c cs ih =>
    by_cases hc : isJsWhitespace c = true
    · cases inRun with
      | true =>
        have hacc : acc = [] := h rfl
        subst hacc
        have := ih true [] (fun _ => rfl)
        simpa [splitWhitespace, nonWhitespaceRuns, hc] using this
      | false =>
        have := ih true [] (fun _ => rfl)
        simp only [List.isEmpty_nil, Bool.not_true, if_true, Nat.zero_add] at this
        cases acc with
        | nil => simp [splitWhitespace, nonWhitespaceRuns, hc, this]
        | cons a as =>
          simp [splitWhitespace, nonWhitespaceRuns, hc, this]
          omega
    · have := ih false (c :: acc) (fun hf => by simp at hf)
      simp only [List.isEmpty_cons, Bool.not_false, if_false, reduceCtorEq] at this
      cases acc with
      | nil => simp [splitWhitespace, nonWhitespaceRuns, hc, this]
      | cons a as => simp [splitWhitespace, nonWhitespaceRuns, hc, this]

/-- C24: for every text, `wordCount` is the number of maximal runs of
non-whitespace characters of the text, and `readingTime` is the least natural
number `r` with `200 * r ≥ wordCount`. -/
theorem analyzeFileContent_wordCount_readingTime (text : List Char) :
    (analyzeFileContent text).wordCount = nonWhitespaceRuns false text ∧
      200 * (analyzeFileContent text).readingTime ≥ (analyzeFileContent text).wordCount ∧
      ∀ r : Nat, 200 * r ≥ (analyzeFileContent text).wordCount →
        (analyzeFileContent text).readingTime ≤ r := by
  have hcount : (wordsOf text).length = nonWhitespaceRuns false text := by
    have := splitWhitespace_count false [] text (fun h => by simp at h)
    simpa [wordsOf] using this
  refine ⟨hcount, ?_, ?_⟩
  · show 200 * (((wordsOf text).length + 199) / 200) ≥ (wordsOf text).length
    omega
  · intro r hr
    have hr2 : 200 * r ≥ (wordsOf text).length := hr
    show ((wordsOf text).length + 199) / 200 ≤ r
    omega

/-! ## The cleaned text has a single line -/

theorem replaceRuns_whitespace_no_newline (inRun : Bool) (l : List Char) :
    '\n' ∉ replaceRuns isJsWhitespace ' ' inRun l := by
  induction l generalizing inRun with
  | nil => simp [replaceRuns]
  | cons c cs ih =>
    by_cases hc : isJsWhitespace c = true
    · cases inRun with
      | true => simpa [replaceRuns, hc] using ih true
      | false =>
        simp only [replaceRuns, hc, if_true, Bool.false_eq_true, if_false, List.mem_cons, not_or]
        exact ⟨by decide, ih true⟩
    · have hne : '\n' ≠ c := by
        intro e
        rw [← e] at hc
        exact hc (by decide)
      simp only [replaceRuns, hc, Bool.false_eq_true, if_false, List.mem_cons, not_or]
      exact ⟨hne, ih false⟩

theorem replaceRuns_of_none (p : Char → Bool) (r : Char) (inRun : Bool) (l : List Char)
    (h : ∀ c ∈ l, p c = false) : replaceRuns p r inRun l = l := by
  induction l generalizing inRun with
  | nil => rfl
  | cons c cs ih =>
    simp only [replaceRuns, h c (List.mem_cons_self _ _), Bool.false_eq_true, if_false]
    rw [ih false (fun x hx => h x (List.mem_cons_of_mem _ hx))]

theorem mem_of_mem_jsTrim (l : List Char) (c : Char) (h : c ∈ jsTrim l) : c ∈ l := by
  unfold jsTrim at h
  have h1 := List.mem_reverse.mp h
  have h2 := (List.dropWhile_sublist _).subset h1
  have h3 := List.mem_reverse.mp h2
  exact (List.dropWhile_sublist _).subset h3

theorem cleanText_no_newline (text : List Char) : '\n' ∉ cleanText text := by
  unfold cleanText
  split
  · simp
  · intro h
    have h1 := mem_of_mem_jsTrim _ _ h
    rw [replaceRuns_of_none] at h1
    · exact replaceRuns_whitespace_no_newline false text h1
    · intro c hc
      have hne : c ≠ '\n' := fun e =>
        replaceRuns_whitespace_no_newline false text (e ▸ hc)
      simpa using hne

theorem jsTrim_cleanText (text : List Char) : jsTrim (cleanText text) = cleanText text := by
  unfold cleanText
  split
  · rfl
  · exact jsTrim_idempotent _

theorem splitBlankLines_no_newline (acc l : List Char) (h : '\n' ∉ l) :
    splitBlankLines 0 acc l = [acc.reverse ++ l] := by
  induction l generalizing acc with
  | nil => simp [splitBlankLines]
  | cons c cs ih =>
    have hc : c ≠ '\n' := fun e => h (e ▸ List.mem_cons_self _ _)
    have hcs : '\n' ∉ cs := fun m => h (List.mem_cons_of_mem _ m)
    simp [splitBlankLines, hc, ih (c :: acc) hcs]

/-- C27: for every raw text, the cleaned text holds no line feed, so its analysis
has `lineCount = 1` and `paragraphCount ≤ 1`, with `paragraphCount = 1` exactly
when the cleaned text is not empty. -/
theorem analysis_of_cleanText_single_line (t : List Char) :
    '\n' ∉ cleanText t ∧
      (analyzeFileContent (cleanText t)).lineCount = 1 ∧
      (analyzeFileContent (cleanText t)).paragraphCount ≤ 1 ∧
      ((analyzeFileContent (cleanText t)).paragraphCount = 1 ↔ cleanText t ≠ []) := by
  have hnl := cleanText_no_newline t
  have hline : (analyzeFileContent (cleanText t)).lineCount = 1 := by
    show (splitChar '\n' [] (cleanText t)).length = 1
    rw [splitChar_not_mem '\n' _ [] hnl]
    rfl
  have hpara : (analyzeFileContent (cleanText t)).paragraphCount =
      if cleanText t = [] then 0 else 1 := by
    show ((splitBlankLines 0 [] (cleanText t)).filter
      (fun para => decide ((jsTrim para).length > 0))).length = _
    rw [splitBlankLines_no_newline [] _ hnl]
    simp only [List.reverse_nil, List.nil_append, List.filter_cons, List.filter_nil,
      jsTrim_cleanText]
    by_cases he : cleanText t = []
    · simp [he]
    · have : (cleanText t).length > 0 := List.length_pos.mpr he
      simp [he, this]
  refine ⟨hnl, hline, ?_, ?_⟩
  · rw [hpara]
    split <;> omega
  · rw [hpara]
    by_cases he : cleanText t = [] <;> simp [he]

/-! ## File names -/

theorem replaceRuns_underscore_chain (inRun : Bool) (l : List Char) :
    List.Chain' (fun a b => ¬ (a = '_' ∧ b = '_'))
        (replaceRuns (fun c => c == '_') '_' inRun l) ∧
      (inRun = true → (replaceRuns (fun c => c == '_') '_' inRun l).head? ≠ some '_') := by
  induction l generalizing inRun with
  | nil => simp [replaceRuns]
  | cons c cs ih =>
    by_cases hc : c = '_'
    · subst hc
      obtain ⟨hchain, hhead⟩ := ih true
      cases inRun with
      | true =>
        simp only [replaceRuns, beq_self_eq_true, if_true]
        exact ⟨hchain, fun _ => hhead rfl⟩
      | false =>
        simp only [replaceRuns, beq_self_eq_true, if_true, Bool.false_eq_true, if_false,
          false_implies, and_true]
        rw [List.chain'_cons']
        refine ⟨?_, hchain⟩
        intro y hy
        have := hhead rfl
        intro hcontra
        exact this (hcontra.2 ▸ hy)
    · obtain ⟨hchain, _⟩ := ih false
      have hb : (c == '_') = false := by simpa using hc
      simp only [replaceRuns, hb, Bool.false_eq_true, if_false, List.head?_cons, ne_eq,
        Option.some.injEq, hc, not_false_eq_true, implies_true, and_true]
      rw [List.chain'_cons']
      exact ⟨fun y _ hcontra => hc hcontra.1, hchain⟩

theorem replaceRuns_underscore_fixed (inRun : Bool) (l : List Char)
    (hchain : List.Chain' (fun a b => ¬ (a = '_' ∧ b = '_')) l)
    (hhead : inRun = true → l.head? ≠ some '_') :
    replaceRuns (fun c => c == '_') '_' inRun l = l := by
  induction l generalizing inRun with
  | nil => rfl
  | cons c cs ih =>
    rw [List.chain'_cons'] at hchain
    by_cases hc : c = '_'
    · subst hc
      have hin : inRun = false := by
        cases inRun with
        | true => exact absurd rfl (hhead rfl)
        | false => rfl
      subst hin
      simp only [replaceRuns, beq_self_eq_true, if_true, Bool.false_eq_true, if_false]
      rw [ih true hchain.2 (fun _ hy => hchain.1 _ hy ⟨rfl, rfl⟩)]
    · have hb : (c == '_') = false := by simpa using hc
      simp only [replaceRuns, hb, Bool.false_eq_true, if_false]
      rw [ih false hchain.2 (fun h => by simp at h)]

theorem mem_replaceRuns (p : Char → Bool) (r : Char) (inRun : Bool) (l : List Char) (c : Char)
    (h : c ∈ replaceRuns p r inRun l) : c = r ∨ c ∈ l := by
  induction l generalizing inRun with
  | nil => simp [replaceRuns] at h
  | cons x xs ih =>
    simp only [replaceRuns] at h
    split at h
    · split at h
      · rcases ih _ h with h1 | h1
        · exact Or.inl h1
        · exact Or.inr (List.mem_cons_of_mem _ h1)
      · rcases List.mem_cons.mp h with h1 | h1
        · exact Or.inl h1
        · rcases ih _ h1 with h2 | h2
          · exact Or.inl h2
          · exact Or.inr (List.mem_cons_of_mem _ h2)
    · rcases List.mem_cons.mp h with h1 | h1
      · exact Or.inr (h1 ▸ List.mem_cons_self _ _)
      · rcases ih _ h1 with h2 | h2
        · exact Or.inl h2
        · exact Or.inr (List.mem_cons_of_mem _ h2)

theorem jsSubstring_zero (s : List Char) (n : Nat) : jsSubstring s 0 n = s.take n := by
  simp [jsSubstring, List.take_take]

/-- C30: for every file name, `sanitizeFileName` returns at most 255 characters,
each an ASCII letter, a digit, `.`, `_` or `-`, with no two consecutive
underscores; and applying `sanitizeFileName` to its result changes nothing. -/
theorem sanitizeFileName_safe_idempotent (fileName : List Char) :
    (sanitizeFileName fileName).length ≤ 255 ∧
      (∀ c ∈ sanitizeFileName fileName, isFileNameChar c = true) ∧
      List.Chain' (fun a b => ¬ (a = '_' ∧ b = '_')) (sanitizeFileName fileName) ∧
      sanitizeFileName (sanitizeFileName fileName) = sanitizeFileName fileName := by
  have hlen : (sanitizeFileName fileName).length ≤ 255 := by
    simp [sanitizeFileName, jsSubstring_zero, List.length_take]
  have hchars : ∀ c ∈ sanitizeFileName fileName, isFileNameChar c = true := by
    intro c hc
    simp only [sanitizeFileName, jsSubstring_zero] at hc
    rcases mem_replaceRuns _ _ _ _ _ (List.mem_of_mem_take hc) with h | h
    · rw [h]
      decide
    · obtain ⟨x, _, hx⟩ := List.mem_map.mp h
      by_cases hs : isFileNameChar x = true
      · rw [if_pos hs] at hx
        rw [← hx]
        exact hs
      · rw [if_neg hs] at hx
        rw [← hx]
        decide
  have hchain : List.Chain' (fun a b => ¬ (a = '_' ∧ b = '_')) (sanitizeFileName fileName) := by
    simp only [sanitizeFileName, jsSubstring_zero]
    exact (replaceRuns_underscore_chain false _).1.take 255
  refine ⟨hlen, hchars, hchain, ?_⟩
  have hmap : (sanitizeFileName fileName).map (fun c => if isFileNameChar c then c else '_') =
      sanitizeFileName fileName := by
    conv_rhs => rw [← List.map_id (sanitizeFileName fileName)]
    apply List.map_congr_left
    intro c hc
    simp [hchars c hc]
  conv_lhs => rw [sanitizeFileName, hmap, replaceRuns_underscore_fixed false _ hchain
    (fun h => by simp at h), jsSubstring_zero]
  exact List.take_of_length_le hlen

/-! ## The importance of a record -/

theorem head_dropWhile_false (p : Char → Bool) (l : List Char) (c : Char)
    (h : (l.dropWhile p).head? = some c) : p c = false := by
  induction l with
  | nil => simp at h
  | cons x xs ih =>
    by_cases hx : p x = true
    · rw [List.dropWhile_cons_of_pos hx] at h
      exact ih h
    · rw [List.dropWhile_cons_of_neg hx] at h
      simp only [List.head?_cons, Option.some.injEq] at h
      rw [← h]
      simpa using hx

theorem isJsWhitespace_of_digit (c : Char) (h : isJsDigit c = true) :
    isJsWhitespace c = false := by
  simp only [isJsDigit, Bool.and_eq_true, decide_eq_true_eq] at h
  simp only [isJsWhitespace, Bool.or_eq_false_iff, beq_eq_false_iff_ne, ne_eq,
    Bool.and_eq_false_imp, decide_eq_true_eq, decide_eq_false_iff_not, not_le]
  omega

theorem roundToEven_zero (n : Nat) : roundToEven n 0 = n := by
  simp [roundToEven, Nat.mod_one]

/-- Below `2^53` the function `parseInt` returns the integer written. -/
theorem parseDigits_of_lt (digits : List Char) (h : digitsValue digits < 2 ^ 53) :
    parseDigits digits = digitsValue digits := by
  have hshift : significandShift (4 * digits.length) (digitsValue digits) = 0 := by
    cases 4 * digits.length with
    | zero => rfl
    | succ fuel => simp only [significandShift, h, if_true]
  rw [parseDigits, hshift, roundToEven_zero]

theorem matchImportance_sound (field : List Char) (n : Nat)
    (h : matchImportance field = some n) :
    ∃ ds, followsLabelDigits field ds ∧ n = parseDigits ds := by
  induction field with
  | nil => simp [matchImportance] at h
  | cons c cs ih =>
    have hrec : matchImportance cs = some n →
        ∃ ds, followsLabelDigits (c :: cs) ds ∧ n = parseDigits ds := by
      intro h2
      obtain ⟨ds, ⟨pre, ws, rest, h1, hws, hne, hds, hrest⟩, hn⟩ := ih h2
      exact ⟨ds, ⟨c :: pre, ws, rest, by simp [h1], hws, hne, hds, hrest⟩, hn⟩
    unfold matchImportance at h
    split at h
    · rename_i hpre
      split at h
      · exact hrec h
      · rename_i d ds hdigits
        simp only [Option.some.injEq] at h
        obtain ⟨t, ht⟩ := List.isPrefixOf_iff_prefix.mp hpre
        have hdrop : (c :: cs).drop importanceLabel.length = t := by
          rw [← ht, List.drop_left]
        rw [hdrop] at hdigits
        refine ⟨d :: ds, ⟨[], t.takeWhile isJsWhitespace,
          (t.dropWhile isJsWhitespace).dropWhile isJsDigit, ?_, ?_, by simp, ?_, ?_⟩, h.symm⟩
        · rw [← hdigits, List.nil_append, List.append_assoc, List.append_assoc,
            List.takeWhile_append_dropWhile, List.takeWhile_append_dropWhile, ht]
        · intro x hx
          exact (List.mem_takeWhile_imp hx)
        · intro x hx
          rw [← hdigits] at hx
          exact (List.mem_takeWhile_imp hx)
        · intro x hx
          exact head_dropWhile_false _ _ _ hx
    · exact hrec h

theorem matchImportance_complete (field ds : List Char)
    (h : followsLabelDigits field ds) : ∃ m, matchImportance field = some m := by
  obtain ⟨pre, ws, rest, h1, hws, hne, hds, _⟩ := h
  subst h1
  induction pre with
  | nil =>
    obtain ⟨d, ds', rfl⟩ := List.exists_cons_of_ne_nil hne
    have hd : isJsDigit d = true := hds d (List.mem_cons_self _ _)
    have hlabel : importanceLabel ++ ws ++ (d :: ds') ++ rest =
        'Ö' :: ("nem:".toList ++ ws ++ (d :: ds') ++ rest) := rfl
    have hprefix : importanceLabel.isPrefixOf
        ('Ö' :: ("nem:".toList ++ ws ++ (d :: ds') ++ rest)) = true := by
      rw [← hlabel, List.isPrefixOf_iff_prefix]
      exact ⟨ws ++ (d :: ds') ++ rest, by simp [List.append_assoc]⟩
    have hdrop : ('Ö' :: ("nem:".toList ++ ws ++ (d :: ds') ++ rest)).drop
        importanceLabel.length = ws ++ ((d :: ds') ++ rest) := by
      rw [← hlabel, List.append_assoc, List.append_assoc, List.drop_left]
    have hskip : (ws ++ ((d :: ds') ++ rest)).dropWhile isJsWhitespace = (d :: ds') ++ rest := by
      rw [List.dropWhile_append_of_pos (fun x hx => hws x hx)]
      simp [List.dropWhile_cons, isJsWhitespace_of_digit d hd]
    rw [List.nil_append, hlabel]
    unfold matchImportance
    rw [if_pos hprefix, hdrop, hskip]
    simp only [List.cons_append, List.takeWhile_cons, hd, if_true]
    exact ⟨_, rfl⟩
  | cons p ps ih =>
    obtain ⟨m, hm⟩ := ih
    simp only [List.cons_append]
    unfold matchImportance
    split
    · split
      · exact ⟨m, by simpa [List.append_assoc] using hm⟩
      · exact ⟨_, rfl⟩
    · exact ⟨m, by simpa [List.append_assoc] using hm⟩

/-- The only run of digits that follows the label in the field `Önem: <digits>`
is the run written there. -/
theorem followsLabelDigits_rendered (dk ds : List Char) (hdk : ∀ x ∈ dk, isJsDigit x = true)
    (h : followsLabelDigits (importanceLabel ++ ' ' :: dk) ds) : ds = dk := by
  obtain ⟨pre, ws, rest, heq, hws, hne, hds, hrest⟩ := h
  have hlabel : importanceLabel = 'Ö' :: "nem:".toList := rfl
  cases pre with
  | cons c pre' =>
    exfalso
    rw [hlabel] at heq
    simp only [List.cons_append, List.append_assoc, List.cons.injEq] at heq
    have hmem : 'Ö' ∈ "nem:".toList ++ ' ' :: dk := by
      rw [heq.2]
      simp
    rcases List.mem_append.mp hmem with h1 | h1
    · revert h1
      decide
    · rcases List.mem_cons.mp h1 with h1 | h1
      · revert h1
        decide
      · have := hdk _ h1
        revert this
        decide
  | nil =>
    simp only [List.nil_append, List.append_assoc] at heq
    have heq2 := List.append_cancel_left heq
    cases ws with
    | nil =>
      exfalso
      obtain ⟨d, ds', rfl⟩ := List.exists_cons_of_ne_nil hne
      simp only [List.nil_append, List.cons_append, List.cons.injEq] at heq2
      have := hds d (List.mem_cons_self _ _)
      rw [← heq2.1] at this
      revert this
      decide
    | cons w ws' =>
      simp only [List.cons_append, List.cons.injEq] at heq2
      cases ws' with
      | cons w2 ws2 =>
        exfalso
        have h1 : w2 ∈ dk := by
          rw [heq2.2]
          simp
        have h2 := isJsWhitespace_of_digit w2 (hdk w2 h1)
        rw [hws w2 (by simp)] at h2
        exact Bool.noConfusion h2
      | nil =>
        cases rest with
        | nil => simpa using heq2.2.symm
        | cons x xs =>
          exfalso
          have h1 : x ∈ dk := by
            rw [heq2.2]
            simp
          have h2 := hrest x rfl
          rw [hdk x h1] at h2
          exact Bool.noConfusion h2

/-- C25, refuted as stated: on the line
`BÖLÜM 1: 0-3 - x - Önem: 9007199254740993` a record is emitted, the integer
following the importance label in the third field is `9007199254740993`, and
the importance of the record is `9007199254740992`, which is not an integer
following the label. -/
theorem parseLine_importance_rounded :
    ∃ r, parseLine "abc".toList largeImportanceLine = some r ∧
      r.importance = 9007199254740992 ∧
      (splitString " - ".toList 0 [] largeImportanceLine).getD 2 [] =
        "Önem: 9007199254740993".toList ∧
      followsImportanceLabel ((splitString " - ".toList 0 [] largeImportanceLine).getD 2 [])
        9007199254740993 ∧
      ¬ followsImportanceLabel ((splitString " - ".toList 0 [] largeImportanceLine).getD 2 [])
        r.importance := by
  have hfield : (splitString " - ".toList 0 [] largeImportanceLine).getD 2 [] =
      importanceLabel ++ ' ' :: "9007199254740993".toList := by decide
  have hdigits : ∀ x ∈ "9007199254740993".toList, isJsDigit x = true := by decide
  refine ⟨{ start := 0, end_ := 3, text := "abc".toList, description := "x".toList,
            importance := 9007199254740992 }, by decide, rfl, by decide, ?_, ?_⟩
  · rw [hfield]
    exact ⟨"9007199254740993".toList, ⟨[], [' '], [], rfl, by decide, by decide, hdigits,
      by simp⟩, by decide⟩
  · rw [hfield]
    rintro ⟨ds, hds, hn⟩
    rw [followsLabelDigits_rendered _ ds hdigits hds] at hn
    revert hn
    decide

/-- C25: for every candidate line whose position field parses, a record is
emitted; when the third ` - `-separated field of the line holds the importance
label followed by an integer, the importance of the record is read from such a
run of digits (the first one found): it is the integer written when that
integer is below `2^53`, and for a run of at most 308 digits it is the value
`parseInt` gives to the run; otherwise the importance is `5`. -/
theorem parseLine_importance_parsed (documentText line : List Char) (start end_ : Nat)
    (hmarker : jsIncludes segmentMarker line = true)
    (hhyphen : jsIncludes ['-'] line = true)
    (hparts : 3 ≤ (splitString " - ".toList 0 [] line).length)
    (hpos : matchPosition (positionField line) = some (start, end_)) :
    ∃ r, parseLine documentText line = some r ∧
      ((∃ n, followsImportanceLabel ((splitString " - ".toList 0 [] line).getD 2 []) n) →
        ∃ ds, followsLabelDigits ((splitString " - ".toList 0 [] line).getD 2 []) ds ∧
          (digitsValue ds < 2 ^ 53 →
            r.importance = digitsValue ds ∧
              followsImportanceLabel ((splitString " - ".toList 0 [] line).getD 2 [])
                r.importance) ∧
          (ds.length ≤ 308 → r.importance = parseDigits ds)) ∧
      ((¬ ∃ n, followsImportanceLabel ((splitString " - ".toList 0 [] line).getD 2 []) n) →
        r.importance = 5) := by
  have hpos2 : matchPosition
      (jsTrim (removeFirst segmentMarker ((splitString " - ".toList 0 [] line).getD 0 []))) =
      some (start, end_) := hpos
  refine ⟨{ start := start
            end_ := end_
            text := jsSubstring documentText start end_
            description := (splitString " - ".toList 0 [] line).getD 1 []
            importance :=
              match matchImportance ((splitString " - ".toList 0 [] line).getD 2 []) with
              | some n => n
              | none => 5 }, ?_, ?_, ?_⟩
  · simp only [parseLine, hmarker, hhyphen, Bool.and_self, if_true, hparts, ge_iff_le, hpos2]
  · intro hex
    obtain ⟨n, ds0, hds0, _⟩ := hex
    obtain ⟨m, hm⟩ := matchImportance_complete _ ds0 hds0
    obtain ⟨ds, hds, hmds⟩ := matchImportance_sound _ m hm
    refine ⟨ds, hds, ?_, ?_⟩
    · intro hlt
      have hval : m = digitsValue ds := by rw [hmds, parseDigits_of_lt ds hlt]
      simp only [hm]
      exact ⟨hval, ds, hds, hval⟩
    · intro _
      simp only [hm]
      exact hmds
  · intro hnone
    cases hm : matchImportance ((splitString " - ".toList 0 [] line).getD 2 []) with
    | none => rfl
    | some m =>
      obtain ⟨ds, hds, _⟩ := matchImportance_sound _ m hm
      exact absurd ⟨digitsValue ds, ds, hds, rfl⟩ hnone

/-- C25 on a line whose third field holds `Önem: 7` and on a line whose third
field holds no importance. -/
theorem parseLine_importance_parsed_witness :
    (∃ r, parseLine "The quick brown fox".toList "BÖLÜM 1: 4-9 - fox jump - Önem: 7".toList =
        some r ∧ r.importance = 7) ∧
      (∃ r, parseLine "The quick brown fox".toList "BÖLÜM 2: 90-3 - a - b".toList = some r ∧
        r.importance = 5) := by
  obtain ⟨r, h1, h2, _⟩ := parseLine_importance_parsed "The quick brown fox".toList
    "BÖLÜM 1: 4-9 - fox jump - Önem: 7".toList 4 9 (by decide) (by decide) (by decide)
    (by decide)
  obtain ⟨r', h1', _, _⟩ := parseLine_importance_parsed "The quick brown fox".toList
    "BÖLÜM 2: 90-3 - a - b".toList 90 3 (by decide) (by decide) (by decide) (by decide)
  have hfield : (splitString " - ".toList 0 [] "BÖLÜM 1: 4-9 - fox jump - Önem: 7".toList).getD
      2 [] = importanceLabel ++ ' ' :: "7".toList := by decide
  have hdigits : ∀ x ∈ "7".toList, isJsDigit x = true := by decide
  rw [hfield] at h2
  obtain ⟨ds, hds, h3, _⟩ := h2 ⟨7, "7".toList,
    ⟨[], [' '], [], rfl, by decide, by decide, hdigits, by simp⟩, by decide⟩
  have hds2 := followsLabelDigits_rendered _ ds hdigits hds
  subst hds2
  refine ⟨⟨r, h1, (h3 (by decide)).1.trans (by decide)⟩, ⟨r', h1', ?_⟩⟩
  have hdec : (parseLine "The quick brown fox".toList "BÖLÜM 2: 90-3 - a - b".toList).map
      (fun x => x.importance) = some 5 := by decide
  rw [h1'] at hdec
  simpa using hdec
/-! ## Blank queries -/

theorem jsTrim_eq_nil_of_whitespace (q : List Char) (h : ∀ c ∈ q, isJsWhitespace c = true) :
    jsTrim q = [] := by
  have h1 : q.dropWhile isJsWhitespace = [] := List.dropWhile_eq_nil_iff.mpr h
  simp [jsTrim, h1]

section BlankQuery

variable {α : Type} [LinearOrderedField α]

/-- C21: for a query that is absent, empty or made of whitespace only, the
cross-document search handler and the in-document search handler both answer
with the client error and return the world as it was, whatever the store,
without a call of the generative capability; for every other query both
handlers behave as for the trimmed query, which is the query they report. -/
theorem blank_query_rejected (E : Externals) (gen : Generative)
    (textMatch : List Char → List Char → Bool) (sqrt : α → α) (random : α) (userId id : Nat)
    (limit : Int) (w : World α) :
    (∀ query : Option (List Char),
      (query = none ∨ ∃ q, query = some q ∧ ∀ c ∈ q, isJsWhitespace c = true) →
      searchRoute E gen textMatch sqrt random userId query limit w =
          (SearchResponse.badRequest "Arama hatası".toList "Arama sorgusu gereklidir.".toList,
            w) ∧
        inDocumentSearchRoute gen userId id query w =
          (InDocumentResponse.badRequest "Arama sorgusu gerekli".toList
            "Lütfen bir arama sorgusu girin.".toList, w)) ∧
    (∀ q : List Char, (∃ c ∈ q, isJsWhitespace c = false) →
      searchRoute E gen textMatch sqrt random userId (some q) limit w =
          searchRoute E gen textMatch sqrt random userId (some (jsTrim q)) limit w ∧
        (∃ results total,
          (searchRoute E gen textMatch sqrt random userId (some q) limit w).1 =
            SearchResponse.ok results (jsTrim q) total) ∧
        inDocumentSearchRoute gen userId id (some q) w =
          inDocumentSearchRoute gen userId id (some (jsTrim q)) w ∧
        (∀ results reported total,
          (inDocumentSearchRoute gen userId id (some q) w).1 =
            InDocumentResponse.ok results reported total → reported = jsTrim q)) := by
  constructor
  · intro query hq
    rcases hq with rfl | ⟨q, rfl, hws⟩
    · exact ⟨rfl, rfl⟩
    · have ht := jsTrim_eq_nil_of_whitespace q hws
      simp [searchRoute, inDocumentSearchRoute, ht]
  · intro q ⟨c, hc, hcw⟩
    have ht : jsTrim q ≠ [] := jsTrim_ne_nil_of_mem q c hc hcw
    have hq : q ≠ [] := fun e => by simp [e] at hc
    have hcond : (q.isEmpty || (jsTrim q).length == 0) = false := by
      simp [List.isEmpty_iff, hq, ht]
    have hcond2 : ((jsTrim q).isEmpty || (jsTrim q).length == 0) = false := by
      simp [List.isEmpty_iff, ht]
    refine ⟨?_, ?_, ?_, ?_⟩
    · simp only [searchRoute, hcond, hcond2, Bool.false_eq_true, if_false, jsTrim_idempotent]
    · simp only [searchRoute, hcond, Bool.false_eq_true, if_false]
      exact ⟨_, _, rfl⟩
    · simp only [inDocumentSearchRoute, hcond, hcond2, Bool.false_eq_true, if_false,
        jsTrim_idempotent]
    · intro results reported total h
      simp only [inDocumentSearchRoute, hcond, Bool.false_eq_true, if_false] at h
      split at h
      · simp at h
      · split at h
        · simp only [InDocumentResponse.ok.injEq] at h
          exact h.2.1.symm
        · simp at h

end BlankQuery

/-- C21 on the absent query, the query of two spaces and the query ` fox `. -/
theorem blank_query_rejected_witness :
    (searchRoute sampleExternals failingGenerative (fun q c => jsIncludes q c)
          (fun x : ℚ => x) (0 : ℚ) 7 (some "  ".toList) 10 twoOwnerWorld =
        (SearchResponse.badRequest "Arama hatası".toList "Arama sorgusu gereklidir.".toList,
          twoOwnerWorld) ∧
      inDocumentSearchRoute failingGenerative 7 1 (some "  ".toList) twoOwnerWorld =
        (InDocumentResponse.badRequest "Arama sorgusu gerekli".toList
          "Lütfen bir arama sorgusu girin.".toList, twoOwnerWorld)) ∧
      inDocumentSearchRoute failingGenerative 7 1 (some " fox ".toList) twoOwnerWorld =
        inDocumentSearchRoute failingGenerative 7 1 (some (jsTrim " fox ".toList))
          twoOwnerWorld :=
  ⟨(blank_query_rejected sampleExternals failingGenerative (fun q c => jsIncludes q c)
      (fun x : ℚ => x) (0 : ℚ) 7 1 10 twoOwnerWorld).1 (some "  ".toList)
      (Or.inr ⟨"  ".toList, rfl, by decide⟩),
    ((blank_query_rejected sampleExternals failingGenerative (fun q c => jsIncludes q c)
      (fun x : ℚ => x) (0 : ℚ) 7 1 10 twoOwnerWorld).2 " fox ".toList
      ⟨'f', by decide, by decide⟩).2.2.1⟩

/-! ## Documents of another owner -/

section ForeignDocuments

variable {α : Type}

theorem findOne_foreign (userId : Nat) (documents : List (Document α)) (d : Document α)
    (hd : d ∈ documents) (howner : d.ownerId ≠ userId)
    (hnodup : (documents.map (fun x => x._id)).Nodup) :
    findOne documents d._id userId = none := by
  unfold findOne
  rw [List.find?_eq_none]
  intro x hx
  simp only [Bool.and_eq_true, beq_iff_eq, not_and]
  intro hid
  have : x = d := List.inj_on_of_nodup_map hnodup hx hd hid
  rw [this]
  exact howner

theorem findOne_absent (userId id : Nat) (documents : List (Document α))
    (h : id ∉ documents.map (fun x => x._id)) : findOne documents id userId = none := by
  unfold findOne
  rw [List.find?_eq_none]
  intro x hx
  simp only [Bool.and_eq_true, beq_iff_eq, not_and]
  intro hid
  exact absurd (List.mem_map.mpr ⟨x, hx, hid⟩) h

/-- C22: for a stored document owned by a user other than the requester, in a
store whose identifiers are distinct, the handlers `GET /:id` and `DELETE /:id`
answer `not found`, which carries no content, and the delete handler returns
the world as it was; the answers are the ones given for an identifier that no
document of the store has. -/
theorem foreign_document_not_found (userId : Nat) (w : World α) (d : Document α)
    (hd : d ∈ w.documents) (howner : d.ownerId ≠ userId)
    (hnodup : (w.documents.map (fun x => x._id)).Nodup) :
    getRoute userId d._id w = GetResponse.notFound ∧
      deleteRoute userId d._id w = (Response.notFound, w) ∧
      ∀ id, id ∉ w.documents.map (fun x => x._id) →
        getRoute userId id w = GetResponse.notFound ∧
          deleteRoute userId id w = (Response.notFound, w) := by
  have h1 := findOne_foreign userId w.documents d hd howner hnodup
  refine ⟨by simp only [getRoute, h1], by simp only [deleteRoute, h1], ?_⟩
  intro id hid
  have h2 := findOne_absent userId id w.documents hid
  exact ⟨by simp only [getRoute, h2], by simp only [deleteRoute, h2]⟩

end ForeignDocuments

/-- C22 for the requester `7` and the document of owner `8`. -/
theorem foreign_document_not_found_witness :
    getRoute 7 2 twoOwnerWorld = GetResponse.notFound ∧
      deleteRoute 7 2 twoOwnerWorld = (Response.notFound, twoOwnerWorld) :=
  have h := foreign_document_not_found 7 twoOwnerWorld
    { sampleDocument ℚ with _id := 2, ownerId := 8 } (by simp [twoOwnerWorld]) (by decide)
    (by decide)
  ⟨h.1, h.2.1⟩

/-! ## Deleting a user -/

theorem eraseP_eq_filter_of_nodup {β : Type} (f : β → Nat) (k : Nat) (l : List β)
    (hnodup : (l.map f).Nodup) :
    l.eraseP (fun x => f x == k) = l.filter (fun x => !(f x == k)) := by
  induction l with
  | nil => rfl
  | cons x xs ih =>
    simp only [List.map_cons, List.nodup_cons] at hnodup
    by_cases hx : f x = k
    · have hfilter : xs.filter (fun y => !(f y == k)) = xs := by
        rw [List.filter_eq_self]
        intro y hy
        simp only [Bool.not_eq_true', beq_eq_false_iff_ne, ne_eq]
        intro hyk
        exact hnodup.1 (List.mem_map.mpr ⟨y, hy, by rw [hyk, hx]⟩)
      simp only [List.eraseP_cons, beq_iff_eq, hx, if_true, List.filter_cons, Bool.not_true,
        Bool.false_eq_true, if_false, hfilter, cond_true, beq_self_eq_true]
    · have hb : (f x == k) = false := by simpa using hx
      simp only [List.eraseP_cons, hb, cond_false, List.filter_cons, Bool.not_false, if_true,
        ih hnodup.2, Bool.false_eq_true, if_false]

/-- C23: for every store and every existing user `id` other than the acting
admin, with distinct user identifiers, the admin's delete request succeeds;
afterwards no document has this owner and no user has this identifier, and the
documents of the other owners and the other users are exactly the ones that
were there, unchanged and in their order. -/
theorem deleteUser_cascades {α : Type} (adminId id : Nat) (users : List User) (w : World α)
    (hexists : ∃ u ∈ users, u._id = id) (hne : id ≠ adminId)
    (hnodup : (users.map (fun u => u._id)).Nodup) :
    (deleteUserRoute adminId id users w).1 = Response.userDeleted ∧
      (∀ d ∈ (deleteUserRoute adminId id users w).2.2.documents, d.ownerId ≠ id) ∧
      (∀ u ∈ (deleteUserRoute adminId id users w).2.1, u._id ≠ id) ∧
      (deleteUserRoute adminId id users w).2.2.documents =
        w.documents.filter (fun d => !(d.ownerId == id)) ∧
      (deleteUserRoute adminId id users w).2.1 = users.filter (fun u => !(u._id == id)) ∧
      (∀ d ∈ w.documents, d.ownerId ≠ id →
        d ∈ (deleteUserRoute adminId id users w).2.2.documents) ∧
      (∀ u ∈ users, u._id ≠ id → u ∈ (deleteUserRoute adminId id users w).2.1) := by
  obtain ⟨u, hu, huid⟩ := hexists
  have hfind : ∃ v, users.find? (fun u => u._id == id) = some v := by
    cases h : users.find? (fun u => u._id == id) with
    | some v => exact ⟨v, rfl⟩
    | none =>
      rw [List.find?_eq_none] at h
      exact absurd (by simpa using huid) (h u hu)
  obtain ⟨v, hv⟩ := hfind
  have herase := eraseP_eq_filter_of_nodup (fun u : User => u._id) id users hnodup
  have hroute : deleteUserRoute adminId id users w =
      (Response.userDeleted, users.filter (fun u => !(u._id == id)),
        { w with documents := w.documents.filter (fun d => !(d.ownerId == id)) }) := by
    simp only [deleteUserRoute, hne, if_false, hv, herase]
  rw [hroute]
  refine ⟨rfl, ?_, ?_, rfl, rfl, ?_, ?_⟩
  · intro d hd
    have := (List.mem_filter.mp hd).2
    simpa using this
  · intro x hx
    have := (List.mem_filter.mp hx).2
    simpa using this
  · intro d hd hdo
    exact List.mem_filter.mpr ⟨hd, by simpa using hdo⟩
  · intro x hx hxo
    exact List.mem_filter.mpr ⟨hx, by simpa using hxo⟩

/-- C23 for the admin `1` deleting the user `7` in a store with documents of the
owners `7` and `8`. -/
theorem deleteUser_cascades_witness :
    (∃ u ∈ sampleUsers, u._id = 7) ∧ (7 : Nat) ≠ 1 ∧
      (deleteUserRoute 1 7 sampleUsers twoOwnerWorld).1 = Response.userDeleted ∧
      (deleteUserRoute 1 7 sampleUsers twoOwnerWorld).2.2.documents =
        twoOwnerWorld.documents.filter (fun d => !(d.ownerId == 7)) ∧
      (deleteUserRoute 1 7 sampleUsers twoOwnerWorld).2.1 =
        sampleUsers.filter (fun u => !(u._id == 7)) :=
  have h := deleteUser_cascades 1 7 sampleUsers twoOwnerWorld (by decide) (by decide)
    (by decide)
  ⟨by decide, by decide, h.1, h.2.2.2.1, h.2.2.2.2.1⟩

/-! ## The order of the routes -/

/-- C28: in the documents router the route `GET /:id` is registered before the
route `GET /search`; the request `GET /search` is dispatched to the get-by-id
handler with `id = "search"`, and no request is dispatched to the
cross-document search handler. -/
theorem search_route_shadowed :
    documentsRoutes.findIdx (fun r => r.handler == DocumentsHandler.getById) <
        documentsRoutes.findIdx (fun r => r.handler == DocumentsHandler.search) ∧
      dispatch documentsRoutes HttpMethod.get ["search".toList] =
        some (DocumentsHandler.getById, [("id".toList, "search".toList)]) ∧
      ∀ (method : HttpMethod) (path : List (List Char))
        (result : DocumentsHandler × List (List Char × List Char)),
        dispatch documentsRoutes method path = some result →
          result.1 ≠ DocumentsHandler.search := by
  refine ⟨by decide, by decide, ?_⟩
  intro method path result h
  cases method <;> rcases path with _ | ⟨x, _ | ⟨y, _ | ⟨z, zs⟩⟩⟩ <;>
    simp [dispatch, documentsRoutes, List.findSome?, matchPattern] at h
  · rw [← h]
    decide
  all_goals
    by_cases hx : x = []
    · simp [hx] at h
    · try simp only [hx, if_false] at h
      repeat' split at h
      all_goals simp_all
      all_goals
        rename_i hres
        first
        | (subst hres; simp)
        | (obtain ⟨_, rfl⟩ := hres; simp)

/-! ## Similarity of two embeddings -/

theorem similarity_gt_of_sums (e1 e2 : List ℝ) (hlen : e1.length = e2.length)
    (hn1 : 0 < ((e1.zip e2).map (fun p => p.1 * p.1)).sum)
    (hn2 : 0 < ((e1.zip e2).map (fun p => p.2 * p.2)).sum)
    (hd : 3 / 20 * (((e1.zip e2).map (fun p => p.1 * p.1)).sum +
        ((e1.zip e2).map (fun p => p.2 * p.2)).sum) <
      ((e1.zip e2).map (fun p => p.1 * p.2)).sum) :
    3 / 10 < calculateSimilarity Real.sqrt (some e1) (some e2) := by
  have hs1 := Real.sqrt_pos.mpr hn1
  have hs2 := Real.sqrt_pos.mpr hn2
  have hprod : Real.sqrt (((e1.zip e2).map (fun p => p.1 * p.1)).sum) *
      Real.sqrt (((e1.zip e2).map (fun p => p.2 * p.2)).sum) ≤
      (((e1.zip e2).map (fun p => p.1 * p.1)).sum +
        ((e1.zip e2).map (fun p => p.2 * p.2)).sum) / 2 := by
    have h1 := Real.sq_sqrt hn1.le
    have h2 := Real.sq_sqrt hn2.le
    nlinarith [sq_nonneg (Real.sqrt (((e1.zip e2).map (fun p => p.1 * p.1)).sum) -
      Real.sqrt (((e1.zip e2).map (fun p => p.2 * p.2)).sum))]
  simp only [calculateSimilarity, similaritySums_eq, hlen, ne_eq, not_true_eq_false, if_false,
    hs1.ne', hs2.ne', or_self]
  rw [lt_div_iff₀ (mul_pos hs1 hs2)]
  linarith

theorem generateEmbedding_cases (E : Externals) (gen : Generative) (calls : Nat) (random : ℝ)
    (text : List Char) (h0 : 0 ≤ random) (h1 : random < 1) :
    (∃ a1 a2 a3 a4 : ℝ, (generateEmbedding E gen calls random text).1 = [a1, a2, a3, a4] ∧
        0 ≤ a1 ∧ a1 ≤ 1 ∧ 0 ≤ a2 ∧ a2 ≤ 1 ∧ 0 ≤ a3 ∧ a3 ≤ 1 ∧ 9 / 10 ≤ a4 ∧ a4 < 1) ∨
      (generateEmbedding E gen calls random text).1 = [1 / 2, 1 / 2, 1 / 2, 1 / 2] := by
  have hmin : ∀ n : Nat, ∀ k : ℝ, 0 < k → 0 ≤ min ((n : ℝ) / k) 1 ∧ min ((n : ℝ) / k) 1 ≤ 1 :=
    fun n k hk => ⟨le_min (div_nonneg (Nat.cast_nonneg n) hk.le) zero_le_one, min_le_right _ _⟩
  unfold generateEmbedding
  split
  · left
    refine ⟨_, _, _, _, rfl, (hmin _ _ (by norm_num)).1, (hmin _ _ (by norm_num)).2,
      (hmin _ _ (by norm_num)).1, (hmin _ _ (by norm_num)).2, (hmin _ _ (by norm_num)).1,
      (hmin _ _ (by norm_num)).2, by linarith, by linarith⟩
  · right
    rfl

theorem mul_self_le_self_unit (a : ℝ) (h0 : 0 ≤ a) (h1 : a ≤ 1) : a * a ≤ a :=
  mul_le_of_le_one_left h0 h1

theorem unit_product_lower (a b : ℝ) (ha : a ≤ 1) (hb : b ≤ 1) : a + b - 1 ≤ a * b := by
  have h := mul_nonneg (sub_nonneg.mpr ha) (sub_nonneg.mpr hb)
  linarith [show (1 - a) * (1 - b) = 1 - a - b + a * b by ring]

theorem high_product_lower (a b : ℝ) (ha : 9 / 10 ≤ a) (hb : 9 / 10 ≤ b) :
    9 / 10 * a + 9 / 10 * b - 81 / 100 ≤ a * b := by
  have h := mul_nonneg (sub_nonneg.mpr ha) (sub_nonneg.mpr hb)
  linarith [show (a - 9 / 10) * (b - 9 / 10) = a * b - 9 / 10 * a - 9 / 10 * b + 81 / 100 by ring]

theorem mul_self_pos_of_high (a : ℝ) (ha : 9 / 10 ≤ a) : 0 < a * a :=
  mul_pos (by linarith) (by linarith)

theorem similarity_success_success (a1 a2 a3 a4 b1 b2 b3 b4 : ℝ)
    (ha1 : 0 ≤ a1) (ha1' : a1 ≤ 1) (ha2 : 0 ≤ a2) (ha2' : a2 ≤ 1) (ha3 : 0 ≤ a3) (ha3' : a3 ≤ 1)
    (ha4 : 9 / 10 ≤ a4) (ha4' : a4 < 1)
    (hb1 : 0 ≤ b1) (hb1' : b1 ≤ 1) (hb2 : 0 ≤ b2) (hb2' : b2 ≤ 1) (hb3 : 0 ≤ b3) (hb3' : b3 ≤ 1)
    (hb4 : 9 / 10 ≤ b4) (hb4' : b4 < 1) :
    3 / 10 < calculateSimilarity Real.sqrt (some [a1, a2, a3, a4]) (some [b1, b2, b3, b4]) := by
  have p4a : 0 < a4 * a4 := mul_self_pos_of_high a4 ha4
  have p4b : 0 < b4 * b4 := mul_self_pos_of_high b4 hb4
  apply similarity_gt_of_sums [a1, a2, a3, a4] [b1, b2, b3, b4] rfl
  · simp only [List.zip_cons_cons, List.zip_nil_right, List.map_cons, List.map_nil,
      List.sum_cons, List.sum_nil]
    linarith [mul_self_nonneg a1, mul_self_nonneg a2, mul_self_nonneg a3]
  · simp only [List.zip_cons_cons, List.zip_nil_right, List.map_cons, List.map_nil,
      List.sum_cons, List.sum_nil]
    linarith [mul_self_nonneg b1, mul_self_nonneg b2, mul_self_nonneg b3]
  · simp only [List.zip_cons_cons, List.zip_nil_right, List.map_cons, List.map_nil,
      List.sum_cons, List.sum_nil]
    have s1 : a1 * a1 ≤ a1 := mul_self_le_self_unit a1 ha1 ha1'
    have s2 : a2 * a2 ≤ a2 := mul_self_le_self_unit a2 ha2 ha2'
    have s3 : a3 * a3 ≤ a3 := mul_self_le_self_unit a3 ha3 ha3'
    have s4 : a4 * a4 ≤ a4 :=
      mul_self_le_self_unit a4 (by linarith) ha4'.le
    have t1 : b1 * b1 ≤ b1 := mul_self_le_self_unit b1 hb1 hb1'
    have t2 : b2 * b2 ≤ b2 := mul_self_le_self_unit b2 hb2 hb2'
    have t3 : b3 * b3 ≤ b3 := mul_self_le_self_unit b3 hb3 hb3'
    have t4 : b4 * b4 ≤ b4 :=
      mul_self_le_self_unit b4 (by linarith) hb4'.le
    have p1 : 0 ≤ a1 * b1 := mul_nonneg ha1 hb1
    have p2 : 0 ≤ a2 * b2 := mul_nonneg ha2 hb2
    have p3 : 0 ≤ a3 * b3 := mul_nonneg ha3 hb3
    have q1 : a1 + b1 - 1 ≤ a1 * b1 := unit_product_lower a1 b1 ha1' hb1'
    have q2 : a2 + b2 - 1 ≤ a2 * b2 := unit_product_lower a2 b2 ha2' hb2'
    have q3 : a3 + b3 - 1 ≤ a3 * b3 := unit_product_lower a3 b3 ha3' hb3'
    have q4 := high_product_lower a4 b4 ha4 hb4
    linarith

theorem similarity_fallback_success (b1 b2 b3 b4 : ℝ)
    (hb1 : 0 ≤ b1) (hb1' : b1 ≤ 1) (hb2 : 0 ≤ b2) (hb2' : b2 ≤ 1) (hb3 : 0 ≤ b3) (hb3' : b3 ≤ 1)
    (hb4 : 9 / 10 ≤ b4) (hb4' : b4 < 1) :
    3 / 10 < calculateSimilarity Real.sqrt (some [1 / 2, 1 / 2, 1 / 2, 1 / 2])
        (some [b1, b2, b3, b4]) ∧
      3 / 10 < calculateSimilarity Real.sqrt (some [b1, b2, b3, b4])
        (some [1 / 2, 1 / 2, 1 / 2, 1 / 2]) := by
  have p4b : 0 < b4 * b4 := mul_self_pos_of_high b4 hb4
  have t1 : b1 * b1 ≤ b1 := mul_self_le_self_unit b1 hb1 hb1'
  have t2 : b2 * b2 ≤ b2 := mul_self_le_self_unit b2 hb2 hb2'
  have t3 : b3 * b3 ≤ b3 := mul_self_le_self_unit b3 hb3 hb3'
  have t4 : b4 * b4 ≤ b4 :=
      mul_self_le_self_unit b4 (by linarith) hb4'.le
  constructor
  · apply similarity_gt_of_sums [1 / 2, 1 / 2, 1 / 2, 1 / 2] [b1, b2, b3, b4] rfl
    · simp only [List.zip_cons_cons, List.zip_nil_right, List.map_cons, List.map_nil,
        List.sum_cons, List.sum_nil]
      norm_num
    · simp only [List.zip_cons_cons, List.zip_nil_right, List.map_cons, List.map_nil,
        List.sum_cons, List.sum_nil]
      linarith [mul_self_nonneg b1, mul_self_nonneg b2, mul_self_nonneg b3]
    · simp only [List.zip_cons_cons, List.zip_nil_right, List.map_cons, List.map_nil,
        List.sum_cons, List.sum_nil]
      linarith
  · apply similarity_gt_of_sums [b1, b2, b3, b4] [1 / 2, 1 / 2, 1 / 2, 1 / 2] rfl
    · simp only [List.zip_cons_cons, List.zip_nil_right, List.map_cons, List.map_nil,
        List.sum_cons, List.sum_nil]
      linarith [mul_self_nonneg b1, mul_self_nonneg b2, mul_self_nonneg b3]
    · simp only [List.zip_cons_cons, List.zip_nil_right, List.map_cons, List.map_nil,
        List.sum_cons, List.sum_nil]
      norm_num
    · simp only [List.zip_cons_cons, List.zip_nil_right, List.map_cons, List.map_nil,
        List.sum_cons, List.sum_nil]
      linarith

/-- Two vectors produced by `generateEmbedding` have a similarity above `0.3`. -/
theorem generateEmbedding_similarity (E : Externals) (gen gen' : Generative)
    (calls calls' : Nat) (r r' : ℝ) (text text' : List Char)
    (h0 : 0 ≤ r) (h1 : r < 1) (h0' : 0 ≤ r') (h1' : r' < 1) :
    3 / 10 < calculateSimilarity Real.sqrt (some (generateEmbedding E gen calls r text).1)
      (some (generateEmbedding E gen' calls' r' text').1) := by
  rcases generateEmbedding_cases E gen calls r text h0 h1 with
    ⟨a1, a2, a3, a4, ha, ha1, ha1', ha2, ha2', ha3, ha3', ha4, ha4'⟩ | ha <;>
  rcases generateEmbedding_cases E gen' calls' r' text' h0' h1' with
    ⟨b1, b2, b3, b4, hb, hb1, hb1', hb2, hb2', hb3, hb3', hb4, hb4'⟩ | hb <;>
  rw [ha, hb]
  · exact similarity_success_success a1 a2 a3 a4 b1 b2 b3 b4 ha1 ha1' ha2 ha2' ha3 ha3' ha4 ha4'
      hb1 hb1' hb2 hb2' hb3 hb3' hb4 hb4'
  · exact (similarity_fallback_success a1 a2 a3 a4 ha1 ha1' ha2 ha2' ha3 ha3' ha4 ha4').2
  · exact (similarity_fallback_success b1 b2 b3 b4 hb1 hb1' hb2 hb2' hb3 hb3' hb4 hb4').1
  · rw [calculateSimilarity_self_real _ ⟨1 / 2, by simp, by norm_num⟩]
    norm_num

/-- C26: for every two vectors produced by `generateEmbedding` with random draws
in `[0, 1)`, `calculateSimilarity` over the reals is strictly greater than
`0.3`; yet for a stored document and a query whose embeddings are both the
output of `generateEmbedding` (here its fallback), the semantic pass of the
handler returns no document, since it reads the documents without their
embedding. -/
theorem embedding_similarity_above_threshold_yet_excluded :
    (∀ (E : Externals) (gen gen' : Generative) (calls calls' : Nat) (r r' : ℝ)
        (text text' : List Char), 0 ≤ r → r < 1 → 0 ≤ r' → r' < 1 →
        3 / 10 < calculateSimilarity Real.sqrt (some (generateEmbedding E gen calls r text).1)
          (some (generateEmbedding E gen' calls' r' text').1)) ∧
      (sampleDocument ℝ).embedding =
        some (generateEmbedding sampleExternals failingGenerative 0 (0 : ℝ) "abc".toList).1 ∧
      3 / 10 < calculateSimilarity Real.sqrt
        (some (generateEmbedding sampleExternals failingGenerative 0 (0 : ℝ) "fox".toList).1)
        (sampleDocument ℝ).embedding ∧
      semanticResults Real.sqrt
        (some (generateEmbedding sampleExternals failingGenerative 0 (0 : ℝ) "fox".toList).1)
        [sampleDocument ℝ] 7 10 = [] := by
  refine ⟨fun E gen gen' calls calls' r r' text text' h0 h1 h0' h1' =>
    generateEmbedding_similarity E gen gen' calls calls' r r' text text' h0 h1 h0' h1', rfl, ?_,
    semanticResults_eq_nil _ _ _ _ _⟩
  have h : (sampleDocument ℝ).embedding =
      some (generateEmbedding sampleExternals failingGenerative 0 (0 : ℝ) "abc".toList).1 := rfl
  rw [h]
  exact generateEmbedding_similarity _ _ _ _ _ _ _ _ _ (le_refl 0) (by norm_num) (le_refl 0)
    (by norm_num)

/-! ## Decimal numerals -/

theorem digitChar_toNat (m : Nat) (h : m < 10) : (Nat.digitChar m).toNat - 48 = m := by
  interval_cases m <;> rfl

theorem digitChar_isJsDigit (m : Nat) (h : m < 10) : isJsDigit (Nat.digitChar m) = true := by
  interval_cases m <;> rfl

theorem toDigitsCore_foldl (fuel n : Nat) (ds : List Char) (h : n < fuel) :
    (Nat.toDigitsCore 10 fuel n ds).foldl (fun n c => 10 * n + (c.toNat - 48)) 0 =
      ds.foldl (fun n c => 10 * n + (c.toNat - 48)) n := by
  induction fuel generalizing n ds with
  | zero => omega
  | succ fuel ih =>
    simp only [Nat.toDigitsCore]
    split
    · rename_i hz
      have hlt : n < 10 := by omega
      simp only [List.foldl_cons, Nat.mul_zero, Nat.zero_add,
        digitChar_toNat (n % 10) (Nat.mod_lt _ (by norm_num))]
      rw [Nat.mod_eq_of_lt hlt]
    · rename_i hz
      rw [ih (n / 10) _ (by omega)]
      simp only [List.foldl_cons, digitChar_toNat (n % 10) (Nat.mod_lt _ (by norm_num))]
      rw [Nat.div_add_mod]

theorem toDigitsCore_digits (fuel n : Nat) (ds : List Char)
    (h : ∀ c ∈ ds, isJsDigit c = true) :
    ∀ c ∈ Nat.toDigitsCore 10 fuel n ds, isJsDigit c = true := by
  induction fuel generalizing n ds with
  | zero => simpa [Nat.toDigitsCore] using h
  | succ fuel ih =>
    have hcons : ∀ c ∈ Nat.digitChar (n % 10) :: ds, isJsDigit c = true := by
      intro c hc
      rcases List.mem_cons.mp hc with rfl | hc
      · exact digitChar_isJsDigit _ (Nat.mod_lt _ (by norm_num))
      · exact h c hc
    simp only [Nat.toDigitsCore]
    split
    · exact hcons
    · exact ih _ _ hcons

theorem toDigitsCore_ne_nil (fuel n : Nat) (ds : List Char) (h : ds ≠ []) :
    Nat.toDigitsCore 10 fuel n ds ≠ [] := by
  induction fuel generalizing n ds with
  | zero => simpa [Nat.toDigitsCore] using h
  | succ fuel ih =>
    simp only [Nat.toDigitsCore]
    split
    · simp
    · exact ih _ _ (by simp)

/-- The decimal numeral of a natural number is a non-empty string of digits
that writes the number. -/
theorem numeral_spec (n : Nat) :
    digitsValue (toString n).toList = n ∧ (∀ c ∈ (toString n).toList, isJsDigit c = true) ∧
      (toString n).toList ≠ [] := by
  have e : (toString n).toList = Nat.toDigitsCore 10 (n + 1) n [] := rfl
  rw [e]
  refine ⟨?_, toDigitsCore_digits _ _ _ (by simp), ?_⟩
  · have := toDigitsCore_foldl (n + 1) n [] (Nat.lt_succ_self n)
    simpa [digitsValue] using this
  · simp only [Nat.toDigitsCore]
    split
    · simp
    · exact toDigitsCore_ne_nil _ _ _ (by simp)

/-! ## Round trip of the result format -/

theorem separator_eq : " - ".toList = [' ', '-', ' '] := rfl

theorem separator_not_prefix_of_second (c : Char) (t : List Char) (h : t.head? ≠ some '-') :
    " - ".toList.isPrefixOf (c :: t) = false := by
  rw [separator_eq]
  cases t with
  | nil => simp [List.isPrefixOf]
  | cons x xs =>
    have hx : ('-' == x) = false := by
      rw [beq_eq_false_iff_ne]
      intro e
      subst e
      exact h rfl
    simp [List.isPrefixOf, hx]

theorem separator_not_prefix_of_first (c : Char) (t : List Char) (h : c ≠ ' ') :
    " - ".toList.isPrefixOf (c :: t) = false := by
  rw [separator_eq]
  have hc : (' ' == c) = false := by
    rw [beq_eq_false_iff_ne]
    exact fun e => h e.symm
  simp [List.isPrefixOf, hc]

theorem splitString_advance (l acc t : List Char) (hl : '-' ∉ l) (ht : t.head? ≠ some '-') :
    splitString " - ".toList 0 acc (l ++ t) = splitString " - ".toList 0 (l.reverse ++ acc) t := by
  induction l generalizing acc with
  | nil => simp
  | cons c cs ih =>
    have hcs : '-' ∉ cs := fun h => hl (List.mem_cons_of_mem _ h)
    have hhead : (cs ++ t).head? ≠ some '-' := by
      cases cs with
      | nil => simpa using ht
      | cons x xs =>
        simp only [List.cons_append, List.head?_cons, ne_eq, Option.some.injEq]
        intro hx
        exact hl (by simp [hx])
    rw [List.cons_append]
    simp only [splitString, separator_not_prefix_of_second c (cs ++ t) hhead]
    rw [ih (c :: acc) hcs]
    simp

theorem splitString_nonspace (l acc t : List Char) (hl : ∀ c ∈ l, c ≠ ' ') :
    splitString " - ".toList 0 acc (l ++ t) = splitString " - ".toList 0 (l.reverse ++ acc) t := by
  induction l generalizing acc with
  | nil => simp
  | cons c cs ih =>
    rw [List.cons_append]
    simp only [splitString, separator_not_prefix_of_first c (cs ++ t) (hl c (by simp))]
    rw [ih (c :: acc) (fun x hx => hl x (List.mem_cons_of_mem _ hx))]
    simp

theorem splitString_separator (acc t : List Char) :
    splitString " - ".toList 0 acc (" - ".toList ++ t) =
      acc.reverse :: splitString " - ".toList 0 [] t := by
  rw [separator_eq]
  simp [splitString, List.isPrefixOf]

/-- The three fields of a line made of a position part, a description without
hyphen and a last part without hyphen. -/
theorem splitString_three_fields (x y d q : List Char) (hx : '-' ∉ x)
    (hy : ∀ c ∈ y, c ≠ ' ') (hyhead : y.head? ≠ some '-') (hyne : y ≠ [])
    (hd : '-' ∉ d) (hq : '-' ∉ q) :
    splitString " - ".toList 0 []
        (x ++ (y ++ (" - ".toList ++ (d ++ (" - ".toList ++ q))))) = [x ++ y, d, q] := by
  have hsep : ∀ t : List Char, (" - ".toList ++ t).head? ≠ some '-' := by
    intro t
    rw [separator_eq]
    simp
  have hyt : ∀ t : List Char, (y ++ t).head? ≠ some '-' := by
    intro t
    obtain ⟨a, as, rfl⟩ := List.exists_cons_of_ne_nil hyne
    simpa using hyhead
  rw [splitString_advance x [] _ hx (hyt _), splitString_nonspace y _ _ hy,
    splitString_separator, splitString_advance d [] _ hd (hsep _), splitString_separator]
  have hlast := splitString_advance q [] [] hq (by simp)
  rw [List.append_nil] at hlast
  rw [hlast]
  simp [splitString]

theorem jsIncludes_of_prefix (pat l : List Char) (hne : l ≠ [])
    (h : pat.isPrefixOf l = true) : jsIncludes pat l = true := by
  cases l with
  | nil => exact absurd rfl hne
  | cons c cs => simp [jsIncludes, h]

theorem jsIncludes_singleton (c : Char) (l : List Char) (h : c ∈ l) :
    jsIncludes [c] l = true := by
  induction l with
  | nil => simp at h
  | cons x xs ih =>
    rcases List.mem_cons.mp h with rfl | h
    · simp [jsIncludes, List.isPrefixOf]
    · simp [jsIncludes, ih h]

theorem removeFirst_prefix (pat rest : List Char) (hne : pat ≠ []) :
    removeFirst pat (pat ++ rest) = rest := by
  obtain ⟨p, ps, rfl⟩ := List.exists_cons_of_ne_nil hne
  have hpre : (p :: ps).isPrefixOf (p :: (ps ++ rest)) = true := by
    rw [← List.cons_append, List.isPrefixOf_iff_prefix]
    exact List.prefix_append _ _
  rw [List.cons_append]
  simp only [removeFirst, hpre, if_true]
  rw [← List.cons_append, List.drop_left]

theorem jsTrim_of_ends (a z : Char) (l : List Char) (ha : isJsWhitespace a = false)
    (hz : isJsWhitespace z = false) :
    jsTrim (' ' :: a :: (l ++ [z])) = a :: (l ++ [z]) := by
  have hsp : isJsWhitespace ' ' = true := by decide
  have h1 : (' ' :: a :: (l ++ [z])).dropWhile isJsWhitespace = a :: (l ++ [z]) := by
    rw [List.dropWhile_cons_of_pos hsp, List.dropWhile_cons_of_neg (by simp [ha])]
  have h2 : (a :: (l ++ [z])).reverse = z :: (a :: l).reverse := by simp
  rw [jsTrim, h1, h2, List.dropWhile_cons_of_neg (by simp [hz])]
  simp

theorem matchPosition_skip_nondigit (c : Char) (t : List Char) (hc : isJsDigit c = false) :
    matchPosition (c :: t) = matchPosition t := by
  rw [matchPosition]
  simp [List.takeWhile_cons, hc]

theorem matchPosition_skip_digits (ds : List Char) (c : Char) (t : List Char)
    (hds : ∀ x ∈ ds, isJsDigit x = true) (hc : isJsDigit c = false) (hc2 : c ≠ '-') :
    matchPosition (ds ++ c :: t) = matchPosition (c :: t) := by
  induction ds with
  | nil => rfl
  | cons d ds ih =>
    have hall : ∀ x ∈ d :: ds, isJsDigit x = true := hds
    have htake : ((d :: ds) ++ c :: t).takeWhile isJsDigit = d :: ds := by
      rw [List.takeWhile_append_of_pos hall]
      simp [List.takeWhile_cons, hc]
    have hdrop : ((d :: ds) ++ c :: t).dropWhile isJsDigit = c :: t := by
      rw [List.dropWhile_append_of_pos hall]
      simp [List.dropWhile_cons, hc]
    have hstep : matchPosition ((d :: ds) ++ c :: t) = matchPosition (ds ++ c :: t) := by
      rw [List.cons_append, matchPosition, ← List.cons_append, htake, hdrop]
      split
      · rename_i heq1 heq2
        simp only [List.cons.injEq] at heq2
        exact absurd heq2.1 hc2
      · rfl
    rw [hstep]
    exact ih (fun x hx => hds x (List.mem_cons_of_mem _ hx))

theorem matchPosition_offsets (ds de : List Char) (hds : ∀ x ∈ ds, isJsDigit x = true)
    (hde : ∀ x ∈ de, isJsDigit x = true) (hdsne : ds ≠ []) (hdene : de ≠ []) :
    matchPosition (ds ++ '-' :: de) = some (parseDigits ds, parseDigits de) := by
  obtain ⟨d, ds', rfl⟩ := List.exists_cons_of_ne_nil hdsne
  obtain ⟨e, de', rfl⟩ := List.exists_cons_of_ne_nil hdene
  have hdash : isJsDigit '-' = false := by decide
  have htake : ((d :: ds') ++ '-' :: e :: de').takeWhile isJsDigit = d :: ds' := by
    rw [List.takeWhile_append_of_pos hds]
    simp [List.takeWhile_cons, hdash]
  have hdrop : ((d :: ds') ++ '-' :: e :: de').dropWhile isJsDigit = '-' :: e :: de' := by
    rw [List.dropWhile_append_of_pos hds]
    simp [List.dropWhile_cons, hdash]
  have htake2 : (e :: de').takeWhile isJsDigit = e :: de' :=
    List.takeWhile_eq_self_iff.mpr hde
  rw [List.cons_append, matchPosition, ← List.cons_append, htake, hdrop]
  simp only [htake2]

theorem matchImportance_rendered (dk : List Char) (hdk : ∀ x ∈ dk, isJsDigit x = true)
    (hne : dk ≠ []) : matchImportance ("Önem: ".toList ++ dk) = some (parseDigits dk) := by
  obtain ⟨d, dk', rfl⟩ := List.exists_cons_of_ne_nil hne
  have hd : isJsDigit d = true := hdk d (List.mem_cons_self _ _)
  have hshape : "Önem: ".toList ++ d :: dk' = 'Ö' :: ("nem: ".toList ++ d :: dk') := rfl
  have hpre : importanceLabel.isPrefixOf ('Ö' :: ("nem: ".toList ++ d :: dk')) = true := by
    rw [List.isPrefixOf_iff_prefix]
    exact ⟨' ' :: d :: dk', rfl⟩
  have hdrop : ('Ö' :: ("nem: ".toList ++ d :: dk')).drop importanceLabel.length =
      ' ' :: d :: dk' := rfl
  have htake : (d :: dk').takeWhile isJsDigit = d :: dk' :=
    List.takeWhile_eq_self_iff.mpr hdk
  have hws : ((' ' :: d :: dk').dropWhile isJsWhitespace) = d :: dk' := by
    rw [List.dropWhile_cons_of_pos (by decide),
      List.dropWhile_cons_of_neg (by simp [isJsWhitespace_of_digit d hd])]
  rw [hshape, matchImportance]
  simp only [hpre, if_true, hdrop, hws, htake]

theorem jsSubstring_in_range (s : List Char) (a b : Nat) (h1 : a ≤ b) (h2 : b ≤ s.length) :
    jsSubstring s a b = (s.drop a).take (b - a) := by
  have ha : min a s.length = a := Nat.min_eq_left (le_trans h1 h2)
  have hb : min b s.length = b := Nat.min_eq_left h2
  simp only [jsSubstring, ha, hb, Nat.min_eq_left h1, Nat.max_eq_right h1]

theorem renderLine_shape (i : Nat) (r : SegmentSpec) :
    renderLine i r = (segmentMarker ++ ' ' :: ((toString i).toList ++ [':', ' '])) ++
      (((toString r.start).toList ++ '-' :: (toString r.end_).toList) ++
        (" - ".toList ++ (r.description ++ (" - ".toList ++
          ("Önem: ".toList ++ (toString r.importance).toList))))) := by
  have e1 : "BÖLÜM ".toList = segmentMarker ++ [' '] := rfl
  have e2 : ": ".toList = [':', ' '] := rfl
  have e3 : "-".toList = ['-'] := rfl
  rw [renderLine, e1, e2, e3]
  simp only [List.append_assoc, List.cons_append, List.nil_append]

theorem not_digit_of_not_mem (c : Char) (hc : isJsDigit c = false) (ds : List Char)
    (hds : ∀ x ∈ ds, isJsDigit x = true) : c ∉ ds := by
  intro h
  rw [hds c h] at hc
  exact Bool.noConfusion hc

theorem parseLine_rendered (documentText di ds de dk : List Char) (description : List Char)
    (hdi : ∀ x ∈ di, isJsDigit x = true) (hdine : di ≠ [])
    (hds : ∀ x ∈ ds, isJsDigit x = true) (hdsne : ds ≠ [])
    (hde : ∀ x ∈ de, isJsDigit x = true) (hdene : de ≠ [])
    (hdk : ∀ x ∈ dk, isJsDigit x = true) (hdkne : dk ≠ [])
    (hdesc : '-' ∉ description) :
    parseLine documentText ((segmentMarker ++ ' ' :: (di ++ [':', ' '])) ++
      ((ds ++ '-' :: de) ++ (" - ".toList ++ (description ++ (" - ".toList ++
        ("Önem: ".toList ++ dk)))))) =
      some
        { start := parseDigits ds
          end_ := parseDigits de
          text := jsSubstring documentText (parseDigits ds) (parseDigits de)
          description := description
          importance := parseDigits dk } := by
  have hdash : isJsDigit '-' = false := by decide
  have hspace : isJsDigit ' ' = false := by decide
  have hx : '-' ∉ segmentMarker ++ ' ' :: (di ++ [':', ' ']) := by
    intro h
    rcases List.mem_append.mp h with h | h
    · revert h
      decide
    · rcases List.mem_cons.mp h with h | h
      · revert h
        decide
      · rcases List.mem_append.mp h with h | h
        · exact not_digit_of_not_mem _ hdash di hdi h
        · revert h
          decide
  have hy : ∀ c ∈ ds ++ '-' :: de, c ≠ ' ' := by
    intro c hc e
    subst e
    rcases List.mem_append.mp hc with h | h
    · exact not_digit_of_not_mem _ hspace ds hds h
    · rcases List.mem_cons.mp h with h | h
      · revert h
        decide
      · exact not_digit_of_not_mem _ hspace de hde h
  have hyne : ds ++ '-' :: de ≠ [] := by simp
  have hyhead : (ds ++ '-' :: de).head? ≠ some '-' := by
    obtain ⟨d, ds', rfl⟩ := List.exists_cons_of_ne_nil hdsne
    simp only [List.cons_append, List.head?_cons, ne_eq, Option.some.injEq]
    intro e
    have := hds d (List.mem_cons_self _ _)
    rw [e, hdash] at this
    exact Bool.noConfusion this
  have hq : '-' ∉ "Önem: ".toList ++ dk := by
    intro h
    rcases List.mem_append.mp h with h | h
    · revert h
      decide
    · exact not_digit_of_not_mem _ hdash dk hdk h
  have hsplit := splitString_three_fields _ _ _ _ hx hy hyhead hyne hdesc hq
  have hinc1 : jsIncludes segmentMarker ((segmentMarker ++ ' ' :: (di ++ [':', ' '])) ++
      ((ds ++ '-' :: de) ++ (" - ".toList ++ (description ++ (" - ".toList ++
        ("Önem: ".toList ++ dk)))))) = true := by
    apply jsIncludes_of_prefix
    · simp
    · rw [List.isPrefixOf_iff_prefix, List.append_assoc]
      exact List.prefix_append _ _
  have hinc2 : jsIncludes ['-'] ((segmentMarker ++ ' ' :: (di ++ [':', ' '])) ++
      ((ds ++ '-' :: de) ++ (" - ".toList ++ (description ++ (" - ".toList ++
        ("Önem: ".toList ++ dk)))))) = true := by
    apply jsIncludes_singleton
    simp
  have hfield : jsTrim (removeFirst segmentMarker
      ((segmentMarker ++ ' ' :: (di ++ [':', ' '])) ++ (ds ++ '-' :: de))) =
      di ++ ':' :: ' ' :: (ds ++ '-' :: de) := by
    rw [List.append_assoc, removeFirst_prefix _ _ (by decide)]
    obtain ⟨a, di', rfl⟩ := List.exists_cons_of_ne_nil hdine
    rcases List.eq_nil_or_concat de with h | ⟨de', z, rfl⟩
    · exact absurd h hdene
    · have ha := isJsWhitespace_of_digit a (hdi a (List.mem_cons_self _ _))
      have hz := isJsWhitespace_of_digit z (hde z (by simp))
      have := jsTrim_of_ends a z (di' ++ ':' :: ' ' :: (ds ++ '-' :: de')) ha hz
      simpa using this
  have hpos : matchPosition (di ++ ':' :: ' ' :: (ds ++ '-' :: de)) =
      some (parseDigits ds, parseDigits de) := by
    rw [matchPosition_skip_digits di ':' _ hdi (by decide) (by decide),
      matchPosition_skip_nondigit ':' _ (by decide),
      matchPosition_skip_nondigit ' ' _ (by decide)]
    exact matchPosition_offsets ds de hds hde hdsne hdene
  have himp := matchImportance_rendered dk hdk hdkne
  rw [parseLine]
  simp only [hinc1, hinc2, hsplit, Bool.and_self, if_true, List.length_cons, List.length_nil,
    List.getD_cons_zero, List.getD_cons_succ, hfield, hpos, himp]
  simp

theorem parseLine_renderLine (documentText : List Char) (i : Nat) (r : SegmentSpec)
    (h1 : r.start ≤ r.end_) (h2 : r.end_ ≤ documentText.length) (h3 : '-' ∉ r.description)
    (hlen : documentText.length < 2 ^ 53) (hk53 : r.importance < 2 ^ 53) :
    parseLine documentText (renderLine i r) = some (expectedResult documentText r) := by
  obtain ⟨_, hi, hine⟩ := numeral_spec i
  obtain ⟨hs, hsd, hsne⟩ := numeral_spec r.start
  obtain ⟨he, hed, hene⟩ := numeral_spec r.end_
  obtain ⟨hk, hkd, hkne⟩ := numeral_spec r.importance
  have hs2 : parseDigits (toString r.start).toList = r.start := by
    rw [parseDigits_of_lt _ (by rw [hs]; omega), hs]
  have he2 : parseDigits (toString r.end_).toList = r.end_ := by
    rw [parseDigits_of_lt _ (by rw [he]; omega), he]
  have hk2 : parseDigits (toString r.importance).toList = r.importance := by
    rw [parseDigits_of_lt _ (by rw [hk]; exact hk53), hk]
  rw [renderLine_shape, parseLine_rendered documentText _ _ _ _ _ hi hine hsd hsne hed hene
    hkd hkne h3, hs2, he2, hk2, jsSubstring_in_range _ _ _ h1 h2]
  rfl

theorem renderLine_no_newline (i : Nat) (r : SegmentSpec) (h : '\n' ∉ r.description) :
    '\n' ∉ renderLine i r := by
  have hnl : isJsDigit '\n' = false := by decide
  obtain ⟨_, hi, _⟩ := numeral_spec i
  obtain ⟨_, hsd, _⟩ := numeral_spec r.start
  obtain ⟨_, hed, _⟩ := numeral_spec r.end_
  obtain ⟨_, hkd, _⟩ := numeral_spec r.importance
  have n1 := not_digit_of_not_mem _ hnl _ hi
  have n2 := not_digit_of_not_mem _ hnl _ hsd
  have n3 := not_digit_of_not_mem _ hnl _ hed
  have n4 := not_digit_of_not_mem _ hnl _ hkd
  have m1 : '\n' ∉ segmentMarker := by decide
  have m2 : '\n' ∉ " - ".toList := by decide
  have m3 : '\n' ∉ "Önem: ".toList := by decide
  rw [renderLine_shape]
  simp only [List.mem_append, List.mem_cons, List.mem_singleton, not_or]
  refine ⟨⟨m1, by decide, n1, by decide, by decide⟩, ⟨n2, by decide, n3⟩, m2, h, m2, m3, n4⟩

theorem mem_renderLines (rs : List SegmentSpec) (i : Nat) (x : List Char)
    (hx : x ∈ renderLines i rs) : ∃ j, ∃ r ∈ rs, x = renderLine j r := by
  induction rs generalizing i with
  | nil => simp [renderLines] at hx
  | cons r rs ih =>
    simp only [renderLines, List.mem_cons] at hx
    rcases hx with rfl | hx
    · exact ⟨i, r, List.mem_cons_self _ _, rfl⟩
    · obtain ⟨j, r', hr', e⟩ := ih (i + 1) hx
      exact ⟨j, r', List.mem_cons_of_mem _ hr', e⟩

theorem filterMap_renderLines (documentText : List Char) (rs : List SegmentSpec) (i : Nat)
    (hlen : documentText.length < 2 ^ 53)
    (h : ∀ r ∈ rs, r.start ≤ r.end_ ∧ r.end_ ≤ documentText.length ∧ '-' ∉ r.description ∧
      r.importance < 2 ^ 53) :
    (renderLines i rs).filterMap (parseLine documentText) =
      rs.map (expectedResult documentText) := by
  induction rs generalizing i with
  | nil => rfl
  | cons r rs ih =>
    obtain ⟨h1, h2, h3, h4⟩ := h r (List.mem_cons_self _ _)
    rw [renderLines, List.filterMap_cons,
      parseLine_renderLine documentText i r h1 h2 h3 hlen h4]
    simp only [List.map_cons]
    rw [ih (i + 1) (fun r' hr' => h r' (List.mem_cons_of_mem _ hr'))]

/-- C29, refuted as stated: for the text `abc` and the one record
`(0, 3, x, 9007199254740993)`, which meets the conditions of the claim, the
rendered response is the line `BÖLÜM 1: 0-3 - x - Önem: 9007199254740993` and
`parseSearchResults` returns a record of importance `9007199254740992`, not the
record rendered. -/
theorem parseSearchResults_round_trip_rounded :
    (∀ r ∈ largeImportanceSegments, r.start ≤ r.end_ ∧ r.end_ ≤ "abc".toList.length ∧
        '-' ∉ r.description ∧ '\n' ∉ r.description) ∧
      joinLines (renderLines 1 largeImportanceSegments) = largeImportanceLine ∧
      parseSearchResults (joinLines (renderLines 1 largeImportanceSegments)) "abc".toList =
        [{ start := 0, end_ := 3, text := "abc".toList, description := "x".toList,
            importance := 9007199254740992 }] ∧
      parseSearchResults (joinLines (renderLines 1 largeImportanceSegments)) "abc".toList ≠
        (largeImportanceSegments.map (expectedResult "abc".toList)).insertionSort
          (fun a b => b.importance ≤ a.importance) := by
  refine ⟨by decide, by decide, by decide, by decide⟩

/-- C29: for every document text (a JavaScript string, of fewer than `2^53`
code units) and every list of records whose offsets satisfy
`start ≤ end ≤ length of the text`, whose importance is below `2^53` and whose
descriptions hold no hyphen and no line feed, parsing the response made of the
lines `BÖLÜM i: start-end - description - Önem: importance` (numbered from any
first index) joined by line feeds returns those records, each with the text of
the document between its offsets, stably sorted by descending importance: the
result is the stable insertion sort of the records, it is in non-increasing
order of importance, it is a permutation of the records, and the records of
each importance keep their order. -/
theorem parseSearchResults_round_trip_bounded (documentText : List Char)
    (records : List SegmentSpec) (first : Nat) (hlen : documentText.length < 2 ^ 53)
    (h : ∀ r ∈ records, r.start ≤ r.end_ ∧ r.end_ ≤ documentText.length ∧
      r.importance < 2 ^ 53 ∧ '-' ∉ r.description ∧ '\n' ∉ r.description) :
    parseSearchResults (joinLines (renderLines first records)) documentText =
        (records.map (expectedResult documentText)).insertionSort
          (fun a b => b.importance ≤ a.importance) ∧
      (parseSearchResults (joinLines (renderLines first records)) documentText).Pairwise
        (fun a b => b.importance ≤ a.importance) ∧
      (parseSearchResults (joinLines (renderLines first records)) documentText).Perm
        (records.map (expectedResult documentText)) ∧
      ∀ k : Nat,
        (parseSearchResults (joinLines (renderLines first records)) documentText).filter
            (fun r => r.importance == k) =
          (records.map (expectedResult documentText)).filter (fun r => r.importance == k) := by
  have hlines : ∀ x ∈ renderLines first records, '\n' ∉ x := by
    intro x hx
    obtain ⟨j, r, hr, rfl⟩ := mem_renderLines records first x hx
    exact renderLine_no_newline j r (h r hr).2.2.2.2
  have hemit : emittedRecords (joinLines (renderLines first records)) documentText =
      records.map (expectedResult documentText) := by
    rw [emittedRecords_joinLines documentText _ hlines]
    exact filterMap_renderLines documentText records first hlen
      (fun r hr => ⟨(h r hr).1, (h r hr).2.1, (h r hr).2.2.2.1, (h r hr).2.2.1⟩)
  have hparse : parseSearchResults (joinLines (renderLines first records)) documentText =
      sortByImportance (records.map (expectedResult documentText)) := by
    rw [parseSearchResults, hemit]
  rw [hparse]
  exact ⟨rfl, sortByImportance_pairwise _, List.perm_insertionSort _ _,
    fun k => sortByImportance_filter k _⟩

/-- C29 on the text `"The quick brown fox"` and two records, the second of the
higher importance: the parser returns the second record first. -/
theorem parseSearchResults_round_trip_bounded_witness :
    "The quick brown fox".toList.length < 2 ^ 53 ∧
      (∀ r ∈ sampleSegments, r.start ≤ r.end_ ∧ r.end_ ≤ "The quick brown fox".toList.length ∧
        r.importance < 2 ^ 53 ∧ '-' ∉ r.description ∧ '\n' ∉ r.description) ∧
      parseSearchResults (joinLines (renderLines 1 sampleSegments))
          "The quick brown fox".toList =
        [{ start := 16, end_ := 19, text := "fox".toList, description := "the fox".toList,
            importance := 8 },
          { start := 4, end_ := 9, text := "quick".toList, description := "quick".toList,
            importance := 3 }] :=
  ⟨by decide, by decide,
    (parseSearchResults_round_trip_bounded "The quick brown fox".toList sampleSegments 1
      (by decide) (by decide)).1.trans (by decide)⟩
end DocAnalysis
